import Mathlib

/-!
# ArbitrumPulse: the static-validation scripts

A shallow embedding of the checker scripts of the repository
(`check_contract.js`, `test_utils.js`, `code-snippets/stylus/*.js`,
`code-snippets/orbit/check.js`) and theorems about them.

JavaScript strings are sequences of UTF-16 code units; they are modelled as
lists of natural numbers.  A script is modelled as a function from what it
reads (command line, directory listing, file contents or read errors) to what
it produces (the lines written to standard output and to the error stream,
the exit status, the returned object).
-/

namespace ArbitrumPulse

/-! ## JavaScript strings -/

/-- A JavaScript string: its UTF-16 code units. -/
abbrev JSString := List Nat

/-- The UTF-16 code units of one Unicode scalar value. -/
def utf16 (c : Char) : List Nat :=
  if c.toNat < 65536 then [c.toNat]
  else [55296 + (c.toNat - 65536) / 1024, 56320 + (c.toNat - 65536) % 1024]

/-- A string literal of the source as a JavaScript string. -/
def js (s : String) : JSString :=
  s.toList.flatMap utf16

/-- `String.prototype.startsWith(searchString)` with position 0. -/
def startsWith : JSString → JSString → Bool
  | _, [] => true
  | [], _ :: _ => false
  | c :: cs, p :: ps => c == p && startsWith cs ps

/-- `String.prototype.endsWith(searchString)` with the default end position:
the search string is compared with the last `searchString.length` code units,
and the answer is `false` when the string is shorter than the search string. -/
def endsWith (s searchString : JSString) : Bool :=
  decide (searchString.length ≤ s.length) &&
    (s.drop (s.length - searchString.length) == searchString)

/-- `String.prototype.includes(searchString)` with position 0: the search
string occurs at some index of the string. -/
def includes : JSString → JSString → Bool
  | [], pat => startsWith [] pat
  | c :: cs, pat => startsWith (c :: cs) pat || includes cs pat

/-- The decimal digits of a number, as the template literal `${n}` prints an
integer. -/
def natToString (n : Nat) : JSString :=
  js (Nat.repr n)

/-- `(length / 1024).toFixed(2)` for a string length: `length / 1024` is an
exact double, and `toFixed(2)` takes the integer `n` for which `n / 100` is
nearest to it (the larger one on a tie), printed with two fraction digits. -/
def sizeInKB (length : Nat) : JSString :=
  let n := (length * 100 + 512) / 1024
  natToString (n / 100) ++ js "." ++ natToString (n % 100 / 10) ++ natToString (n % 10)

/-! ## Regular expressions

The regular-expression literals of the scripts use characters, the classes
`\s`, `\w` and `\d`, and the quantifiers `+` and `*`.  `RegExp.prototype.test`
on a regular expression without flags answers whether some substring of the
input is matched.  The matcher below decides this with derivatives. -/

/-- Regular expressions over code units. -/
inductive Re where
  | never : Re
  | empty : Re
  | cls (p : Nat → Bool) : Re
  | seq (a b : Re) : Re
  | alt (a b : Re) : Re
  | star (a : Re) : Re

namespace Re

/-- The regular expression matches the empty string. -/
def nullable : Re → Bool
  | never => false
  | empty => true
  | cls _ => false
  | seq a b => nullable a && nullable b
  | alt a b => nullable a || nullable b
  | star _ => true

/-- What remains to be matched after reading the code unit `c`. -/
def deriv : Re → Nat → Re
  | never, _ => never
  | empty, _ => never
  | cls p, c => if p c then empty else never
  | seq a b, c =>
      if nullable a then alt (seq (deriv a c) b) (deriv b c) else seq (deriv a c) b
  | alt a b, c => alt (deriv a c) (deriv b c)
  | star a, c => seq (deriv a c) (star a)

/-- Some prefix of the input is matched by the regular expression: a match
that starts at index 0. -/
def matchPrefix : Re → List Nat → Bool
  | r, [] => nullable r
  | r, c :: cs => nullable r || matchPrefix (deriv r c) cs

/-- `regex.test(input)`: a match that starts at some index of the input. -/
def test (r : Re) : List Nat → Bool
  | [] => matchPrefix r []
  | c :: cs => matchPrefix r (c :: cs) || test r cs

/-- A single literal character. -/
def chr (c : Char) : Re :=
  cls (fun u => u == c.toNat)

/-- A literal run of characters. -/
def lit (s : String) : Re :=
  s.toList.foldr (fun c r => seq (chr c) r) empty

/-- The quantifier `+`: one or more. -/
def plus (a : Re) : Re :=
  seq a (star a)

/-- The strings a regular expression matches in full. -/
inductive Matches : Re → List Nat → Prop where
  | empty : Matches Re.empty []
  | cls (p : Nat → Bool) (c : Nat) (h : p c = true) : Matches (Re.cls p) [c]
  | seq (a b : Re) (x y : List Nat) (ha : Matches a x) (hb : Matches b y) :
      Matches (Re.seq a b) (x ++ y)
  | altLeft (a b : Re) (x : List Nat) (ha : Matches a x) : Matches (Re.alt a b) x
  | altRight (a b : Re) (x : List Nat) (hb : Matches b x) : Matches (Re.alt a b) x
  | starNil (a : Re) : Matches (Re.star a) []
  | starCons (a : Re) (x y : List Nat) (ha : Matches a x) (hs : Matches (Re.star a) y) :
      Matches (Re.star a) (x ++ y)

end Re

/-- The class `\s`: the white space and line terminator code units of
ECMAScript. -/
def isWhiteSpace (u : Nat) : Bool :=
  u == 9 || u == 10 || u == 11 || u == 12 || u == 13 || u == 32 || u == 160 ||
  u == 5760 || (decide (8192 ≤ u) && decide (u ≤ 8202)) || u == 8232 || u == 8233 ||
  u == 8239 || u == 8287 || u == 12288 || u == 65279

/-- The class `\w`: `[A-Za-z0-9_]`. -/
def isWordChar (u : Nat) : Bool :=
  (decide (65 ≤ u) && decide (u ≤ 90)) || (decide (97 ≤ u) && decide (u ≤ 122)) ||
  (decide (48 ≤ u) && decide (u ≤ 57)) || u == 95

/-- The class `\d`: `[0-9]`. -/
def isDigit (u : Nat) : Bool :=
  decide (48 ≤ u) && decide (u ≤ 57)

/-! ## What the scripts read and produce -/

/-- The result of `fs.readFileSync(path, 'utf8')`: the content, or the message
of the error thrown. -/
inductive ReadResult where
  | ok (content : JSString) : ReadResult
  | error (message : JSString) : ReadResult
deriving DecidableEq

/-- The result of `fs.readdirSync(dir)`: the names of the directory, or the
message of the error thrown. -/
inductive DirResult where
  | ok (names : List JSString) : DirResult
  | error (message : JSString) : DirResult
deriving DecidableEq

/-- What a run of a script leaves behind: the arguments of the `console.log`
calls, those of the `console.error` calls, and the exit status. -/
structure Process where
  stdout : List JSString
  stderr : List JSString
  exitCode : Nat
deriving DecidableEq

/-- How a function call ends: with a returned value, or with a thrown error. -/
inductive Completion (α : Type) where
  | returned (value : α) : Completion α
  | thrown (message : JSString) : Completion α
deriving DecidableEq

/-- A function call: the arguments of its `console.log` calls and how it
ends. -/
structure Call (α : Type) where
  stdout : List JSString
  completion : Completion α

/-- An entry of `results.issues`. -/
structure Issue where
  file : JSString
  issue : JSString
deriving DecidableEq

/-- The object `results` of the directory validators. -/
structure Results where
  valid : List JSString
  issues : List Issue
deriving DecidableEq

/-- The state of the loop over the selected files of a directory validator:
`results` and the lines logged so far. -/
structure ScanState where
  results : Results
  log : List JSString

/-! ## check_contract.js -/

namespace CheckContract

/-- The literal `/pub\s+fn/`. -/
def rePubFn : Re :=
  Re.seq (Re.lit "pub") (Re.seq (Re.plus (Re.cls isWhiteSpace)) (Re.lit "fn"))

/-- The literal `/struct\s+\w+/`. -/
def reStruct : Re :=
  Re.seq (Re.lit "struct") (Re.seq (Re.plus (Re.cls isWhiteSpace)) (Re.plus (Re.cls isWordChar)))

/-- The literal `/use\s+stylus_sdk/`. -/
def reUseStylus : Re :=
  Re.seq (Re.lit "use") (Re.seq (Re.plus (Re.cls isWhiteSpace)) (Re.lit "stylus_sdk"))

/-- The literal `/#\[external\]/`. -/
def reExternal : Re :=
  Re.lit "#[external]"

/-- The literal `/#\[payable/`. -/
def rePayable : Re :=
  Re.lit "#[payable"

/-- The literal `/#!\[no_std\]/`. -/
def reNoStd : Re :=
  Re.lit "#![no_std]"

/-- The literal `/impl\s+\w+/`. -/
def reImpl : Re :=
  Re.seq (Re.lit "impl") (Re.seq (Re.plus (Re.cls isWhiteSpace)) (Re.plus (Re.cls isWordChar)))

/-- One entry of the `checks` array. -/
structure Check where
  name : JSString
  regex : Re
  severity : JSString

/-- The `checks` array. -/
def checks : List Check :=
  [ ⟨js "Public functions", rePubFn, js "Critical"⟩,
    ⟨js "Struct definitions", reStruct, js "Critical"⟩,
    ⟨js "Stylus imports", reUseStylus, js "Critical"⟩,
    ⟨js "External attribute", reExternal, js "Important"⟩,
    ⟨js "Payable attribute", rePayable, js "Optional"⟩,
    ⟨js "No std attribute", reNoStd, js "Important"⟩,
    ⟨js "Implementation blocks", reImpl, js "Critical"⟩ ]

/-- The state of the `for (const check of checks)` loop: the flag
`passedCritical` and the lines logged so far. -/
structure LoopState where
  passedCritical : Bool
  log : List JSString

/-- One iteration of the loop over `checks`. -/
def checkStep (content : JSString) (st : LoopState) (check : Check) : LoopState :=
  let found := check.regex.test content
  { log := st.log ++
      [js "[" ++ (if found then js "PASS" else js "FAIL") ++ js "] " ++ check.name ++
        js " (" ++ check.severity ++ js ")"],
    passedCritical :=
      if !found && check.severity == js "Critical" then false else st.passedCritical }

/-- The loop over a list of checks, from a given state. -/
def checkLoop (content : JSString) (cs : List Check) (st : LoopState) : LoopState :=
  cs.foldl (checkStep content) st

/-- The value of `passedCritical` after the loop over `checks`. -/
def passedCritical (content : JSString) : Bool :=
  (checkLoop content checks ⟨true, []⟩).passedCritical

/-- The line printed when `passedCritical` holds. -/
def passLine : JSString :=
  js "✅ Contract passes all critical checks"

/-- The line printed when `passedCritical` does not hold. -/
def failLine : JSString :=
  js "❌ Contract is missing critical elements"

/-- The body of the `try` block once the file has been read. -/
def report (contractName content : JSString) : List JSString :=
  let st := checkLoop content checks ⟨true, []⟩
  [ js "Successfully read contract: " ++ contractName,
    js "File size: " ++ sizeInKB content.length ++ js " KB",
    js "\nBasic contract checks:" ] ++ st.log ++
  [ js "\nSummary:", if st.passedCritical then passLine else failLine ]

/-- The message of the argument check. -/
def usage : JSString :=
  js "Please provide a contract name, e.g.: node check_contract.js microfinance_dao.rs"

/-- The script `check_contract.js`.  `argv2` is `process.argv[2]`, `none` for
`undefined`; `!contractName` holds for `undefined` and for the empty string.
`readFileSync name` is the outcome of reading the file `name` of the script's
directory.  `process.exit(1)` ends the run at once; a run that reaches the end
of the script exits with status 0. -/
def main (argv2 : Option JSString) (readFileSync : JSString → ReadResult) : Process :=
  match argv2 with
  | none => ⟨[], [usage], 1⟩
  | some contractName =>
      if contractName = [] then ⟨[], [usage], 1⟩
      else
        match readFileSync contractName with
        | ReadResult.ok content => ⟨report contractName content, [], 0⟩
        | ReadResult.error message => ⟨[], [js "Error reading contract: " ++ message], 1⟩

end CheckContract

/-! ## test_utils.js (repository root) -/

namespace TestUtils

/-- The filter of `validateStylusFiles`: `.rs` files that are not tests. -/
def rustFiles (listing : List JSString) : List JSString :=
  listing.filter (fun file => endsWith file (js ".rs") && !startsWith file (js "test_"))

/-- One iteration of the loop over `rustFiles`: the file is read, and logged
and pushed to `valid` when the read succeeds. -/
def fileStep (readFileSync : JSString → ReadResult) (st : ScanState) (file : JSString) :
    ScanState :=
  match readFileSync file with
  | ReadResult.ok _ =>
      { log := st.log ++ [js "Validating: " ++ file],
        results := { st.results with valid := st.results.valid ++ [file] } }
  | ReadResult.error message =>
      { log := st.log,
        results := { st.results with
          issues := st.results.issues ++ [⟨file, js "Error reading file: " ++ message⟩] } }

/-- The loop over the selected files, from empty `results`. -/
def scan (readFileSync : JSString → ReadResult) (files : List JSString) : ScanState :=
  files.foldl (fileStep readFileSync) ⟨⟨[], []⟩, []⟩

/-- The issue text one iteration records for a file, as a function of the
outcome of reading it; `none` when the iteration pushes the file to `valid`. -/
def issueFor : ReadResult → Option JSString
  | ReadResult.ok _ => none
  | ReadResult.error message => some (js "Error reading file: " ++ message)

/-- The function `validateStylusFiles` of `test_utils.js`. -/
def validateStylusFiles (readdirSync : DirResult) (readFileSync : JSString → ReadResult) :
    Call Results :=
  match readdirSync with
  | DirResult.error message => ⟨[], Completion.thrown message⟩
  | DirResult.ok listing =>
      let st := scan readFileSync (rustFiles listing)
      ⟨[js "Found " ++ natToString (rustFiles listing).length ++
          js " Stylus demo contracts to validate"] ++ st.log,
        Completion.returned st.results⟩

end TestUtils

/-! ## code-snippets/stylus/test_utils.js -/

namespace StylusTestUtils

/-- The filter of `validateStylusFiles`: `.rs` files that are not tests. -/
def rustFiles (listing : List JSString) : List JSString :=
  listing.filter (fun file => endsWith file (js ".rs") && !startsWith file (js "test_"))

/-- Pushing an entry to `results.issues`. -/
def pushIssue (st : ScanState) (file issue : JSString) : ScanState :=
  { st with results := { st.results with issues := st.results.issues ++ [⟨file, issue⟩] } }

/-- Pushing a name to `results.valid`. -/
def pushValid (st : ScanState) (file : JSString) : ScanState :=
  { st with results := { st.results with valid := st.results.valid ++ [file] } }

/-- One iteration of the loop over `rustFiles`: the file is logged, read, and
its content tested for the three required elements in turn; the first test
that fails pushes an issue and goes on to the next file. -/
def fileStep (readFileSync : JSString → ReadResult) (st : ScanState) (file : JSString) :
    ScanState :=
  let st := { st with log := st.log ++ [js "Validating: " ++ file] }
  match readFileSync file with
  | ReadResult.ok content =>
      if !includes content (js "use stylus_sdk") then
        pushIssue st file (js "Missing stylus_sdk import")
      else if !includes content (js "pub struct") then
        pushIssue st file (js "Missing contract struct definition")
      else if !includes content (js "impl") then
        pushIssue st file (js "Missing trait implementation")
      else
        pushValid st file
  | ReadResult.error message => pushIssue st file (js "Error: " ++ message)

/-- The loop over the selected files, from empty `results`. -/
def scan (readFileSync : JSString → ReadResult) (files : List JSString) : ScanState :=
  files.foldl (fileStep readFileSync) ⟨⟨[], []⟩, []⟩

/-- The issue text one iteration records for a file, as a function of the
outcome of reading it; `none` when the iteration pushes the file to `valid`. -/
def issueFor : ReadResult → Option JSString
  | ReadResult.ok content =>
      if !includes content (js "use stylus_sdk") then some (js "Missing stylus_sdk import")
      else if !includes content (js "pub struct") then
        some (js "Missing contract struct definition")
      else if !includes content (js "impl") then some (js "Missing trait implementation")
      else none
  | ReadResult.error message => some (js "Error: " ++ message)

/-- The function `validateStylusFiles` of `code-snippets/stylus/test_utils.js`. -/
def validateStylusFiles (readdirSync : DirResult) (readFileSync : JSString → ReadResult) :
    Call Results :=
  match readdirSync with
  | DirResult.error message => ⟨[], Completion.thrown message⟩
  | DirResult.ok listing =>
      let st := scan readFileSync (rustFiles listing)
      ⟨[js "Found " ++ natToString (rustFiles listing).length ++
          js " Stylus demo contracts to validate"] ++ st.log,
        Completion.returned st.results⟩

end StylusTestUtils

/-! ## code-snippets/orbit/check.js -/

namespace OrbitCheck

/-- The filter of `jsFiles`: `.js` files that are neither check scripts nor
utility files. -/
def jsFiles (listing : List JSString) : List JSString :=
  listing.filter (fun file =>
    endsWith file (js ".js") && !startsWith file (js "check") &&
      !startsWith file (js "test_") && !startsWith file (js "validate"))

end OrbitCheck

/-! ## The pattern `/chainId:\s*(\d+)/` -/

/-- The literal `/chainId:\s*(\d+)/`, without its group. -/
def reChainId : Re :=
  Re.seq (Re.lit "chainId:")
    (Re.seq (Re.star (Re.cls isWhiteSpace)) (Re.plus (Re.cls isDigit)))

/-- A match of `/chainId:\s*(\d+)/` that starts at index 0, as its group 1.
After `chainId:` the greedy `\s*` takes every white space code unit that
follows, and the greedy `\d+` every digit that follows those; no digit is a
white space code unit, so giving back white space never makes a later match. -/
def chainIdAt (s : JSString) : Option JSString :=
  if startsWith s (js "chainId:") then
    let digits := ((s.drop (js "chainId:").length).dropWhile isWhiteSpace).takeWhile isDigit
    if digits = [] then none else some digits
  else none

/-- `content.match(/chainId:\s*(\d+)/)`: group 1 of the match at the least
index that has one, `none` for `null`. -/
def chainIdMatch : JSString → Option JSString
  | [] => chainIdAt []
  | c :: cs =>
      match chainIdAt (c :: cs) with
      | some digits => some digits
      | none => chainIdMatch cs

/-! ## The single-file checkers of the utility modules -/

/-- The object a single-file checker returns: `success`, and `error` when the
property is present. -/
structure CheckResult where
  success : Bool
  error : Option JSString
deriving DecidableEq

/-- A call of a single-file checker: the arguments of its `console.log` calls,
the argument lists of its `console.error` calls, and the object returned. -/
structure CheckCall where
  stdout : List JSString
  stderr : List (List JSString)
  returned : CheckResult
deriving DecidableEq

namespace TestUtils

/-- The `checks` array of `checkRustContract`. -/
def checks : List CheckContract.Check :=
  [ ⟨js "Public functions", CheckContract.rePubFn, js "OK"⟩,
    ⟨js "Struct definitions", CheckContract.reStruct, js "OK"⟩,
    ⟨js "Stylus imports", CheckContract.reUseStylus, js "OK"⟩,
    ⟨js "External implementation", CheckContract.reExternal, js "INFO"⟩,
    ⟨js "Payable functions", CheckContract.rePayable, js "INFO"⟩,
    ⟨js "No std attribute", CheckContract.reNoStd, js "INFO"⟩,
    ⟨js "Implementation blocks", CheckContract.reImpl, js "OK"⟩ ]

/-- The line one iteration of the loop over `checks` logs. -/
def checkLine (content : JSString) (check : CheckContract.Check) : JSString :=
  let found := check.regex.test content
  js "[" ++ (if found then check.severity else js "WARNING") ++ js "] " ++ check.name ++
    js ": " ++ (if found then js "Found" else js "Not found")

/-- The function `checkRustContract` of `test_utils.js`. -/
def checkRustContract (filename : JSString) (readFileSync : JSString → ReadResult) :
    CheckCall :=
  match readFileSync filename with
  | ReadResult.ok content =>
      { stdout := [js "Checking Rust contract: " ++ filename] ++ checks.map (checkLine content) ++
          [js "[INFO] File size: " ++ sizeInKB content.length ++ js " KB"],
        stderr := [],
        returned := ⟨true, none⟩ }
  | ReadResult.error message =>
      { stdout := [js "Checking Rust contract: " ++ filename],
        stderr := [[js "Error checking " ++ filename ++ js ":", message]],
        returned := ⟨false, some message⟩ }

end TestUtils

namespace StylusTestUtils

/-- The function `checkRustContract` of `code-snippets/stylus/test_utils.js`. -/
def checkRustContract (filename : JSString) (readFileSync : JSString → ReadResult) :
    CheckCall :=
  match readFileSync filename with
  | ReadResult.ok content =>
      let hasStorage := includes content (js "pub struct Storage")
      let hasExternalCalls := includes content (js "call")
      let hasEvents := includes content (js "emit")
      { stdout :=
          [ js "Checking Rust contract: " ++ filename,
            js "[" ++ (if hasStorage then js "OK" else js "WARNING") ++ js "] Storage struct " ++
              (if hasStorage then js "found" else js "missing"),
            js "[INFO] External calls: " ++
              (if hasExternalCalls then js "Present" else js "Not found"),
            js "[INFO] Events: " ++ (if hasEvents then js "Present" else js "Not found") ],
        stderr := [],
        returned := ⟨true, none⟩ }
  | ReadResult.error message =>
      { stdout := [js "Checking Rust contract: " ++ filename],
        stderr := [[js "Error checking " ++ filename ++ js ":", message]],
        returned := ⟨false, some message⟩ }

end StylusTestUtils

/-! ## code-snippets/orbit/test_utils.js -/

namespace OrbitTestUtils

/-- The filter of `validateOrbitFiles`: `.js` files other than `test_utils.js`. -/
def jsFiles (listing : List JSString) : List JSString :=
  listing.filter (fun file => endsWith file (js ".js") && !(file == js "test_utils.js"))

/-- Pushing an entry to `results.issues`. -/
def pushIssue (st : ScanState) (file issue : JSString) : ScanState :=
  { st with results := { st.results with issues := st.results.issues ++ [⟨file, issue⟩] } }

/-- Pushing a name to `results.valid`. -/
def pushValid (st : ScanState) (file : JSString) : ScanState :=
  { st with results := { st.results with valid := st.results.valid ++ [file] } }

/-- One iteration of the loop over `jsFiles`.  `newFunction content` is the
message of the error that `new Function(content)` throws, `none` when the
content parses as a function body. -/
def fileStep (readFileSync : JSString → ReadResult) (newFunction : JSString → Option JSString)
    (st : ScanState) (file : JSString) : ScanState :=
  let st := { st with log := st.log ++ [js "Validating: " ++ file] }
  match readFileSync file with
  | ReadResult.ok content =>
      match newFunction content with
      | some message => pushIssue st file (js "Syntax error: " ++ message)
      | none =>
          if !includes content (js "createRollupChain") then
            pushIssue st file (js "Missing createRollupChain import")
          else if !includes content (js "ethers") then
            pushIssue st file (js "Missing ethers import")
          else
            pushValid st file
  | ReadResult.error message => pushIssue st file (js "Syntax error: " ++ message)

/-- The loop over the selected files, from empty `results`. -/
def scan (readFileSync : JSString → ReadResult) (newFunction : JSString → Option JSString)
    (files : List JSString) : ScanState :=
  files.foldl (fileStep readFileSync newFunction) ⟨⟨[], []⟩, []⟩

/-- The issue text one iteration records for a file, as a function of the
outcome of reading it; `none` when the iteration pushes the file to `valid`. -/
def issueFor (newFunction : JSString → Option JSString) : ReadResult → Option JSString
  | ReadResult.ok content =>
      match newFunction content with
      | some message => some (js "Syntax error: " ++ message)
      | none =>
          if !includes content (js "createRollupChain") then
            some (js "Missing createRollupChain import")
          else if !includes content (js "ethers") then some (js "Missing ethers import")
          else none
  | ReadResult.error message => some (js "Syntax error: " ++ message)

/-- The function `validateOrbitFiles`. -/
def validateOrbitFiles (readdirSync : DirResult) (readFileSync : JSString → ReadResult)
    (newFunction : JSString → Option JSString) : Call Results :=
  match readdirSync with
  | DirResult.error message => ⟨[], Completion.thrown message⟩
  | DirResult.ok listing =>
      let st := scan readFileSync newFunction (jsFiles listing)
      ⟨[js "Found " ++ natToString (jsFiles listing).length ++
          js " Orbit Chain demo files to validate"] ++ st.log,
        Completion.returned st.results⟩

/-- The function `quickCheck`. -/
def quickCheck (filename : JSString) (readFileSync : JSString → ReadResult) : CheckCall :=
  match readFileSync filename with
  | ReadResult.ok content =>
      { stdout :=
          [ js "Quick checking: " ++ filename,
            match chainIdMatch content with
            | some digits => js "[OK] Chain ID found: " ++ digits
            | none => js "[WARNING] Chain ID not found or in unexpected format",
            if includes content (js "deploy()") then js "[OK] Contract deployment found"
            else js "[WARNING] Contract deployment might be missing or in unexpected format",
            if includes content (js "dotenv.config()") then js "[OK] Environment loading found"
            else js "[WARNING] dotenv configuration might be missing" ],
        stderr := [],
        returned := ⟨true, none⟩ }
  | ReadResult.error message =>
      { stdout := [js "Quick checking: " ++ filename],
        stderr := [[js "Error checking " ++ filename ++ js ":", message]],
        returned := ⟨false, some message⟩ }

end OrbitTestUtils

/-! ## The directory-scan scripts -/

/-- A run of a directory-scan script: the arguments of its `console.log` calls,
those of its `console.error` calls, and how it ends: it runs to its last
statement, or an error nobody catches ends it.  What the runtime itself prints
for such an error is not part of `stderr`. -/
structure ScriptRun where
  stdout : List JSString
  stderr : List JSString
  completion : Completion Unit
deriving DecidableEq

/-- A check by a literal pattern. -/
structure PatternCheck where
  name : JSString
  pattern : JSString
deriving DecidableEq

/-- The state of the loop over the checks of one file: the flag
`contractPassed` or `scriptPassed`, and the lines logged so far. -/
structure PatternState where
  passed : Bool
  log : List JSString
deriving DecidableEq

/-- The state of the loop over the files: the flag `allPassed`, and the
arguments of the `console.log` and `console.error` calls so far. -/
structure ScriptState where
  allPassed : Bool
  stdout : List JSString
  stderr : List JSString
deriving DecidableEq

/-- One iteration of the loop over the checks of a file, the same in
`stylus/check.js` and in `orbit/check.js`. -/
def patternStep (content : JSString) (st : PatternState) (check : PatternCheck) :
    PatternState :=
  let found := includes content check.pattern
  { log := st.log ++ [js "[" ++ (if found then js "PASS" else js "FAIL") ++ js "] " ++ check.name],
    passed := if !found then false else st.passed }

/-! ## code-snippets/stylus/check.js -/

namespace StylusCheck

/-- The filter of `rustFiles`: every `.rs` file. -/
def rustFiles (listing : List JSString) : List JSString :=
  listing.filter (fun file => endsWith file (js ".rs"))

/-- The `checks` array. -/
def checks : List PatternCheck :=
  [ ⟨js "Public functions", js "pub fn"⟩,
    ⟨js "Struct definitions", js "struct "⟩,
    ⟨js "Stylus imports", js "use stylus_sdk"⟩,
    ⟨js "External attribute", js "#[external]"⟩,
    ⟨js "Implementation blocks", js "impl "⟩ ]

/-- The loop over `checks` for one content, from `contractPassed = true`. -/
def checkLoop (content : JSString) : PatternState :=
  checks.foldl (patternStep content) ⟨true, []⟩

/-- The value of `contractPassed` after the loop over `checks`. -/
def contractPassed (content : JSString) : Bool :=
  (checkLoop content).passed

/-- The line that ends the report of one contract. -/
def statusLine (content : JSString) : JSString :=
  js "\nContract status: " ++
    (if contractPassed content then js "✅ PASSED" else js "⚠️ ISSUES FOUND")

/-- One iteration of the loop over `rustFiles`. -/
def fileStep (readFileSync : JSString → ReadResult) (st : ScriptState)
    (contractName : JSString) : ScriptState :=
  let stdout := st.stdout ++ [js "\n==== Checking " ++ contractName ++ js " ===="]
  match readFileSync contractName with
  | ReadResult.ok content =>
      { stdout := stdout ++
          [js "File size: " ++ sizeInKB content.length ++ js " KB", js "Basic contract checks:"] ++
          (checkLoop content).log ++ [statusLine content],
        stderr := st.stderr,
        allPassed := if !contractPassed content then false else st.allPassed }
  | ReadResult.error message =>
      { stdout := stdout,
        stderr := st.stderr ++ [js "Error reading contract: " ++ message],
        allPassed := false }

/-- The loop over the selected files, from `allPassed = true`. -/
def scan (readFileSync : JSString → ReadResult) (files : List JSString) : ScriptState :=
  files.foldl (fileStep readFileSync)
    ⟨true, [js "Found " ++ natToString files.length ++ js " Rust contracts to check"], []⟩

/-- The line printed when `allPassed` holds. -/
def allPassedLine : JSString :=
  js "✅ All contracts passed validation checks"

/-- The line printed when `allPassed` does not hold. -/
def issuesLine : JSString :=
  js "⚠️ Some contracts have issues to address"

/-- The script `code-snippets/stylus/check.js`.  The directory is listed
outside any `try`, so an error of the listing ends the script. -/
def main (readdirSync : DirResult) (readFileSync : JSString → ReadResult) : ScriptRun :=
  match readdirSync with
  | DirResult.error message => ⟨[], [], Completion.thrown message⟩
  | DirResult.ok listing =>
      let st := scan readFileSync (rustFiles listing)
      ⟨st.stdout ++ [js "\n==== OVERALL VALIDATION SUMMARY ====",
          if st.allPassed then allPassedLine else issuesLine],
        st.stderr, Completion.returned ()⟩

end StylusCheck

/-! ## code-snippets/orbit/check.js: the script -/

namespace OrbitCheck

/-- The `checks` array. -/
def checks : List PatternCheck :=
  [ ⟨js "createRollupChain import", js "createRollupChain"⟩,
    ⟨js "ethers import", js "require('ethers')"⟩,
    ⟨js "dotenv config", js "dotenv.config()"⟩,
    ⟨js "Chain ID configuration", js "chainId:"⟩,
    ⟨js "Contract deployment", js "deploy"⟩,
    ⟨js "Error handling", js "catch (error)"⟩ ]

/-- The loop over `checks` for one content, from `scriptPassed = true`. -/
def checkLoop (content : JSString) : PatternState :=
  checks.foldl (patternStep content) ⟨true, []⟩

/-- The value of `scriptPassed` after the loop over `checks`. -/
def scriptPassed (content : JSString) : Bool :=
  (checkLoop content).passed

/-- The line that ends the report of one script. -/
def statusLine (content : JSString) : JSString :=
  js "\nScript status: " ++
    (if scriptPassed content then js "✅ PASSED" else js "⚠️ ISSUES FOUND")

/-- The chain ID line, printed when the pattern matches. -/
def chainIdLines (content : JSString) : List JSString :=
  match chainIdMatch content with
  | some digits => [js "Chain ID: " ++ digits]
  | none => []

/-- One iteration of the loop over `jsFiles`. -/
def fileStep (readFileSync : JSString → ReadResult) (st : ScriptState)
    (scriptName : JSString) : ScriptState :=
  let stdout := st.stdout ++ [js "\n==== Checking " ++ scriptName ++ js " ===="]
  match readFileSync scriptName with
  | ReadResult.ok content =>
      { stdout := stdout ++
          [js "File size: " ++ sizeInKB content.length ++ js " KB", js "Basic script checks:"] ++
          (checkLoop content).log ++ chainIdLines content ++ [statusLine content],
        stderr := st.stderr,
        allPassed := if !scriptPassed content then false else st.allPassed }
  | ReadResult.error message =>
      { stdout := stdout,
        stderr := st.stderr ++ [js "Error reading script: " ++ message],
        allPassed := false }

/-- The loop over the selected files, from `allPassed = true`. -/
def scan (readFileSync : JSString → ReadResult) (files : List JSString) : ScriptState :=
  files.foldl (fileStep readFileSync)
    ⟨true, [js "Found " ++ natToString files.length ++ js " Orbit chain scripts to check"], []⟩

/-- The line printed when `allPassed` holds. -/
def allPassedLine : JSString :=
  js "✅ All scripts passed validation checks"

/-- The line printed when `allPassed` does not hold. -/
def issuesLine : JSString :=
  js "⚠️ Some scripts have issues to address"

/-- The script `code-snippets/orbit/check.js`.  The directory is listed outside
any `try`, so an error of the listing ends the script. -/
def main (readdirSync : DirResult) (readFileSync : JSString → ReadResult) : ScriptRun :=
  match readdirSync with
  | DirResult.error message => ⟨[], [], Completion.thrown message⟩
  | DirResult.ok listing =>
      let st := scan readFileSync (jsFiles listing)
      ⟨st.stdout ++ [js "\n==== OVERALL VALIDATION SUMMARY ====",
          if st.allPassed then allPassedLine else issuesLine],
        st.stderr, Completion.returned ()⟩

end OrbitCheck

/-! ## check_contract.js with matchers that may throw -/

namespace CheckContract

/-- The line the loop over `checks` logs for a check. -/
def resultLine (found : Bool) (name severity : JSString) : JSString :=
  js "[" ++ (if found then js "PASS" else js "FAIL") ++ js "] " ++ name ++ js " (" ++ severity ++
    js ")"

/-- An entry of a `checks` array whose matcher may throw: `test content` is how
the call `check.regex.test(content)` ends. -/
structure ThrowingCheck where
  name : JSString
  test : JSString → Completion Bool
  severity : JSString

/-- The loop over `checks` with matchers that may throw.  The loop has no
`try` of its own: an error thrown by a matcher leaves the loop with what has
been logged so far, and the message is the second component. -/
def checkLoopWith (content : JSString) :
    List ThrowingCheck → LoopState → LoopState × Option JSString
  | [], st => (st, none)
  | check :: rest, st =>
      match check.test content with
      | Completion.thrown message => (st, some message)
      | Completion.returned found =>
          checkLoopWith content rest
            { log := st.log ++ [resultLine found check.name check.severity],
              passedCritical :=
                if !found && check.severity == js "Critical" then false
                else st.passedCritical }

/-- The script `check_contract.js` over a registry whose matchers may throw.
The loop runs inside the `try` block that reads the file, so an error thrown by
a matcher reaches the same `catch`: it is logged as `Error reading contract: `
and the message, and the process exits with status 1. -/
def mainWith (registry : List ThrowingCheck) (argv2 : Option JSString)
    (readFileSync : JSString → ReadResult) : Process :=
  match argv2 with
  | none => ⟨[], [usage], 1⟩
  | some contractName =>
      if contractName = [] then ⟨[], [usage], 1⟩
      else
        match readFileSync contractName with
        | ReadResult.error message => ⟨[], [js "Error reading contract: " ++ message], 1⟩
        | ReadResult.ok content =>
            match checkLoopWith content registry ⟨true, []⟩ with
            | (st, none) =>
                ⟨[ js "Successfully read contract: " ++ contractName,
                    js "File size: " ++ sizeInKB content.length ++ js " KB",
                    js "\nBasic contract checks:" ] ++ st.log ++
                  [ js "\nSummary:", if st.passedCritical then passLine else failLine ],
                  [], 0⟩
            | (st, some message) =>
                ⟨[ js "Successfully read contract: " ++ contractName,
                    js "File size: " ++ sizeInKB content.length ++ js " KB",
                    js "\nBasic contract checks:" ] ++ st.log,
                  [js "Error reading contract: " ++ message], 1⟩

/-- The registry of the script: the matcher of each entry is the `test` of its
regular expression, which returns for every content. -/
def registry : List ThrowingCheck :=
  checks.map (fun check =>
    ⟨check.name, fun content => Completion.returned (check.regex.test content), check.severity⟩)

end CheckContract

/-! ## RegExp objects and their state

A `RegExp` object has the property `lastIndex`.  `RegExp.prototype.test` reads
and writes it when the object has the flag `g` or `y`, and neither reads nor
writes it otherwise. -/

namespace Re

/-- The iterations of a greedy `*` in the backtracking matcher of ECMAScript:
the atom is tried first, an iteration that consumes nothing is rejected, and
the continuation is tried when no iteration leads to a match.  `fuel` bounds
the number of iterations; the length of the input is enough. -/
def backtrackStar (atom : List Nat → (List Nat → Option (List Nat)) → Option (List Nat)) :
    Nat → List Nat → (List Nat → Option (List Nat)) → Option (List Nat)
  | 0, s, k => k s
  | fuel + 1, s, k =>
      match atom s (fun rest =>
          if rest.length < s.length then backtrackStar atom fuel rest k else none) with
      | some out => some out
      | none => k s

/-- The backtracking matcher of ECMAScript: the pattern is matched against a
prefix of the input and the continuation `k` gets what follows the prefix; the
alternatives are tried in the order of the pattern, the longer repetitions
first. -/
def backtrack : Re → List Nat → (List Nat → Option (List Nat)) → Option (List Nat)
  | never, _, _ => none
  | empty, s, k => k s
  | cls _, [], _ => none
  | cls p, c :: cs, k => if p c then k cs else none
  | seq a b, s, k => backtrack a s (fun rest => backtrack b rest k)
  | alt a b, s, k =>
      match backtrack a s k with
      | some out => some out
      | none => backtrack b s k
  | star a, s, k => backtrackStar (backtrack a) s.length s k

/-- The match that starts at index 0, as what of the input follows it. -/
def matchAt (r : Re) (s : List Nat) : Option (List Nat) :=
  backtrack r s some

end Re

/-- A `RegExp` object: its pattern, its flags `g` and `y`, and `lastIndex`. -/
structure RegExp where
  source : Re
  global : Bool
  sticky : Bool
  lastIndex : Nat

namespace RegExp

/-- The loop of `RegExpBuiltinExec`: `s` is the input from the index `index`
on; the result is the end index of the first match found, trying `index`, then
(unless the object is sticky) each later index up to the length of the input. -/
def search (r : Re) (sticky : Bool) : List Nat → Nat → Option Nat
  | [], index =>
      match Re.matchAt r [] with
      | some _ => some index
      | none => none
  | c :: cs, index =>
      match Re.matchAt r (c :: cs) with
      | some rest => some (index + ((c :: cs).length - rest.length))
      | none => if sticky then none else search r sticky cs (index + 1)

/-- `RegExpBuiltinExec(R, S)`, as the end index of the match and the object
after the call.  Without the flags `g` and `y` the search starts at index 0 and
`lastIndex` is not written; with one of them it starts at `lastIndex`, which
becomes the end index of the match, or 0 when there is none. -/
def exec (R : RegExp) (S : JSString) : Option Nat × RegExp :=
  if R.global || R.sticky then
    if S.length < R.lastIndex then (none, { R with lastIndex := 0 })
    else
      match search R.source R.sticky (S.drop R.lastIndex) R.lastIndex with
      | some e => (some e, { R with lastIndex := e })
      | none => (none, { R with lastIndex := 0 })
  else
    match search R.source false S 0 with
    | some e => (some e, R)
    | none => (none, R)

/-- `R.test(S)`: whether `exec` finds a match, and the object after the call. -/
def test (R : RegExp) (S : JSString) : Bool × RegExp :=
  ((exec R S).1.isSome, (exec R S).2)

end RegExp

namespace CheckContract

/-- An entry of the `checks` array with its `RegExp` object. -/
structure CheckObject where
  name : JSString
  regex : RegExp
  severity : JSString

/-- A run of the loop over a registry of objects: the entries visited, with
their objects as the visit leaves them, the value of `found` of each
iteration, the flag `passedCritical` and the lines logged. -/
structure RunnerState where
  registry : List CheckObject
  found : List Bool
  passedCritical : Bool
  log : List JSString

/-- One iteration of the loop over `checks`, on the objects. -/
def runnerStep (content : JSString) (st : RunnerState) (check : CheckObject) : RunnerState :=
  let found := (check.regex.test content).1
  { registry := st.registry ++ [{ check with regex := (check.regex.test content).2 }],
    found := st.found ++ [found],
    log := st.log ++ [resultLine found check.name check.severity],
    passedCritical :=
      if !found && check.severity == js "Critical" then false else st.passedCritical }

/-- The loop over a registry of objects, from `passedCritical = true`. -/
def runChecks (content : JSString) (objects : List CheckObject) : RunnerState :=
  objects.foldl (runnerStep content) ⟨[], [], true, []⟩

/-- The objects of the `checks` array as the script creates them: the literals
have no flag, and `lastIndex` starts at 0. -/
def checkObjects : List CheckObject :=
  checks.map (fun check => ⟨check.name, ⟨check.regex, false, false, 0⟩, check.severity⟩)

end CheckContract

/-! ## The group of a pattern -/

namespace Re

/-- Group 1 of a pattern `/before(group)/` matched at index 0 by the
backtracking matcher: the continuation of `before` runs `group` from where
`before` ends, and what `group` consumed there is the capture of the first
alternative that succeeds. -/
def captureAt (before group : Re) (s : List Nat) : Option (List Nat) :=
  backtrack before s (fun start =>
    (backtrack group start some).map (fun rest => start.take (start.length - rest.length)))

end Re

/-! ## The Orbit chain configurations of the demo scripts -/

/-- The object `nativeToken` of an Orbit chain configuration. -/
structure NativeToken where
  name : JSString
  symbol : JSString
  decimals : Nat
deriving DecidableEq

/-- The object `orbitChainConfig` of a demo script. -/
structure OrbitChainConfig where
  chainName : JSString
  chainId : Nat
  parentChainId : Nat
  maxDataSize : Nat
  maxGasPerTransaction : Nat
  nativeToken : NativeToken
  description : JSString
deriving DecidableEq

namespace EGovernanceMarketplace

/-- The `orbitChainConfig` of `e_governance_marketplace.js`. -/
def orbitChainConfig : OrbitChainConfig :=
  { chainName := js "RwandaGovChain",
    chainId := 42069,
    parentChainId := 421614,
    maxDataSize := 117964,
    maxGasPerTransaction := 1000000000,
    nativeToken := ⟨js "Rwanda Governance Token", js "RGT", 18⟩,
    description := js "Orbit Chain for Rwanda e-governance services" }

end EGovernanceMarketplace

namespace FintechBridge

/-- The `orbitChainConfig` of `fintech_bridge.js`. -/
def orbitChainConfig : OrbitChainConfig :=
  { chainName := js "KenyaFintechChain",
    chainId := 42070,
    parentChainId := 421614,
    maxDataSize := 117964,
    maxGasPerTransaction := 1000000000,
    nativeToken := ⟨js "Kenya Fintech Token", js "KFT", 18⟩,
    description := js "Orbit Chain for Kenyan fintech and M-Pesa integration" }

end FintechBridge

namespace TradePlatform

/-- The `orbitChainConfig` of `trade_platform.js`. -/
def orbitChainConfig : OrbitChainConfig :=
  { chainName := js "EthiopiaTradeChain",
    chainId := 42071,
    parentChainId := 421614,
    maxDataSize := 117964,
    maxGasPerTransaction := 1000000000,
    nativeToken := ⟨js "Ethiopia Trade Token", js "ETT", 18⟩,
    description := js "Orbit Chain for tracking Ethiopian exports, especially coffee" }

end TradePlatform

namespace LogisticsNetwork

/-- The `orbitChainConfig` of `logistics_network.js`. -/
def orbitChainConfig : OrbitChainConfig :=
  { chainName := js "SALogisticsChain",
    chainId := 42080,
    parentChainId := 421614,
    maxDataSize := 117964,
    maxGasPerTransaction := 1000000000,
    nativeToken := ⟨js "Logistics Token", js "LOGS", 18⟩,
    description := js "Orbit Chain for South African logistics and supply chain tracking" }

end LogisticsNetwork

namespace MicrofinanceHub

/-- The `orbitChainConfig` of `microfinance_hub.js`. -/
def orbitChainConfig : OrbitChainConfig :=
  { chainName := js "UgandaMicrofinanceChain",
    chainId := 42090,
    parentChainId := 421614,
    maxDataSize := 117964,
    maxGasPerTransaction := 1000000000,
    nativeToken := ⟨js "Microfinance Token", js "MICRO", 18⟩,
    description := js "Orbit Chain for Ugandan community-based microfinance solutions" }

/-- The lines of `microfinance_hub.js` that open the configuration, from
`const orbitChainConfig` to the line of `parentChainId`. -/
def configSource : JSString :=
  js ("    const orbitChainConfig = \x7b\n" ++
    "        chainName: \"UgandaMicrofinanceChain\",\n" ++
    "        chainId: 42090, // Example chain ID, should be unique\n" ++
    "        parentChainId: 421614, // Arbitrum Sepolia\n")

end MicrofinanceHub

/-- The `orbitChainConfig` objects of the five demo scripts. -/
def orbitChainConfigs : List OrbitChainConfig :=
  [ EGovernanceMarketplace.orbitChainConfig, FintechBridge.orbitChainConfig,
    TradePlatform.orbitChainConfig, LogisticsNetwork.orbitChainConfig,
    MicrofinanceHub.orbitChainConfig ]

/-! ## The matcher decides the language of a regular expression -/

namespace Re

theorem matches_never (s : List Nat) : ¬ Matches Re.never s := by
  intro h
  cases h

theorem matches_empty_iff (s : List Nat) : Matches Re.empty s ↔ s = [] := by
  constructor
  · intro h
    cases h
    rfl
  · rintro rfl
    exact Matches.empty

theorem matches_cls_iff (p : Nat → Bool) (s : List Nat) :
    Matches (Re.cls p) s ↔ ∃ c, s = [c] ∧ p c = true := by
  constructor
  · intro h
    cases h with
    | cls _ c hc => exact ⟨c, rfl, hc⟩
  · rintro ⟨c, rfl, hc⟩
    exact Matches.cls p c hc

theorem matches_seq_iff (a b : Re) (s : List Nat) :
    Matches (Re.seq a b) s ↔ ∃ x y, s = x ++ y ∧ Matches a x ∧ Matches b y := by
  constructor
  · intro h
    cases h with
    | seq _ _ x y ha hb => exact ⟨x, y, rfl, ha, hb⟩
  · rintro ⟨x, y, rfl, ha, hb⟩
    exact Matches.seq a b x y ha hb

theorem matches_alt_iff (a b : Re) (s : List Nat) :
    Matches (Re.alt a b) s ↔ Matches a s ∨ Matches b s := by
  constructor
  · intro h
    cases h with
    | altLeft _ _ _ ha => exact Or.inl ha
    | altRight _ _ _ hb => exact Or.inr hb
  · rintro (ha | hb)
    · exact Matches.altLeft a b s ha
    · exact Matches.altRight a b s hb

theorem matches_star_cons (a : Re) (c : Nat) (s : List Nat)
    (h : Matches (Re.star a) (c :: s)) :
    ∃ x y, s = x ++ y ∧ Matches a (c :: x) ∧ Matches (Re.star a) y := by
  generalize hr : Re.star a = r at h
  generalize ht : c :: s = t at h
  induction h generalizing s with
  | empty => cases hr
  | cls => cases hr
  | seq => cases hr
  | altLeft => cases hr
  | altRight => cases hr
  | starNil => cases ht
  | starCons a' x y ha hs _ ihs =>
      cases hr
      cases x with
      | nil => exact ihs s rfl (by simpa using ht)
      | cons d x' =>
          simp only [List.cons_append, List.cons.injEq] at ht
          obtain ⟨rfl, rfl⟩ := ht
          exact ⟨x', y, rfl, ha, hs⟩

theorem nullable_iff (r : Re) : nullable r = true ↔ Matches r [] := by
  induction r with
  | never => simp [nullable, matches_never]
  | empty => simp [nullable, matches_empty_iff]
  | cls p => simp [nullable, matches_cls_iff]
  | seq a b iha ihb =>
      simp only [nullable, Bool.and_eq_true, iha, ihb, matches_seq_iff]
      constructor
      · rintro ⟨ha, hb⟩
        exact ⟨[], [], rfl, ha, hb⟩
      · rintro ⟨x, y, h, ha, hb⟩
        have hxy : x ++ y = [] := h.symm
        rw [List.append_eq_nil] at hxy
        obtain ⟨rfl, rfl⟩ := hxy
        exact ⟨ha, hb⟩
  | alt a b iha ihb => simp [nullable, iha, ihb, matches_alt_iff]
  | star a _ => simp [nullable, Matches.starNil]

theorem deriv_iff (r : Re) (c : Nat) (s : List Nat) :
    Matches (deriv r c) s ↔ Matches r (c :: s) := by
  induction r generalizing s with
  | never => simp [deriv, matches_never]
  | empty => simp [deriv, matches_never, matches_empty_iff]
  | cls p =>
      simp only [deriv, matches_cls_iff]
      by_cases hp : p c = true
      · simp only [hp, if_true, matches_empty_iff]
        constructor
        · rintro rfl
          exact ⟨c, rfl, hp⟩
        · rintro ⟨d, h, _⟩
          simp only [List.cons.injEq] at h
          exact h.2
      · rw [if_neg hp]
        simp only [matches_never, false_iff]
        rintro ⟨d, h, hd⟩
        simp only [List.cons.injEq] at h
        rw [← h.1] at hd
        exact hp hd
  | seq a b iha ihb =>
      have key : Matches (Re.seq a b) (c :: s) ↔
          (Matches (Re.seq (deriv a c) b) s ∨ (nullable a = true ∧ Matches (deriv b c) s)) := by
        simp only [matches_seq_iff, iha, ihb, nullable_iff]
        constructor
        · rintro ⟨x, y, h, ha, hb⟩
          cases x with
          | nil =>
              simp only [List.nil_append] at h
              subst h
              exact Or.inr ⟨ha, hb⟩
          | cons d x' =>
              simp only [List.cons_append, List.cons.injEq] at h
              obtain ⟨rfl, rfl⟩ := h
              exact Or.inl ⟨x', y, rfl, ha, hb⟩
        · rintro (⟨x, y, rfl, ha, hb⟩ | ⟨ha, hb⟩)
          · exact ⟨c :: x, y, rfl, ha, hb⟩
          · exact ⟨[], c :: s, rfl, ha, hb⟩
      rw [key]
      simp only [deriv]
      by_cases hn : nullable a = true
      · simp [hn, matches_alt_iff]
      · simp [hn]
  | alt a b iha ihb => simp [deriv, matches_alt_iff, iha, ihb]
  | star a iha =>
      simp only [deriv, matches_seq_iff, iha]
      constructor
      · rintro ⟨x, y, rfl, ha, hs⟩
        exact Matches.starCons a (c :: x) y ha hs
      · intro h
        exact matches_star_cons a c s h

theorem matchPrefix_iff (r : Re) (s : List Nat) :
    matchPrefix r s = true ↔ ∃ m rest, s = m ++ rest ∧ Matches r m := by
  induction s generalizing r with
  | nil =>
      simp only [matchPrefix, nullable_iff]
      constructor
      · intro h
        exact ⟨[], [], rfl, h⟩
      · rintro ⟨m, rest, h, hm⟩
        have hmr : m ++ rest = [] := h.symm
        rw [List.append_eq_nil] at hmr
        rw [← hmr.1]
        exact hm
  | cons c cs ih =>
      simp only [matchPrefix, Bool.or_eq_true, nullable_iff, ih]
      constructor
      · rintro (h | ⟨m, rest, rfl, hm⟩)
        · exact ⟨[], c :: cs, rfl, h⟩
        · exact ⟨c :: m, rest, rfl, (deriv_iff r c m).1 hm⟩
      · rintro ⟨m, rest, h, hm⟩
        cases m with
        | nil => exact Or.inl hm
        | cons d m' =>
            simp only [List.cons_append, List.cons.injEq] at h
            obtain ⟨rfl, rfl⟩ := h
            exact Or.inr ⟨m', rest, rfl, (deriv_iff r c m').2 hm⟩

theorem test_iff (r : Re) (s : List Nat) :
    test r s = true ↔ ∃ front m rest, s = front ++ m ++ rest ∧ Matches r m := by
  induction s with
  | nil =>
      simp only [test, matchPrefix_iff]
      constructor
      · rintro ⟨m, rest, h, hm⟩
        exact ⟨[], m, rest, by simpa using h, hm⟩
      · rintro ⟨front, m, rest, h, hm⟩
        have h1 : front ++ m ++ rest = [] := h.symm
        simp only [List.append_eq_nil] at h1
        exact ⟨m, rest, by simp [h1.1.2, h1.2], hm⟩
  | cons c cs ih =>
      simp only [test, Bool.or_eq_true, matchPrefix_iff, ih]
      constructor
      · rintro (⟨m, rest, h, hm⟩ | ⟨front, m, rest, h, hm⟩)
        · exact ⟨[], m, rest, by simpa using h, hm⟩
        · exact ⟨c :: front, m, rest, by simp [h], hm⟩
      · rintro ⟨front, m, rest, h, hm⟩
        cases front with
        | nil => exact Or.inl ⟨m, rest, by simpa using h, hm⟩
        | cons d front' =>
            simp only [List.cons_append, List.cons.injEq] at h
            exact Or.inr ⟨front', m, rest, h.2, hm⟩

end Re

/-! ## String searches -/

theorem startsWith_iff (s pat : JSString) :
    startsWith s pat = true ↔ ∃ rest, s = pat ++ rest := by
  induction s generalizing pat with
  | nil =>
      cases pat with
      | nil => simp [startsWith]
      | cons p ps => simp [startsWith]
  | cons c cs ih =>
      cases pat with
      | nil => simp [startsWith]
      | cons p ps =>
          simp only [startsWith, Bool.and_eq_true, beq_iff_eq, ih, List.cons_append,
            List.cons.injEq]
          constructor
          · rintro ⟨h, rest, hr⟩
            exact ⟨rest, h, hr⟩
          · rintro ⟨rest, h, hr⟩
            exact ⟨h, rest, hr⟩

theorem endsWith_iff (s pat : JSString) :
    endsWith s pat = true ↔ ∃ front, s = front ++ pat := by
  unfold endsWith
  simp only [Bool.and_eq_true, decide_eq_true_eq, beq_iff_eq]
  constructor
  · rintro ⟨_, h⟩
    refine ⟨s.take (s.length - pat.length), ?_⟩
    conv_lhs => rw [← List.take_append_drop (s.length - pat.length) s]
    rw [h]
  · rintro ⟨front, rfl⟩
    constructor
    · simp
    · simp

theorem includes_iff (s pat : JSString) :
    includes s pat = true ↔ ∃ front rest, s = front ++ pat ++ rest := by
  induction s with
  | nil =>
      simp only [includes, startsWith_iff]
      constructor
      · rintro ⟨rest, h⟩
        exact ⟨[], rest, by simpa using h⟩
      · rintro ⟨front, rest, h⟩
        have h1 : front ++ pat ++ rest = [] := h.symm
        simp only [List.append_eq_nil] at h1
        exact ⟨[], by simp [h1.1.2]⟩
  | cons c cs ih =>
      simp only [includes, Bool.or_eq_true, startsWith_iff, ih]
      constructor
      · rintro (⟨rest, h⟩ | ⟨front, rest, h⟩)
        · exact ⟨[], rest, by simpa using h⟩
        · exact ⟨c :: front, rest, by simp [h]⟩
      · rintro ⟨front, rest, h⟩
        cases front with
        | nil => exact Or.inl ⟨rest, by simpa using h⟩
        | cons d front =>
            simp only [List.cons_append, List.cons.injEq] at h
            exact Or.inr ⟨front, rest, h.2⟩

/-! ## The flag of check_contract.js -/

namespace CheckContract

theorem checkStep_passedCritical (content : JSString) (st : LoopState) (check : Check) :
    (checkStep content st check).passedCritical =
      (st.passedCritical &&
        (check.regex.test content || !(check.severity == js "Critical"))) := by
  unfold checkStep
  cases check.regex.test content <;> cases (check.severity == js "Critical") <;>
    cases st.passedCritical <;> rfl

theorem checkLoop_passedCritical (content : JSString) (cs : List Check) (st : LoopState) :
    (checkLoop content cs st).passedCritical =
      (st.passedCritical &&
        cs.all (fun check => check.regex.test content || !(check.severity == js "Critical"))) := by
  induction cs generalizing st with
  | nil => simp [checkLoop]
  | cons check rest ih =>
      have h := ih (checkStep content st check)
      simp only [checkLoop, List.foldl_cons] at h ⊢
      rw [h, checkStep_passedCritical, List.all_cons, Bool.and_assoc]

theorem passedCritical_eq_all (content : JSString) :
    passedCritical content =
      checks.all (fun check => check.regex.test content || !(check.severity == js "Critical")) := by
  unfold passedCritical
  rw [checkLoop_passedCritical, Bool.true_and]

theorem passedCritical_eq (content : JSString) :
    passedCritical content =
      (rePubFn.test content && reStruct.test content && reUseStylus.test content &&
        reImpl.test content) := by
  have hC : (js "Critical" == js "Critical") = true := by decide
  have hI : (js "Important" == js "Critical") = false := by decide
  have hO : (js "Optional" == js "Critical") = false := by decide
  rw [passedCritical_eq_all]
  simp only [checks, List.all_cons, List.all_nil, hC, hI, hO, Bool.not_true, Bool.not_false,
    Bool.or_false, Bool.or_true, Bool.and_true, Bool.true_and]
  cases rePubFn.test content <;> cases reStruct.test content <;>
    cases reUseStylus.test content <;> cases reImpl.test content <;> rfl

theorem report_getLast (contractName content : JSString) :
    (report contractName content).getLast? =
      some (if passedCritical content then passLine else failLine) := by
  unfold report passedCritical
  generalize checkLoop content checks ⟨true, []⟩ = st
  have h : ∀ (l : List JSString) (a b : JSString), (l ++ [a, b]).getLast? = some b := by
    intro l a b
    rw [show l ++ [a, b] = (l ++ [a]) ++ [b] by simp, List.getLast?_concat]
  simp only [← List.append_assoc]
  exact h _ _ _

theorem passLine_ne_failLine : passLine ≠ failLine := by
  decide

theorem main_of_read_ok (contractName content : JSString) (readFileSync : JSString → ReadResult)
    (hname : contractName ≠ []) (hread : readFileSync contractName = ReadResult.ok content) :
    main (some contractName) readFileSync = ⟨report contractName content, [], 0⟩ := by
  simp [main, hname, hread]

theorem main_of_read_error (contractName message : JSString)
    (readFileSync : JSString → ReadResult) (hname : contractName ≠ [])
    (hread : readFileSync contractName = ReadResult.error message) :
    main (some contractName) readFileSync =
      ⟨[], [js "Error reading contract: " ++ message], 1⟩ := by
  simp [main, hname, hread]

/-- C1: when the file named on the command line is read successfully, the last
line `check_contract.js` prints is the line "Contract passes all critical
checks" if and only if the four checks tagged Critical (Public functions,
Struct definitions, Stylus imports, Implementation blocks) are all found in
the content, and it is the line "Contract is missing critical elements" if and
only if one of them is not found. -/
theorem summary_passes_iff_all_critical_found (contractName content : JSString)
    (readFileSync : JSString → ReadResult) (hname : contractName ≠ [])
    (hread : readFileSync contractName = ReadResult.ok content) :
    (checks.filter (fun check => check.severity == js "Critical")).map Check.name =
        [js "Public functions", js "Struct definitions", js "Stylus imports",
          js "Implementation blocks"] ∧
      (checks.filter (fun check => check.severity == js "Critical")).map Check.regex =
        [rePubFn, reStruct, reUseStylus, reImpl] ∧
      ((main (some contractName) readFileSync).stdout.getLast? = some passLine ↔
        (rePubFn.test content = true ∧ reStruct.test content = true ∧
          reUseStylus.test content = true ∧ reImpl.test content = true)) ∧
      ((main (some contractName) readFileSync).stdout.getLast? = some failLine ↔
        ¬ (rePubFn.test content = true ∧ reStruct.test content = true ∧
          reUseStylus.test content = true ∧ reImpl.test content = true)) := by
  refine ⟨by decide, rfl, ?_, ?_⟩
  · rw [main_of_read_ok contractName content readFileSync hname hread]
    simp only [report_getLast, passedCritical_eq]
    cases rePubFn.test content <;> cases reStruct.test content <;>
      cases reUseStylus.test content <;> cases reImpl.test content <;>
      simp [passLine_ne_failLine, Ne.symm passLine_ne_failLine]
  · rw [main_of_read_ok contractName content readFileSync hname hread]
    simp only [report_getLast, passedCritical_eq]
    cases rePubFn.test content <;> cases reStruct.test content <;>
      cases reUseStylus.test content <;> cases reImpl.test content <;>
      simp [passLine_ne_failLine, Ne.symm passLine_ne_failLine]

/-- Witness of C1: a file with the four critical elements, read successfully. -/
theorem summary_passes_iff_all_critical_found_witness :
    js "a.rs" ≠ [] ∧
      (main (some (js "a.rs"))
          (fun _ => ReadResult.ok (js "pub fn f struct S use stylus_sdk impl S"))).stdout.getLast? =
        some passLine := by
  refine ⟨by decide, ?_⟩
  exact (summary_passes_iff_all_critical_found (js "a.rs")
    (js "pub fn f struct S use stylus_sdk impl S") (fun _ => ReadResult.ok _)
    (by decide) rfl).2.2.1.2 (by decide)

/-- C2: the checks that are not tagged Critical never affect the verdict: two
contents on which every check tagged Critical gives the same result get the
same value of `passedCritical`, whatever the other checks find. -/
theorem verdict_depends_only_on_critical_checks (c₁ c₂ : JSString)
    (h : ∀ check ∈ checks, check.severity = js "Critical" →
      check.regex.test c₁ = check.regex.test c₂) :
    passedCritical c₁ = passedCritical c₂ := by
  have h1 : rePubFn.test c₁ = rePubFn.test c₂ :=
    h ⟨js "Public functions", rePubFn, js "Critical"⟩ (by simp [checks]) rfl
  have h2 : reStruct.test c₁ = reStruct.test c₂ :=
    h ⟨js "Struct definitions", reStruct, js "Critical"⟩ (by simp [checks]) rfl
  have h3 : reUseStylus.test c₁ = reUseStylus.test c₂ :=
    h ⟨js "Stylus imports", reUseStylus, js "Critical"⟩ (by simp [checks]) rfl
  have h4 : reImpl.test c₁ = reImpl.test c₂ :=
    h ⟨js "Implementation blocks", reImpl, js "Critical"⟩ (by simp [checks]) rfl
  rw [passedCritical_eq, passedCritical_eq, h1, h2, h3, h4]

/-- Witness of C2: two contents that agree on the four critical checks and
differ on the three others. -/
theorem verdict_depends_only_on_critical_checks_witness :
    (∀ check ∈ checks, check.severity = js "Critical" →
      check.regex.test (js "pub fn f struct S use stylus_sdk impl S") =
        check.regex.test
          (js "#![no_std] pub fn f struct S use stylus_sdk #[external] impl S #[payable]")) ∧
      checks.map (fun check => check.regex.test (js "pub fn f struct S use stylus_sdk impl S")) =
        [true, true, true, false, false, false, true] ∧
      checks.map (fun check => check.regex.test
          (js "#![no_std] pub fn f struct S use stylus_sdk #[external] impl S #[payable]")) =
        [true, true, true, true, true, true, true] ∧
      passedCritical (js "pub fn f struct S use stylus_sdk impl S") =
        passedCritical
          (js "#![no_std] pub fn f struct S use stylus_sdk #[external] impl S #[payable]") := by
  have h : ∀ check ∈ checks, check.severity = js "Critical" →
      check.regex.test (js "pub fn f struct S use stylus_sdk impl S") =
        check.regex.test
          (js "#![no_std] pub fn f struct S use stylus_sdk #[external] impl S #[payable]") := by
    decide
  exact ⟨h, by decide, by decide, verdict_depends_only_on_critical_checks _ _ h⟩

/-- C3: on the content
`pub fn foo() {} struct Bar {} use stylus_sdk::x; impl Bar {}` each of the four
checks tagged Critical is found and the verdict `passedCritical` is true. -/
theorem sample_contract_passes :
    (checks.filter (fun check => check.severity == js "Critical")).map
        (fun check => (check.name, check.regex.test
          (js "pub fn foo() \x7b\x7d struct Bar \x7b\x7d use stylus_sdk::x; impl Bar \x7b\x7d"))) =
        [(js "Public functions", true), (js "Struct definitions", true),
          (js "Stylus imports", true), (js "Implementation blocks", true)] ∧
      passedCritical
        (js "pub fn foo() \x7b\x7d struct Bar \x7b\x7d use stylus_sdk::x; impl Bar \x7b\x7d") = true ∧
      js "pub fn foo() \x7b\x7d struct Bar \x7b\x7d use stylus_sdk::x; impl Bar \x7b\x7d" =
        [112, 117, 98, 32, 102, 110, 32, 102, 111, 111, 40, 41, 32, 123, 125, 32,
          115, 116, 114, 117, 99, 116, 32, 66, 97, 114, 32, 123, 125, 32,
          117, 115, 101, 32, 115, 116, 121, 108, 117, 115, 95, 115, 100, 107, 58, 58, 120, 59, 32,
          105, 109, 112, 108, 32, 66, 97, 114, 32, 123, 125] := by
  decide

/-- C4: on the empty content each of the seven checks is not found, the verdict
`passedCritical` is false, and a run that reads an empty file ends with the
line "Contract is missing critical elements". -/
theorem empty_content_fails :
    checks.map (fun check => check.regex.test (js "")) =
        [false, false, false, false, false, false, false] ∧
      passedCritical (js "") = false ∧
      ∀ (contractName : JSString) (readFileSync : JSString → ReadResult),
        contractName ≠ [] → readFileSync contractName = ReadResult.ok (js "") →
          (main (some contractName) readFileSync).stdout.getLast? = some failLine := by
  refine ⟨by decide, by decide, ?_⟩
  intro contractName readFileSync hname hread
  rw [main_of_read_ok contractName (js "") readFileSync hname hread, report_getLast]
  have h : passedCritical (js "") = false := by decide
  simp [h]

/-- Witness of C4: a run on an empty file. -/
theorem empty_content_fails_witness :
    js "empty.rs" ≠ [] ∧
      (main (some (js "empty.rs")) (fun _ => ReadResult.ok (js ""))).stdout.getLast? =
        some failLine :=
  ⟨by decide, empty_content_fails.2.2 (js "empty.rs") (fun _ => ReadResult.ok (js ""))
    (by decide) rfl⟩

/-- C7: `check_contract.js` exits with a non-zero status if and only if the
file name argument is missing (`undefined` or empty) or reading the file
fails; when the file is read successfully the exit status is 0, whatever the
checks find. -/
theorem exit_nonzero_iff_no_argument_or_read_failure (argv2 : Option JSString)
    (readFileSync : JSString → ReadResult) :
    ((main argv2 readFileSync).exitCode ≠ 0 ↔
        (argv2 = none ∨ argv2 = some [] ∨
          ∃ contractName message,
            argv2 = some contractName ∧
              readFileSync contractName = ReadResult.error message)) ∧
      (∀ contractName content, argv2 = some contractName → contractName ≠ [] →
        readFileSync contractName = ReadResult.ok content →
          (main argv2 readFileSync).exitCode = 0 ∧
            (main argv2 readFileSync).stderr = []) := by
  constructor
  · cases argv2 with
    | none => simp [main]
    | some contractName =>
        by_cases hname : contractName = []
        · simp [main, hname]
        · cases hread : readFileSync contractName with
          | ok content => simp [main, hname, hread]
          | error message => simp [main, hname, hread]
  · intro contractName content harg hname hread
    subst harg
    simp [main, hname, hread]

/-- Witness of C7: a file that is read successfully and fails every check. -/
theorem exit_nonzero_iff_no_argument_or_read_failure_witness :
    js "a.rs" ≠ [] ∧
      (main (some (js "a.rs")) (fun _ => ReadResult.ok (js ""))).exitCode = 0 ∧
      (main (some (js "a.rs")) (fun _ => ReadResult.ok (js ""))).stderr = [] ∧
      passedCritical (js "") = false :=
  ⟨by decide,
    ((exit_nonzero_iff_no_argument_or_read_failure (some (js "a.rs"))
      (fun _ => ReadResult.ok (js ""))).2 (js "a.rs") (js "") rfl (by decide) rfl).1,
    ((exit_nonzero_iff_no_argument_or_read_failure (some (js "a.rs"))
      (fun _ => ReadResult.ok (js ""))).2 (js "a.rs") (js "") rfl (by decide) rfl).2,
    by decide⟩

/-- C8: when reading the named file fails, `check_contract.js` writes the line
"Error reading contract: " followed by the message to the error stream, exits
with status 1, and has written nothing to standard output. -/
theorem read_failure_prints_no_report (contractName message : JSString)
    (readFileSync : JSString → ReadResult) (hname : contractName ≠ [])
    (hread : readFileSync contractName = ReadResult.error message) :
    (main (some contractName) readFileSync).stdout = [] ∧
      (main (some contractName) readFileSync).stderr =
        [js "Error reading contract: " ++ message] ∧
      (main (some contractName) readFileSync).exitCode = 1 := by
  rw [main_of_read_error contractName message readFileSync hname hread]
  exact ⟨rfl, rfl, rfl⟩

/-- Witness of C8: a file that does not exist. -/
theorem read_failure_prints_no_report_witness :
    js "missing.rs" ≠ [] ∧
      (main (some (js "missing.rs")) (fun _ => ReadResult.error (js "ENOENT"))).stdout = [] ∧
      (main (some (js "missing.rs")) (fun _ => ReadResult.error (js "ENOENT"))).stderr =
        [js "Error reading contract: ENOENT"] ∧
      (main (some (js "missing.rs")) (fun _ => ReadResult.error (js "ENOENT"))).exitCode = 1 := by
  have h := read_failure_prints_no_report (js "missing.rs") (js "ENOENT")
    (fun _ => ReadResult.error (js "ENOENT")) (by decide) rfl
  exact ⟨by decide, h.1, h.2.1.trans (by decide), h.2.2⟩

end CheckContract

/-! ## File selection -/

theorem filter_selects (keep : JSString → Bool) (listing : List JSString) :
    (listing.filter keep).Sublist listing ∧
      (∀ file, file ∈ listing.filter keep ↔ file ∈ listing ∧ keep file = true) ∧
      (∀ file, keep file = true → (listing.filter keep).count file = listing.count file) := by
  refine ⟨List.filter_sublist listing, fun file => List.mem_filter, ?_⟩
  intro file h
  rw [List.count_filter h]

theorem rs_not_test_iff (file : JSString) :
    (endsWith file (js ".rs") && !startsWith file (js "test_")) = true ↔
      ((∃ front, file = front ++ js ".rs") ∧ ¬ ∃ rest, file = js "test_" ++ rest) := by
  simp only [Bool.and_eq_true, Bool.not_eq_true', endsWith_iff, ← startsWith_iff,
    Bool.not_eq_true]

theorem js_not_script_iff (file : JSString) :
    (endsWith file (js ".js") && !startsWith file (js "check") &&
      !startsWith file (js "test_") && !startsWith file (js "validate")) = true ↔
      ((∃ front, file = front ++ js ".js") ∧ (¬ ∃ rest, file = js "check" ++ rest) ∧
        (¬ ∃ rest, file = js "test_" ++ rest) ∧ ¬ ∃ rest, file = js "validate" ++ rest) := by
  simp only [Bool.and_eq_true, Bool.not_eq_true', endsWith_iff, ← startsWith_iff,
    Bool.not_eq_true, and_assoc]

/-- C5: the file selector of `validateStylusFiles`, in `test_utils.js` and in
`code-snippets/stylus/test_utils.js`, keeps exactly the names of the listing
that end with `.rs` and do not start with `test_`, in the order and with the
multiplicity of the listing; for the listing `a.rs`, `test_a.rs`, `b.txt` it
returns `a.rs` alone. -/
theorem rustFiles_selects (listing : List JSString) :
    TestUtils.rustFiles listing = StylusTestUtils.rustFiles listing ∧
      (StylusTestUtils.rustFiles listing).Sublist listing ∧
      (∀ file, file ∈ StylusTestUtils.rustFiles listing ↔
        file ∈ listing ∧ (∃ front, file = front ++ js ".rs") ∧
          ¬ ∃ rest, file = js "test_" ++ rest) ∧
      (∀ file, file ∈ StylusTestUtils.rustFiles listing →
        (StylusTestUtils.rustFiles listing).count file = listing.count file) ∧
      TestUtils.rustFiles [js "a.rs", js "test_a.rs", js "b.txt"] = [js "a.rs"] ∧
      StylusTestUtils.rustFiles [js "a.rs", js "test_a.rs", js "b.txt"] = [js "a.rs"] := by
  obtain ⟨h1, h2, h3⟩ := filter_selects
    (fun file => endsWith file (js ".rs") && !startsWith file (js "test_")) listing
  refine ⟨rfl, h1, ?_, ?_, by decide, by decide⟩
  · intro file
    rw [← rs_not_test_iff]
    exact h2 file
  · intro file hmem
    exact h3 file ((h2 file).1 hmem).2

/-- Witness of C5: in a listing that names a file twice, the selection keeps
both occurrences. -/
theorem rustFiles_selects_witness :
    js "a.rs" ∈ StylusTestUtils.rustFiles [js "a.rs", js "b.txt", js "a.rs"] ∧
      (StylusTestUtils.rustFiles [js "a.rs", js "b.txt", js "a.rs"]).count (js "a.rs") = 2 := by
  have h : js "a.rs" ∈ StylusTestUtils.rustFiles [js "a.rs", js "b.txt", js "a.rs"] := by decide
  exact ⟨h, ((rustFiles_selects [js "a.rs", js "b.txt", js "a.rs"]).2.2.2.1 (js "a.rs") h).trans
    (by decide)⟩

/-- C6: the file selector of `orbit/check.js` keeps exactly the names of the
listing that end with `.js` and start with none of `check`, `test_` and
`validate`, in the order and with the multiplicity of the listing; for the
listing of the eight scripts of the directory it returns the five demo scripts. -/
theorem jsFiles_selects (listing : List JSString) :
    (OrbitCheck.jsFiles listing).Sublist listing ∧
      (∀ file, file ∈ OrbitCheck.jsFiles listing ↔
        file ∈ listing ∧ (∃ front, file = front ++ js ".js") ∧
          (¬ ∃ rest, file = js "check" ++ rest) ∧ (¬ ∃ rest, file = js "test_" ++ rest) ∧
          ¬ ∃ rest, file = js "validate" ++ rest) ∧
      (∀ file, file ∈ OrbitCheck.jsFiles listing →
        (OrbitCheck.jsFiles listing).count file = listing.count file) ∧
      OrbitCheck.jsFiles
          [js "check.js", js "e_governance_marketplace.js", js "fintech_bridge.js",
            js "logistics_network.js", js "microfinance_hub.js", js "test_utils.js",
            js "trade_platform.js", js "validate.js"] =
        [js "e_governance_marketplace.js", js "fintech_bridge.js", js "logistics_network.js",
          js "microfinance_hub.js", js "trade_platform.js"] := by
  obtain ⟨h1, h2, h3⟩ := filter_selects
    (fun file => endsWith file (js ".js") && !startsWith file (js "check") &&
      !startsWith file (js "test_") && !startsWith file (js "validate")) listing
  refine ⟨h1, ?_, ?_, by decide⟩
  · intro file
    rw [← js_not_script_iff]
    exact h2 file
  · intro file hmem
    exact h3 file ((h2 file).1 hmem).2

/-- Witness of C6: in a listing that names a script twice, the selection keeps
both occurrences. -/
theorem jsFiles_selects_witness :
    js "a.js" ∈ OrbitCheck.jsFiles [js "a.js", js "check.js", js "a.js"] ∧
      (OrbitCheck.jsFiles [js "a.js", js "check.js", js "a.js"]).count (js "a.js") = 2 := by
  have h : js "a.js" ∈ OrbitCheck.jsFiles [js "a.js", js "check.js", js "a.js"] := by decide
  exact ⟨h, ((jsFiles_selects [js "a.js", js "check.js", js "a.js"]).2.2.1 (js "a.js") h).trans
    (by decide)⟩

/-! ## The loop of the directory validators -/

theorem foldl_results (step : ScanState → JSString → ScanState)
    (verdict : JSString → Option JSString)
    (hstep : ∀ st file, (step st file).results =
      (verdict file).elim ⟨st.results.valid ++ [file], st.results.issues⟩
        (fun issue => ⟨st.results.valid, st.results.issues ++ [⟨file, issue⟩]⟩))
    (files : List JSString) (st : ScanState) :
    (files.foldl step st).results =
      ⟨st.results.valid ++ files.filter (fun file => (verdict file).isNone),
        st.results.issues ++ files.filterMap (fun file => (verdict file).map (Issue.mk file))⟩ := by
  induction files generalizing st with
  | nil => simp
  | cons file rest ih =>
      rw [List.foldl_cons, ih, hstep]
      cases h : verdict file <;> simp [h, List.filter_cons, List.filterMap_cons]

theorem mem_issues_iff (verdict : JSString → Option JSString) (files : List JSString)
    (i : Issue) :
    i ∈ files.filterMap (fun file => (verdict file).map (Issue.mk file)) ↔
      i.file ∈ files ∧ verdict i.file = some i.issue := by
  simp only [List.mem_filterMap, Option.map_eq_some']
  constructor
  · rintro ⟨file, hmem, issue, hv, rfl⟩
    exact ⟨hmem, hv⟩
  · rintro ⟨hmem, hv⟩
    exact ⟨i.file, hmem, i.issue, hv, rfl⟩

theorem issues_of_file (verdict : JSString → Option JSString) (files : List JSString)
    (file : JSString) :
    (files.filterMap (fun f => (verdict f).map (Issue.mk f))).filter (fun i => i.file == file) =
      (verdict file).elim [] (fun issue => List.replicate (files.count file) ⟨file, issue⟩) := by
  induction files with
  | nil => cases verdict file <;> simp
  | cons f rest ih =>
      by_cases hf : f = file
      · subst hf
        cases h : verdict f with
        | none => simpa [List.filterMap_cons, h] using ih
        | some issue =>
            rw [h] at ih
            simp only [Option.elim] at ih
            simp [List.filterMap_cons, h, List.filter_cons, ih, List.replicate_succ]
      · rw [List.count_cons_of_ne (Ne.symm hf)]
        cases h : verdict f with
        | none => simpa [List.filterMap_cons, h] using ih
        | some issue =>
            have hne : (f == file) = false := by simpa using hf
            simp only [List.filterMap_cons, h, Option.map_some', List.filter_cons, hne]
            simpa using ih

theorem count_eq_one_of_nodup (files : List JSString) (file : JSString)
    (hnodup : files.Nodup) (hmem : file ∈ files) : files.count file = 1 := by
  induction files with
  | nil => simp at hmem
  | cons f rest ih =>
      rw [List.nodup_cons] at hnodup
      by_cases hf : f = file
      · subst hf
        simp [List.count_cons, List.count_eq_zero_of_not_mem hnodup.1]
      · have hrest : file ∈ rest := by
          rcases List.mem_cons.1 hmem with h | h
          · exact absurd h.symm hf
          · exact h
        rw [List.count_cons_of_ne (Ne.symm hf)]
        exact ih hnodup.2 hrest

namespace StylusTestUtils

theorem stylus_fileStep_results (readFileSync : JSString → ReadResult) (st : ScanState)
    (file : JSString) :
    (fileStep readFileSync st file).results =
      (issueFor (readFileSync file)).elim ⟨st.results.valid ++ [file], st.results.issues⟩
        (fun issue => ⟨st.results.valid, st.results.issues ++ [⟨file, issue⟩]⟩) := by
  unfold fileStep issueFor
  cases readFileSync file with
  | ok content =>
      simp only
      split_ifs <;> rfl
  | error message => rfl

theorem stylus_scan_results (readFileSync : JSString → ReadResult) (files : List JSString) :
    (scan readFileSync files).results =
      ⟨files.filter (fun file => (issueFor (readFileSync file)).isNone),
        files.filterMap (fun file => (issueFor (readFileSync file)).map (Issue.mk file))⟩ := by
  unfold scan
  rw [foldl_results (fileStep readFileSync) (fun file => issueFor (readFileSync file))
    (stylus_fileStep_results readFileSync)]
  simp

end StylusTestUtils

namespace TestUtils

theorem root_fileStep_results (readFileSync : JSString → ReadResult) (st : ScanState)
    (file : JSString) :
    (fileStep readFileSync st file).results =
      (issueFor (readFileSync file)).elim ⟨st.results.valid ++ [file], st.results.issues⟩
        (fun issue => ⟨st.results.valid, st.results.issues ++ [⟨file, issue⟩]⟩) := by
  unfold fileStep issueFor
  cases readFileSync file <;> rfl

theorem root_scan_results (readFileSync : JSString → ReadResult) (files : List JSString) :
    (scan readFileSync files).results =
      ⟨files.filter (fun file => (issueFor (readFileSync file)).isNone),
        files.filterMap (fun file => (issueFor (readFileSync file)).map (Issue.mk file))⟩ := by
  unfold scan
  rw [foldl_results (fileStep readFileSync) (fun file => issueFor (readFileSync file))
    (root_fileStep_results readFileSync)]
  simp

end TestUtils

namespace StylusTestUtils

theorem stylus_issueFor_ok (content : JSString) :
    issueFor (ReadResult.ok content) =
      if includes content (js "use stylus_sdk") = true ∧ includes content (js "pub struct") = true ∧
          includes content (js "impl") = true then none
      else some
        (if includes content (js "use stylus_sdk") = false then js "Missing stylus_sdk import"
        else if includes content (js "pub struct") = false then
          js "Missing contract struct definition"
        else js "Missing trait implementation") := by
  unfold issueFor
  cases h1 : includes content (js "use stylus_sdk") <;>
    cases h2 : includes content (js "pub struct") <;>
    cases h3 : includes content (js "impl") <;> simp [h1, h2, h3]

theorem stylus_rustFiles_append (xs ys : List JSString) :
    rustFiles (xs ++ ys) = rustFiles xs ++ rustFiles ys := by
  simp [rustFiles]

end StylusTestUtils

namespace TestUtils

theorem root_rustFiles_append (xs ys : List JSString) :
    rustFiles (xs ++ ys) = rustFiles xs ++ rustFiles ys := by
  simp [rustFiles]

end TestUtils

/-- C9: `validateStylusFiles` of `code-snippets/stylus/test_utils.js` classifies a
selected file that can be read by its content.  The file is in `valid` if and
only if its content contains `use stylus_sdk`, `pub struct` and `impl`.
Otherwise the issues recorded for the file, one for each time the selection
names it (once when the listing has no repeated name), all carry the message of
the first check that fails, in the order `Missing stylus_sdk import`,
`Missing contract struct definition`, `Missing trait implementation`. -/
theorem validateStylusFiles_classifies_by_content (listing : List JSString)
    (readFileSync : JSString → ReadResult) (file content : JSString)
    (hsel : file ∈ StylusTestUtils.rustFiles listing)
    (hread : readFileSync file = ReadResult.ok content) :
    ∃ results,
      (StylusTestUtils.validateStylusFiles (DirResult.ok listing) readFileSync).completion =
        Completion.returned results ∧
      (file ∈ results.valid ↔
        (includes content (js "use stylus_sdk") = true ∧ includes content (js "pub struct") = true ∧
          includes content (js "impl") = true)) ∧
      results.issues.filter (fun i => i.file == file) =
        (if includes content (js "use stylus_sdk") = true ∧
            includes content (js "pub struct") = true ∧ includes content (js "impl") = true then []
        else List.replicate ((StylusTestUtils.rustFiles listing).count file)
          ⟨file,
            if includes content (js "use stylus_sdk") = false then js "Missing stylus_sdk import"
            else if includes content (js "pub struct") = false then
              js "Missing contract struct definition"
            else js "Missing trait implementation"⟩) ∧
      (listing.Nodup → (StylusTestUtils.rustFiles listing).count file = 1) := by
  refine ⟨(StylusTestUtils.scan readFileSync (StylusTestUtils.rustFiles listing)).results, rfl,
    ?_, ?_, ?_⟩
  · rw [StylusTestUtils.stylus_scan_results]
    simp only [List.mem_filter, hsel, true_and, hread, StylusTestUtils.stylus_issueFor_ok]
    by_cases h : includes content (js "use stylus_sdk") = true ∧
        includes content (js "pub struct") = true ∧ includes content (js "impl") = true
    · simp [h]
    · simp only [if_neg h, Option.isNone_some]
      simpa using h
  · rw [StylusTestUtils.stylus_scan_results]
    simp only
    rw [issues_of_file (fun f => StylusTestUtils.issueFor (readFileSync f)), hread,
      StylusTestUtils.stylus_issueFor_ok]
    split_ifs <;> rfl
  · intro hnodup
    exact count_eq_one_of_nodup _ _ (hnodup.filter _) hsel

/-- Witness of C9: a file with the import and no `pub struct`. -/
theorem validateStylusFiles_classifies_by_content_witness :
    js "a.rs" ∈ StylusTestUtils.rustFiles [js "a.rs", js "b.rs"] ∧
      ∃ results,
        (StylusTestUtils.validateStylusFiles (DirResult.ok [js "a.rs", js "b.rs"])
          (fun _ => ReadResult.ok (js "use stylus_sdk::x; impl S"))).completion =
          Completion.returned results ∧
        js "a.rs" ∉ results.valid ∧
        results.issues.filter (fun i => i.file == js "a.rs") =
          [⟨js "a.rs", js "Missing contract struct definition"⟩] := by
  have hsel : js "a.rs" ∈ StylusTestUtils.rustFiles [js "a.rs", js "b.rs"] := by decide
  obtain ⟨results, hres, hvalid, hissues, hone⟩ :=
    validateStylusFiles_classifies_by_content [js "a.rs", js "b.rs"]
      (fun _ => ReadResult.ok (js "use stylus_sdk::x; impl S")) (js "a.rs")
      (js "use stylus_sdk::x; impl S") hsel rfl
  refine ⟨hsel, results, hres, ?_, ?_⟩
  · rw [hvalid]
    decide
  · rw [hissues, hone (by decide)]
    decide

/-- C10: `validateStylusFiles`, in `code-snippets/stylus/test_utils.js` and in
`test_utils.js`, isolates failures per file.  The `valid` and `issues` lists
returned for a listing `xs` followed by a listing `ys` are the concatenations
of those returned for `xs` and for `ys`.  A selected file that cannot be read,
put between `xs` and `ys`, adds one issue for that file, with the message of
the read error, between the issues of `xs` and those of `ys`, and changes
nothing else. -/
theorem validateStylusFiles_isolates_failures (readFileSync : JSString → ReadResult)
    (xs ys : List JSString) :
    (∃ r rx ry,
      (StylusTestUtils.validateStylusFiles (DirResult.ok (xs ++ ys)) readFileSync).completion =
        Completion.returned r ∧
      (StylusTestUtils.validateStylusFiles (DirResult.ok xs) readFileSync).completion =
        Completion.returned rx ∧
      (StylusTestUtils.validateStylusFiles (DirResult.ok ys) readFileSync).completion =
        Completion.returned ry ∧
      r.valid = rx.valid ++ ry.valid ∧ r.issues = rx.issues ++ ry.issues ∧
      ∀ file message,
        (endsWith file (js ".rs") && !startsWith file (js "test_")) = true →
        readFileSync file = ReadResult.error message →
        ∃ r',
          (StylusTestUtils.validateStylusFiles (DirResult.ok (xs ++ file :: ys))
            readFileSync).completion = Completion.returned r' ∧
          r'.valid = rx.valid ++ ry.valid ∧
          r'.issues = rx.issues ++ ⟨file, js "Error: " ++ message⟩ :: ry.issues) ∧
    (∃ r rx ry,
      (TestUtils.validateStylusFiles (DirResult.ok (xs ++ ys)) readFileSync).completion =
        Completion.returned r ∧
      (TestUtils.validateStylusFiles (DirResult.ok xs) readFileSync).completion =
        Completion.returned rx ∧
      (TestUtils.validateStylusFiles (DirResult.ok ys) readFileSync).completion =
        Completion.returned ry ∧
      r.valid = rx.valid ++ ry.valid ∧ r.issues = rx.issues ++ ry.issues ∧
      ∀ file message,
        (endsWith file (js ".rs") && !startsWith file (js "test_")) = true →
        readFileSync file = ReadResult.error message →
        ∃ r',
          (TestUtils.validateStylusFiles (DirResult.ok (xs ++ file :: ys))
            readFileSync).completion = Completion.returned r' ∧
          r'.valid = rx.valid ++ ry.valid ∧
          r'.issues = rx.issues ++ ⟨file, js "Error reading file: " ++ message⟩ :: ry.issues) := by
  constructor
  · refine ⟨_, _, _, rfl, rfl, rfl, ?_, ?_, ?_⟩
    · simp [StylusTestUtils.stylus_scan_results, StylusTestUtils.stylus_rustFiles_append]
    · simp [StylusTestUtils.stylus_scan_results, StylusTestUtils.stylus_rustFiles_append]
    · intro file message hsel hread
      have hfile : StylusTestUtils.rustFiles (file :: ys) =
          file :: StylusTestUtils.rustFiles ys := by
        simp only [StylusTestUtils.rustFiles, List.filter_cons, hsel, if_true]
      refine ⟨_, rfl, ?_, ?_⟩
      · simp [StylusTestUtils.stylus_scan_results, StylusTestUtils.stylus_rustFiles_append, hfile,
          List.filter_cons, hread, StylusTestUtils.issueFor]
      · simp [StylusTestUtils.stylus_scan_results, StylusTestUtils.stylus_rustFiles_append, hfile,
          List.filterMap_cons, hread, StylusTestUtils.issueFor]
  · refine ⟨_, _, _, rfl, rfl, rfl, ?_, ?_, ?_⟩
    · simp [TestUtils.root_scan_results, TestUtils.root_rustFiles_append]
    · simp [TestUtils.root_scan_results, TestUtils.root_rustFiles_append]
    · intro file message hsel hread
      have hfile : TestUtils.rustFiles (file :: ys) = file :: TestUtils.rustFiles ys := by
        simp only [TestUtils.rustFiles, List.filter_cons, hsel, if_true]
      refine ⟨_, rfl, ?_, ?_⟩
      · simp [TestUtils.root_scan_results, TestUtils.root_rustFiles_append, hfile,
          List.filter_cons, hread, TestUtils.issueFor]
      · simp [TestUtils.root_scan_results, TestUtils.root_rustFiles_append, hfile,
          List.filterMap_cons, hread, TestUtils.issueFor]

/-- Witness of C10: an unreadable file between two valid ones. -/
theorem validateStylusFiles_isolates_failures_witness :
    (endsWith (js "bad.rs") (js ".rs") && !startsWith (js "bad.rs") (js "test_")) = true ∧
      ∃ r',
        (StylusTestUtils.validateStylusFiles (DirResult.ok ([js "a.rs"] ++ js "bad.rs" :: [js "b.rs"]))
          (fun file =>
            if file = js "bad.rs" then ReadResult.error (js "EACCES")
            else ReadResult.ok (js "use stylus_sdk; pub struct S; impl S"))).completion =
          Completion.returned r' ∧
        r'.valid = [js "a.rs", js "b.rs"] ∧
        r'.issues = [⟨js "bad.rs", js "Error: EACCES"⟩] := by
  obtain ⟨r, rx, ry, _, hrx, hry, _, _, hbad⟩ :=
    (validateStylusFiles_isolates_failures
      (fun file =>
        if file = js "bad.rs" then ReadResult.error (js "EACCES")
        else ReadResult.ok (js "use stylus_sdk; pub struct S; impl S"))
      [js "a.rs"] [js "b.rs"]).1
  obtain ⟨r', hr', hvalid, hissues⟩ := hbad (js "bad.rs") (js "EACCES") (by decide) (by decide)
  have hx : rx = ⟨[js "a.rs"], []⟩ :=
    Completion.returned.inj (hrx.symm.trans (by decide))
  have hy : ry = ⟨[js "b.rs"], []⟩ :=
    Completion.returned.inj (hry.symm.trans (by decide))
  subst hx hy
  exact ⟨by decide, r', hr', hvalid, hissues.trans (by decide)⟩

namespace CheckContract

theorem checkLoop_log (content : JSString) (cs : List Check) (st : LoopState) :
    (checkLoop content cs st).log =
      st.log ++ cs.map (fun check =>
        js "[" ++ (if check.regex.test content then js "PASS" else js "FAIL") ++ js "] " ++
          check.name ++ js " (" ++ check.severity ++ js ")") := by
  induction cs generalizing st with
  | nil => simp [checkLoop]
  | cons check rest ih =>
      have h := ih (checkStep content st check)
      simp only [checkLoop, List.foldl_cons] at h ⊢
      rw [h]
      simp [checkStep]

/-- C18: when the file is read, `check_contract.js` prints, after its three
heading lines, exactly one result line per check in the order of the registry
(Public functions, Struct definitions, Stylus imports, External attribute,
Payable attribute, No std attribute, Implementation blocks): the line of a
check is `[PASS] name (severity)` when its pattern is found in the content and
`[FAIL] name (severity)` otherwise.  The summary heading and the summary line
come after all of them. -/
theorem one_result_line_per_check (contractName content : JSString)
    (readFileSync : JSString → ReadResult) (hname : contractName ≠ [])
    (hread : readFileSync contractName = ReadResult.ok content) :
    (main (some contractName) readFileSync).stdout =
        [ js "Successfully read contract: " ++ contractName,
          js "File size: " ++ sizeInKB content.length ++ js " KB",
          js "\nBasic contract checks:" ] ++
        checks.map (fun check =>
          js "[" ++ (if check.regex.test content then js "PASS" else js "FAIL") ++ js "] " ++
            check.name ++ js " (" ++ check.severity ++ js ")") ++
        [ js "\nSummary:", if passedCritical content then passLine else failLine ] ∧
      checks.map (fun check => (check.name, check.severity)) =
        [ (js "Public functions", js "Critical"), (js "Struct definitions", js "Critical"),
          (js "Stylus imports", js "Critical"), (js "External attribute", js "Important"),
          (js "Payable attribute", js "Optional"), (js "No std attribute", js "Important"),
          (js "Implementation blocks", js "Critical") ] ∧
      checks.map Check.regex =
        [rePubFn, reStruct, reUseStylus, reExternal, rePayable, reNoStd, reImpl] := by
  refine ⟨?_, rfl, rfl⟩
  rw [main_of_read_ok contractName content readFileSync hname hread]
  simp only [report, checkLoop_log, passedCritical, List.nil_append]

/-- Witness of C18: the lines printed for a file with the four critical
elements and none of the attributes. -/
theorem one_result_line_per_check_witness :
    js "a.rs" ≠ [] ∧
      (main (some (js "a.rs"))
          (fun _ => ReadResult.ok (js "pub fn f struct S use stylus_sdk impl S"))).stdout =
        [ js "Successfully read contract: a.rs", js "File size: 0.04 KB",
          js "\nBasic contract checks:",
          js "[PASS] Public functions (Critical)", js "[PASS] Struct definitions (Critical)",
          js "[PASS] Stylus imports (Critical)", js "[FAIL] External attribute (Important)",
          js "[FAIL] Payable attribute (Optional)", js "[FAIL] No std attribute (Important)",
          js "[PASS] Implementation blocks (Critical)",
          js "\nSummary:", js "✅ Contract passes all critical checks" ] := by
  refine ⟨by decide, ?_⟩
  rw [(one_result_line_per_check (js "a.rs") (js "pub fn f struct S use stylus_sdk impl S")
    (fun _ => ReadResult.ok _) (by decide) rfl).1]
  decide

end CheckContract

/-! ## The results of a directory validation partition the selection -/

theorem issue_files_eq_filter (verdict : JSString → Option JSString) (files : List JSString) :
    (files.filterMap (fun f => (verdict f).map (Issue.mk f))).map Issue.file =
      files.filter (fun f => (verdict f).isSome) := by
  induction files with
  | nil => rfl
  | cons f rest ih =>
      cases h : verdict f <;> simp [List.filterMap_cons, List.filter_cons, h, ih]

theorem count_filter_split (p : JSString → Bool) (files : List JSString) (file : JSString) :
    (files.filter p).count file + (files.filter (fun f => !p f)).count file =
      files.count file := by
  induction files with
  | nil => rfl
  | cons f rest ih =>
      cases hp : p f <;> simp [List.filter_cons, hp, List.count_cons] <;> omega

theorem length_filter_split (p : JSString → Bool) (files : List JSString) :
    (files.filter p).length + (files.filter (fun f => !p f)).length = files.length := by
  induction files with
  | nil => rfl
  | cons f rest ih =>
      cases hp : p f <;> simp [List.filter_cons, hp] <;> omega

theorem partition_of_verdict (verdict : JSString → Option JSString) (files : List JSString)
    (results : Results)
    (hv : results.valid = files.filter (fun f => (verdict f).isNone))
    (hi : results.issues = files.filterMap (fun f => (verdict f).map (Issue.mk f))) :
    results.valid.Sublist files ∧ (results.issues.map Issue.file).Sublist files ∧
      (∀ file, results.valid.count file + (results.issues.map Issue.file).count file =
        files.count file) ∧
      (∀ file, file ∈ results.valid → file ∉ results.issues.map Issue.file) ∧
      results.valid.length + results.issues.length = files.length := by
  have hsome : (fun f => (verdict f).isSome) = fun f => !(verdict f).isNone := by
    funext f
    cases verdict f <;> rfl
  have hfiles : results.issues.map Issue.file =
      files.filter (fun f => !(verdict f).isNone) := by
    rw [hi, issue_files_eq_filter, hsome]
  refine ⟨?_, ?_, ?_, ?_, ?_⟩
  · rw [hv]
    exact List.filter_sublist files
  · rw [hfiles]
    exact List.filter_sublist files
  · intro file
    rw [hv, hfiles]
    exact count_filter_split _ files file
  · intro file h1 h2
    rw [hv] at h1
    rw [hfiles] at h2
    have h1' := (List.mem_filter.1 h1).2
    have h2' := (List.mem_filter.1 h2).2
    simp [h1'] at h2'
  · have hlen : results.issues.length = (results.issues.map Issue.file).length := by simp
    rw [hlen, hv, hfiles]
    exact length_filter_split _ files

namespace OrbitTestUtils

theorem orbit_fileStep_results (readFileSync : JSString → ReadResult)
    (newFunction : JSString → Option JSString) (st : ScanState) (file : JSString) :
    (fileStep readFileSync newFunction st file).results =
      (issueFor newFunction (readFileSync file)).elim
        ⟨st.results.valid ++ [file], st.results.issues⟩
        (fun issue => ⟨st.results.valid, st.results.issues ++ [⟨file, issue⟩]⟩) := by
  unfold fileStep issueFor
  cases readFileSync file with
  | ok content =>
      simp only
      cases newFunction content with
      | some message => rfl
      | none =>
          simp only
          split_ifs <;> rfl
  | error message => rfl

theorem orbit_scan_results (readFileSync : JSString → ReadResult)
    (newFunction : JSString → Option JSString) (files : List JSString) :
    (scan readFileSync newFunction files).results =
      ⟨files.filter (fun file => (issueFor newFunction (readFileSync file)).isNone),
        files.filterMap
          (fun file => (issueFor newFunction (readFileSync file)).map (Issue.mk file))⟩ := by
  unfold scan
  rw [foldl_results (fileStep readFileSync newFunction)
    (fun file => issueFor newFunction (readFileSync file))
    (orbit_fileStep_results readFileSync newFunction)]
  simp

end OrbitTestUtils

/-- C11: the result of a directory validation partitions the selected files.
For a listing with distinct names and each of `validateStylusFiles` of
`code-snippets/stylus/test_utils.js`, `validateStylusFiles` of `test_utils.js`
and `validateOrbitFiles`: `valid` and the files of `issues` are sublists of the
selection, so both keep the listing order; each selected file occurs once in
all, in `valid` or as the file of an issue; no file is in both; and
`valid.length + issues.length` is the number of selected files. -/
theorem validation_partitions_selection (listing : List JSString)
    (readFileSync : JSString → ReadResult) (newFunction : JSString → Option JSString)
    (hnodup : listing.Nodup) :
    (∃ results,
      (StylusTestUtils.validateStylusFiles (DirResult.ok listing) readFileSync).completion =
        Completion.returned results ∧
      results.valid.Sublist (StylusTestUtils.rustFiles listing) ∧
      (results.issues.map Issue.file).Sublist (StylusTestUtils.rustFiles listing) ∧
      (∀ file ∈ StylusTestUtils.rustFiles listing,
        results.valid.count file + (results.issues.map Issue.file).count file = 1) ∧
      (∀ file, file ∈ results.valid → file ∉ results.issues.map Issue.file) ∧
      results.valid.length + results.issues.length =
        (StylusTestUtils.rustFiles listing).length) ∧
    (∃ results,
      (TestUtils.validateStylusFiles (DirResult.ok listing) readFileSync).completion =
        Completion.returned results ∧
      results.valid.Sublist (TestUtils.rustFiles listing) ∧
      (results.issues.map Issue.file).Sublist (TestUtils.rustFiles listing) ∧
      (∀ file ∈ TestUtils.rustFiles listing,
        results.valid.count file + (results.issues.map Issue.file).count file = 1) ∧
      (∀ file, file ∈ results.valid → file ∉ results.issues.map Issue.file) ∧
      results.valid.length + results.issues.length = (TestUtils.rustFiles listing).length) ∧
    (∃ results,
      (OrbitTestUtils.validateOrbitFiles (DirResult.ok listing) readFileSync
        newFunction).completion = Completion.returned results ∧
      results.valid.Sublist (OrbitTestUtils.jsFiles listing) ∧
      (results.issues.map Issue.file).Sublist (OrbitTestUtils.jsFiles listing) ∧
      (∀ file ∈ OrbitTestUtils.jsFiles listing,
        results.valid.count file + (results.issues.map Issue.file).count file = 1) ∧
      (∀ file, file ∈ results.valid → file ∉ results.issues.map Issue.file) ∧
      results.valid.length + results.issues.length =
        (OrbitTestUtils.jsFiles listing).length) := by
  refine ⟨?_, ?_, ?_⟩
  · obtain ⟨h1, h2, h3, h4, h5⟩ := partition_of_verdict
      (fun file => StylusTestUtils.issueFor (readFileSync file))
      (StylusTestUtils.rustFiles listing)
      (StylusTestUtils.scan readFileSync (StylusTestUtils.rustFiles listing)).results
      (by rw [StylusTestUtils.stylus_scan_results]) (by rw [StylusTestUtils.stylus_scan_results])
    refine ⟨_, rfl, h1, h2, ?_, h4, h5⟩
    intro file hmem
    rw [h3 file]
    exact count_eq_one_of_nodup _ _ (hnodup.filter _) hmem
  · obtain ⟨h1, h2, h3, h4, h5⟩ := partition_of_verdict
      (fun file => TestUtils.issueFor (readFileSync file))
      (TestUtils.rustFiles listing)
      (TestUtils.scan readFileSync (TestUtils.rustFiles listing)).results
      (by rw [TestUtils.root_scan_results]) (by rw [TestUtils.root_scan_results])
    refine ⟨_, rfl, h1, h2, ?_, h4, h5⟩
    intro file hmem
    rw [h3 file]
    exact count_eq_one_of_nodup _ _ (hnodup.filter _) hmem
  · obtain ⟨h1, h2, h3, h4, h5⟩ := partition_of_verdict
      (fun file => OrbitTestUtils.issueFor newFunction (readFileSync file))
      (OrbitTestUtils.jsFiles listing)
      (OrbitTestUtils.scan readFileSync newFunction (OrbitTestUtils.jsFiles listing)).results
      (by rw [OrbitTestUtils.orbit_scan_results]) (by rw [OrbitTestUtils.orbit_scan_results])
    refine ⟨_, rfl, h1, h2, ?_, h4, h5⟩
    intro file hmem
    rw [h3 file]
    exact count_eq_one_of_nodup _ _ (hnodup.filter _) hmem

/-- Witness of C11: a listing with a valid contract, a test file, a contract
without the import and an unreadable contract. -/
theorem validation_partitions_selection_witness :
    [js "a.rs", js "test_b.rs", js "c.rs", js "d.rs"].Nodup ∧
      ∃ results,
        (StylusTestUtils.validateStylusFiles
          (DirResult.ok [js "a.rs", js "test_b.rs", js "c.rs", js "d.rs"])
          (fun file =>
            if file = js "d.rs" then ReadResult.error (js "EACCES")
            else if file = js "c.rs" then ReadResult.ok (js "fn main()")
            else ReadResult.ok (js "use stylus_sdk; pub struct S; impl S"))).completion =
          Completion.returned results ∧
        results.valid.length + results.issues.length = 3 := by
  have hnodup : [js "a.rs", js "test_b.rs", js "c.rs", js "d.rs"].Nodup := by decide
  obtain ⟨results, hres, _, _, _, _, hlen⟩ :=
    (validation_partitions_selection [js "a.rs", js "test_b.rs", js "c.rs", js "d.rs"]
      (fun file =>
        if file = js "d.rs" then ReadResult.error (js "EACCES")
        else if file = js "c.rs" then ReadResult.ok (js "fn main()")
        else ReadResult.ok (js "use stylus_sdk; pub struct S; impl S"))
      (fun _ => none) hnodup).1
  exact ⟨hnodup, results, hres, hlen.trans (by decide)⟩

namespace OrbitTestUtils

theorem orbit_issueFor_throws (newFunction : JSString → Option JSString)
    (content message : JSString) (h : newFunction content = some message) :
    issueFor newFunction (ReadResult.ok content) = some (js "Syntax error: " ++ message) := by
  simp [issueFor, h]

theorem orbit_issueFor_parses (newFunction : JSString → Option JSString) (content : JSString)
    (h : newFunction content = none) :
    issueFor newFunction (ReadResult.ok content) =
      if includes content (js "createRollupChain") = false then
        some (js "Missing createRollupChain import")
      else if includes content (js "ethers") = false then some (js "Missing ethers import")
      else none := by
  cases h1 : includes content (js "createRollupChain") <;>
    cases h2 : includes content (js "ethers") <;> simp [issueFor, h, h1, h2]

end OrbitTestUtils

/-- C20: `validateOrbitFiles` classifies a selected file as follows.  It is in
`valid` if and only if it is read, `new Function(content)` does not throw, and
the content contains `createRollupChain` and `ethers`.  Otherwise the issues
recorded for it, one for each time the selection names it (once when the
listing has no repeated name), carry: `Syntax error: ` and the message when the
read fails or `new Function` throws; else `Missing createRollupChain import`
when that substring is absent; else `Missing ethers import`. -/
theorem validateOrbitFiles_classifies (listing : List JSString)
    (readFileSync : JSString → ReadResult) (newFunction : JSString → Option JSString)
    (file : JSString) (hsel : file ∈ OrbitTestUtils.jsFiles listing) :
    ∃ results,
      (OrbitTestUtils.validateOrbitFiles (DirResult.ok listing) readFileSync
        newFunction).completion = Completion.returned results ∧
      (file ∈ results.valid ↔
        ∃ content, readFileSync file = ReadResult.ok content ∧ newFunction content = none ∧
          includes content (js "createRollupChain") = true ∧
          includes content (js "ethers") = true) ∧
      (file ∈ results.valid → results.issues.filter (fun i => i.file == file) = []) ∧
      (∀ message, readFileSync file = ReadResult.error message →
        results.issues.filter (fun i => i.file == file) =
          List.replicate ((OrbitTestUtils.jsFiles listing).count file)
            ⟨file, js "Syntax error: " ++ message⟩) ∧
      (∀ content message, readFileSync file = ReadResult.ok content →
        newFunction content = some message →
        results.issues.filter (fun i => i.file == file) =
          List.replicate ((OrbitTestUtils.jsFiles listing).count file)
            ⟨file, js "Syntax error: " ++ message⟩) ∧
      (∀ content, readFileSync file = ReadResult.ok content → newFunction content = none →
        includes content (js "createRollupChain") = false →
        results.issues.filter (fun i => i.file == file) =
          List.replicate ((OrbitTestUtils.jsFiles listing).count file)
            ⟨file, js "Missing createRollupChain import"⟩) ∧
      (∀ content, readFileSync file = ReadResult.ok content → newFunction content = none →
        includes content (js "createRollupChain") = true →
        includes content (js "ethers") = false →
        results.issues.filter (fun i => i.file == file) =
          List.replicate ((OrbitTestUtils.jsFiles listing).count file)
            ⟨file, js "Missing ethers import"⟩) ∧
      (listing.Nodup → (OrbitTestUtils.jsFiles listing).count file = 1) := by
  have hissues : ((OrbitTestUtils.scan readFileSync newFunction
      (OrbitTestUtils.jsFiles listing)).results.issues.filter (fun i => i.file == file)) =
      (OrbitTestUtils.issueFor newFunction (readFileSync file)).elim []
        (fun issue => List.replicate ((OrbitTestUtils.jsFiles listing).count file)
          ⟨file, issue⟩) := by
    rw [OrbitTestUtils.orbit_scan_results]
    exact issues_of_file (fun f => OrbitTestUtils.issueFor newFunction (readFileSync f)) _ file
  have hvalid : file ∈ (OrbitTestUtils.scan readFileSync newFunction
      (OrbitTestUtils.jsFiles listing)).results.valid ↔
      OrbitTestUtils.issueFor newFunction (readFileSync file) = none := by
    rw [OrbitTestUtils.orbit_scan_results]
    simp only [List.mem_filter, hsel, true_and, Option.isNone_iff_eq_none]
  refine ⟨(OrbitTestUtils.scan readFileSync newFunction
    (OrbitTestUtils.jsFiles listing)).results, rfl, ?_, ?_, ?_, ?_, ?_, ?_, ?_⟩
  · rw [hvalid]
    cases hread : readFileSync file with
    | error message => simp [OrbitTestUtils.issueFor]
    | ok content =>
        cases hnf : newFunction content with
        | some message => simp [OrbitTestUtils.orbit_issueFor_throws _ _ _ hnf, hnf]
        | none =>
            rw [OrbitTestUtils.orbit_issueFor_parses _ _ hnf]
            cases h1 : includes content (js "createRollupChain") <;>
              cases h2 : includes content (js "ethers") <;> simp [hnf, h1, h2]
  · intro hv
    rw [hissues, hvalid.1 hv]
    rfl
  · intro message hread
    rw [hissues, hread]
    rfl
  · intro content message hread hnf
    rw [hissues, hread, OrbitTestUtils.orbit_issueFor_throws _ _ _ hnf]
    rfl
  · intro content hread hnf h1
    rw [hissues, hread, OrbitTestUtils.orbit_issueFor_parses _ _ hnf]
    simp [h1]
  · intro content hread hnf h1 h2
    rw [hissues, hread, OrbitTestUtils.orbit_issueFor_parses _ _ hnf]
    simp [h1, h2]
  · intro hnodup
    exact count_eq_one_of_nodup _ _ (hnodup.filter _) hsel

/-- Witness of C20: an unreadable script is recorded under `Syntax error`. -/
theorem validateOrbitFiles_classifies_witness :
    js "a.js" ∈ OrbitTestUtils.jsFiles [js "a.js", js "test_utils.js"] ∧
      ∃ results,
        (OrbitTestUtils.validateOrbitFiles (DirResult.ok [js "a.js", js "test_utils.js"])
          (fun _ => ReadResult.error (js "EACCES")) (fun _ => none)).completion =
          Completion.returned results ∧
        js "a.js" ∉ results.valid ∧
        results.issues.filter (fun i => i.file == js "a.js") =
          [⟨js "a.js", js "Syntax error: EACCES"⟩] := by
  have hsel : js "a.js" ∈ OrbitTestUtils.jsFiles [js "a.js", js "test_utils.js"] := by decide
  obtain ⟨results, hres, hvalid, _, herr, _, _, _, hone⟩ :=
    validateOrbitFiles_classifies [js "a.js", js "test_utils.js"]
      (fun _ => ReadResult.error (js "EACCES")) (fun _ => none) (js "a.js") hsel
  refine ⟨hsel, results, hres, ?_, ?_⟩
  · rw [hvalid]
    simp
  · rw [herr (js "EACCES") rfl, hone (by decide)]
    decide

/-- C12: a negative check outcome is not an application error.  Each of
`checkRustContract` of `test_utils.js`, `checkRustContract` of
`code-snippets/stylus/test_utils.js` and `quickCheck` returns
`{ success: true }` if and only if reading the file succeeds, whatever its
content is, and returns `{ success: false, error: message }` if and only if
reading the file fails with that message. -/
theorem single_file_checkers_succeed_iff_read (filename : JSString)
    (readFileSync : JSString → ReadResult) :
    (((TestUtils.checkRustContract filename readFileSync).returned = ⟨true, none⟩ ↔
        ∃ content, readFileSync filename = ReadResult.ok content) ∧
      ∀ message, (TestUtils.checkRustContract filename readFileSync).returned =
        ⟨false, some message⟩ ↔ readFileSync filename = ReadResult.error message) ∧
    (((StylusTestUtils.checkRustContract filename readFileSync).returned = ⟨true, none⟩ ↔
        ∃ content, readFileSync filename = ReadResult.ok content) ∧
      ∀ message, (StylusTestUtils.checkRustContract filename readFileSync).returned =
        ⟨false, some message⟩ ↔ readFileSync filename = ReadResult.error message) ∧
    (((OrbitTestUtils.quickCheck filename readFileSync).returned = ⟨true, none⟩ ↔
        ∃ content, readFileSync filename = ReadResult.ok content) ∧
      ∀ message, (OrbitTestUtils.quickCheck filename readFileSync).returned =
        ⟨false, some message⟩ ↔ readFileSync filename = ReadResult.error message) := by
  refine ⟨?_, ?_, ?_⟩
  · cases h : readFileSync filename <;> simp [TestUtils.checkRustContract, h]
  · cases h : readFileSync filename <;> simp [StylusTestUtils.checkRustContract, h]
  · cases h : readFileSync filename <;> simp [OrbitTestUtils.quickCheck, h]

/-- C14: when listing the directory fails, `validateStylusFiles` (both versions)
and `validateOrbitFiles` end with that error thrown: nothing has been logged,
no `results` object is returned, and so no per-file issue records the failure. -/
theorem listing_failure_is_thrown (message : JSString) (readFileSync : JSString → ReadResult)
    (newFunction : JSString → Option JSString) :
    ((StylusTestUtils.validateStylusFiles (DirResult.error message) readFileSync).completion =
        Completion.thrown message ∧
      (StylusTestUtils.validateStylusFiles (DirResult.error message) readFileSync).stdout = [] ∧
      ∀ results,
        (StylusTestUtils.validateStylusFiles (DirResult.error message) readFileSync).completion ≠
          Completion.returned results) ∧
    ((TestUtils.validateStylusFiles (DirResult.error message) readFileSync).completion =
        Completion.thrown message ∧
      (TestUtils.validateStylusFiles (DirResult.error message) readFileSync).stdout = [] ∧
      ∀ results,
        (TestUtils.validateStylusFiles (DirResult.error message) readFileSync).completion ≠
          Completion.returned results) ∧
    ((OrbitTestUtils.validateOrbitFiles (DirResult.error message) readFileSync
          newFunction).completion = Completion.thrown message ∧
      (OrbitTestUtils.validateOrbitFiles (DirResult.error message) readFileSync
          newFunction).stdout = [] ∧
      ∀ results,
        (OrbitTestUtils.validateOrbitFiles (DirResult.error message) readFileSync
          newFunction).completion ≠ Completion.returned results) := by
  refine ⟨⟨rfl, rfl, ?_⟩, ⟨rfl, rfl, ?_⟩, ⟨rfl, rfl, ?_⟩⟩ <;>
  · intro results h
    cases h

/-- C19: in `validateStylusFiles` of `test_utils.js` a selected file is in
`valid` if and only if reading it succeeds; an unreadable selected file is
recorded with the issue `Error reading file: ` followed by the message; and
two runs over the same listing whose reads succeed for the same files and fail
with the same messages return the same `results`, whatever the contents are. -/
theorem root_valid_means_readable (listing : List JSString)
    (readFileSync : JSString → ReadResult) :
    ∃ results,
      (TestUtils.validateStylusFiles (DirResult.ok listing) readFileSync).completion =
        Completion.returned results ∧
      (∀ file, file ∈ results.valid ↔
        file ∈ TestUtils.rustFiles listing ∧ ∃ content, readFileSync file = ReadResult.ok content) ∧
      (∀ file message, file ∈ TestUtils.rustFiles listing →
        readFileSync file = ReadResult.error message →
        (⟨file, js "Error reading file: " ++ message⟩ : Issue) ∈ results.issues) ∧
      (∀ i ∈ results.issues, ∃ message,
        readFileSync i.file = ReadResult.error message ∧
          i.issue = js "Error reading file: " ++ message) ∧
      ∀ otherRead : JSString → ReadResult,
        (∀ file ∈ TestUtils.rustFiles listing,
          ((∃ content, readFileSync file = ReadResult.ok content) ↔
            ∃ content, otherRead file = ReadResult.ok content) ∧
          ∀ message, readFileSync file = ReadResult.error message ↔
            otherRead file = ReadResult.error message) →
        (TestUtils.validateStylusFiles (DirResult.ok listing) otherRead).completion =
          Completion.returned results := by
  refine ⟨(TestUtils.scan readFileSync (TestUtils.rustFiles listing)).results, rfl, ?_, ?_, ?_, ?_⟩
  · intro file
    rw [TestUtils.root_scan_results]
    simp only [List.mem_filter]
    cases h : readFileSync file <;> simp [TestUtils.issueFor]
  · intro file message hsel hread
    rw [TestUtils.root_scan_results]
    exact (mem_issues_iff (fun f => TestUtils.issueFor (readFileSync f)) _ _).2
      ⟨hsel, by simp [hread, TestUtils.issueFor]⟩
  · intro i hi
    rw [TestUtils.root_scan_results] at hi
    have h := ((mem_issues_iff (fun f => TestUtils.issueFor (readFileSync f)) _ _).1 hi).2
    cases hread : readFileSync i.file with
    | ok content => simp [hread, TestUtils.issueFor] at h
    | error message =>
        simp only [hread, TestUtils.issueFor, Option.some.injEq] at h
        exact ⟨message, rfl, h.symm⟩
  · intro otherRead hsame
    show Completion.returned _ = Completion.returned _
    congr 1
    rw [TestUtils.root_scan_results, TestUtils.root_scan_results]
    have hverdict : ∀ file ∈ TestUtils.rustFiles listing,
        TestUtils.issueFor (otherRead file) = TestUtils.issueFor (readFileSync file) := by
      intro file hmem
      obtain ⟨hok, herr⟩ := hsame file hmem
      cases h : readFileSync file with
      | ok content =>
          obtain ⟨content', h'⟩ := hok.1 ⟨content, h⟩
          rw [h']
          rfl
      | error message =>
          rw [(herr message).1 h]
    congr 1
    · exact List.filter_congr (fun file hmem => by rw [hverdict file hmem])
    · exact List.filterMap_congr (fun file hmem => by rw [hverdict file hmem])

/-- Witness of C19: a readable file without any Stylus element is valid, an
unreadable file is an issue, and other contents give the same results. -/
theorem root_valid_means_readable_witness :
    ∃ results,
      (TestUtils.validateStylusFiles (DirResult.ok [js "a.rs", js "b.rs"])
        (fun file =>
          if file = js "b.rs" then ReadResult.error (js "EACCES")
          else ReadResult.ok (js "nothing"))).completion = Completion.returned results ∧
      results = ⟨[js "a.rs"], [⟨js "b.rs", js "Error reading file: EACCES"⟩]⟩ ∧
      (TestUtils.validateStylusFiles (DirResult.ok [js "a.rs", js "b.rs"])
        (fun file =>
          if file = js "b.rs" then ReadResult.error (js "EACCES")
          else ReadResult.ok (js "use stylus_sdk; pub struct S; impl S"))).completion =
        Completion.returned results := by
  obtain ⟨results, hres, _, _, _, hsame⟩ :=
    root_valid_means_readable [js "a.rs", js "b.rs"]
      (fun file =>
        if file = js "b.rs" then ReadResult.error (js "EACCES")
        else ReadResult.ok (js "nothing"))
  refine ⟨results, hres, ?_, hsame _ ?_⟩
  · exact Completion.returned.inj (hres.symm.trans (by decide))
  · intro file hmem
    by_cases hb : file = js "b.rs"
    · simp [hb]
    · simp [hb]

/-! ## The loops of the directory-scan scripts -/

theorem patternLoop_passed (content : JSString) (checks : List PatternCheck)
    (st : PatternState) :
    (checks.foldl (patternStep content) st).passed =
      (st.passed && checks.all (fun check => includes content check.pattern)) := by
  induction checks generalizing st with
  | nil => simp
  | cons check rest ih =>
      rw [List.foldl_cons, ih, List.all_cons]
      unfold patternStep
      cases includes content check.pattern <;> cases st.passed <;> simp

theorem patternLoop_log (content : JSString) (checks : List PatternCheck)
    (st : PatternState) :
    (checks.foldl (patternStep content) st).log =
      st.log ++ checks.map (fun check =>
        js "[" ++ (if includes content check.pattern then js "PASS" else js "FAIL") ++ js "] " ++
          check.name) := by
  induction checks generalizing st with
  | nil => simp
  | cons check rest ih =>
      rw [List.foldl_cons, ih]
      simp [patternStep]

theorem getLast_append_pair (l : List JSString) (a b : JSString) :
    (l ++ [a, b]).getLast? = some b := by
  rw [show l ++ [a, b] = (l ++ [a]) ++ [b] by simp, List.getLast?_concat]

namespace StylusCheck

theorem stylus_contractPassed_eq (content : JSString) :
    contractPassed content = checks.all (fun check => includes content check.pattern) := by
  unfold contractPassed checkLoop
  rw [patternLoop_passed, Bool.true_and]

theorem stylus_contractPassed_iff (content : JSString) :
    contractPassed content = true ↔
      ∀ check ∈ checks, includes content check.pattern = true := by
  rw [stylus_contractPassed_eq, List.all_eq_true]

theorem stylus_stdout_mono (readFileSync : JSString → ReadResult) (files : List JSString)
    (st : ScriptState) (line : JSString) (h : line ∈ st.stdout) :
    line ∈ (files.foldl (fileStep readFileSync) st).stdout := by
  induction files generalizing st with
  | nil => exact h
  | cons f rest ih =>
      rw [List.foldl_cons]
      apply ih
      unfold fileStep
      cases readFileSync f <;> simp [h]

theorem stylus_stderr_mono (readFileSync : JSString → ReadResult) (files : List JSString)
    (st : ScriptState) (line : JSString) (h : line ∈ st.stderr) :
    line ∈ (files.foldl (fileStep readFileSync) st).stderr := by
  induction files generalizing st with
  | nil => exact h
  | cons f rest ih =>
      rw [List.foldl_cons]
      apply ih
      unfold fileStep
      cases readFileSync f <;> simp [h]

theorem stylus_file_reported (readFileSync : JSString → ReadResult) (files : List JSString)
    (st : ScriptState) (file : JSString) (hmem : file ∈ files) :
    (js "\n==== Checking " ++ file ++ js " ====") ∈
        (files.foldl (fileStep readFileSync) st).stdout ∧
      (∀ content, readFileSync file = ReadResult.ok content →
        statusLine content ∈ (files.foldl (fileStep readFileSync) st).stdout) ∧
      ∀ message, readFileSync file = ReadResult.error message →
        (js "Error reading contract: " ++ message) ∈
          (files.foldl (fileStep readFileSync) st).stderr := by
  induction files generalizing st with
  | nil => simp at hmem
  | cons f rest ih =>
      rw [List.foldl_cons]
      by_cases hf : file = f
      · subst hf
        refine ⟨?_, ?_, ?_⟩
        · apply stylus_stdout_mono
          unfold fileStep
          cases readFileSync file <;> simp
        · intro content hread
          apply stylus_stdout_mono
          simp [fileStep, hread]
        · intro message hread
          apply stylus_stderr_mono
          simp [fileStep, hread]
      · have hrest : file ∈ rest := by
          rcases List.mem_cons.1 hmem with h | h
          · exact absurd h hf
          · exact h
        exact ih _ hrest

theorem stylus_allPassed_iff (readFileSync : JSString → ReadResult) (files : List JSString)
    (st : ScriptState) :
    (files.foldl (fileStep readFileSync) st).allPassed = true ↔
      st.allPassed = true ∧
        ∀ file ∈ files, ∃ content,
          readFileSync file = ReadResult.ok content ∧ contractPassed content = true := by
  induction files generalizing st with
  | nil => simp
  | cons f rest ih =>
      rw [List.foldl_cons, ih]
      simp only [List.mem_cons, forall_eq_or_imp]
      unfold fileStep
      cases hread : readFileSync f with
      | ok content =>
          cases hp : contractPassed content <;> simp [hp]
      | error message => simp

end StylusCheck

namespace OrbitCheck

theorem orbit_scriptPassed_eq (content : JSString) :
    scriptPassed content = checks.all (fun check => includes content check.pattern) := by
  unfold scriptPassed checkLoop
  rw [patternLoop_passed, Bool.true_and]

theorem orbit_scriptPassed_iff (content : JSString) :
    scriptPassed content = true ↔
      ∀ check ∈ checks, includes content check.pattern = true := by
  rw [orbit_scriptPassed_eq, List.all_eq_true]

theorem orbit_stdout_mono (readFileSync : JSString → ReadResult) (files : List JSString)
    (st : ScriptState) (line : JSString) (h : line ∈ st.stdout) :
    line ∈ (files.foldl (fileStep readFileSync) st).stdout := by
  induction files generalizing st with
  | nil => exact h
  | cons f rest ih =>
      rw [List.foldl_cons]
      apply ih
      unfold fileStep
      cases readFileSync f <;> simp [h]

theorem orbit_stderr_mono (readFileSync : JSString → ReadResult) (files : List JSString)
    (st : ScriptState) (line : JSString) (h : line ∈ st.stderr) :
    line ∈ (files.foldl (fileStep readFileSync) st).stderr := by
  induction files generalizing st with
  | nil => exact h
  | cons f rest ih =>
      rw [List.foldl_cons]
      apply ih
      unfold fileStep
      cases readFileSync f <;> simp [h]

theorem orbit_file_reported (readFileSync : JSString → ReadResult) (files : List JSString)
    (st : ScriptState) (file : JSString) (hmem : file ∈ files) :
    (js "\n==== Checking " ++ file ++ js " ====") ∈
        (files.foldl (fileStep readFileSync) st).stdout ∧
      (∀ content, readFileSync file = ReadResult.ok content →
        statusLine content ∈ (files.foldl (fileStep readFileSync) st).stdout) ∧
      ∀ message, readFileSync file = ReadResult.error message →
        (js "Error reading script: " ++ message) ∈
          (files.foldl (fileStep readFileSync) st).stderr := by
  induction files generalizing st with
  | nil => simp at hmem
  | cons f rest ih =>
      rw [List.foldl_cons]
      by_cases hf : file = f
      · subst hf
        refine ⟨?_, ?_, ?_⟩
        · apply orbit_stdout_mono
          unfold fileStep
          cases readFileSync file <;> simp
        · intro content hread
          apply orbit_stdout_mono
          simp [fileStep, hread]
        · intro message hread
          apply orbit_stderr_mono
          simp [fileStep, hread]
      · have hrest : file ∈ rest := by
          rcases List.mem_cons.1 hmem with h | h
          · exact absurd h hf
          · exact h
        exact ih _ hrest

theorem orbit_allPassed_iff (readFileSync : JSString → ReadResult) (files : List JSString)
    (st : ScriptState) :
    (files.foldl (fileStep readFileSync) st).allPassed = true ↔
      st.allPassed = true ∧
        ∀ file ∈ files, ∃ content,
          readFileSync file = ReadResult.ok content ∧ scriptPassed content = true := by
  induction files generalizing st with
  | nil => simp
  | cons f rest ih =>
      rw [List.foldl_cons, ih]
      simp only [List.mem_cons, forall_eq_or_imp]
      unfold fileStep
      cases hread : readFileSync f with
      | ok content =>
          cases hp : scriptPassed content <;> simp [hp]
      | error message => simp

end OrbitCheck

/-- C13: in `stylus/check.js` and in `orbit/check.js` the last line printed is
the line "All ... passed validation checks" if and only if every selected file
is read and its content contains the pattern of every check of the script, and
otherwise it is the line "Some ... have issues to address".  Every selected
file gets its heading line, its status line when it is read and its error line
when it is not, whichever other files cannot be read; and with no selected file
the last line is the "all passed" line. -/
theorem overall_summary_iff_all_files_pass (listing : List JSString)
    (readFileSync : JSString → ReadResult) :
    ((StylusCheck.main (DirResult.ok listing) readFileSync).completion = Completion.returned () ∧
      ((StylusCheck.main (DirResult.ok listing) readFileSync).stdout.getLast? =
          some StylusCheck.allPassedLine ↔
        ∀ file ∈ StylusCheck.rustFiles listing, ∃ content,
          readFileSync file = ReadResult.ok content ∧
            ∀ check ∈ StylusCheck.checks, includes content check.pattern = true) ∧
      ((StylusCheck.main (DirResult.ok listing) readFileSync).stdout.getLast? =
          some StylusCheck.issuesLine ↔
        ¬ ∀ file ∈ StylusCheck.rustFiles listing, ∃ content,
          readFileSync file = ReadResult.ok content ∧
            ∀ check ∈ StylusCheck.checks, includes content check.pattern = true) ∧
      (∀ file ∈ StylusCheck.rustFiles listing,
        (js "\n==== Checking " ++ file ++ js " ====") ∈
            (StylusCheck.main (DirResult.ok listing) readFileSync).stdout ∧
          (∀ content, readFileSync file = ReadResult.ok content →
            StylusCheck.statusLine content ∈
              (StylusCheck.main (DirResult.ok listing) readFileSync).stdout) ∧
          ∀ message, readFileSync file = ReadResult.error message →
            (js "Error reading contract: " ++ message) ∈
                (StylusCheck.main (DirResult.ok listing) readFileSync).stderr ∧
              (StylusCheck.main (DirResult.ok listing) readFileSync).stdout.getLast? =
                some StylusCheck.issuesLine) ∧
      (StylusCheck.rustFiles listing = [] →
        (StylusCheck.main (DirResult.ok listing) readFileSync).stdout.getLast? =
          some StylusCheck.allPassedLine)) ∧
    ((OrbitCheck.main (DirResult.ok listing) readFileSync).completion = Completion.returned () ∧
      ((OrbitCheck.main (DirResult.ok listing) readFileSync).stdout.getLast? =
          some OrbitCheck.allPassedLine ↔
        ∀ file ∈ OrbitCheck.jsFiles listing, ∃ content,
          readFileSync file = ReadResult.ok content ∧
            ∀ check ∈ OrbitCheck.checks, includes content check.pattern = true) ∧
      ((OrbitCheck.main (DirResult.ok listing) readFileSync).stdout.getLast? =
          some OrbitCheck.issuesLine ↔
        ¬ ∀ file ∈ OrbitCheck.jsFiles listing, ∃ content,
          readFileSync file = ReadResult.ok content ∧
            ∀ check ∈ OrbitCheck.checks, includes content check.pattern = true) ∧
      (∀ file ∈ OrbitCheck.jsFiles listing,
        (js "\n==== Checking " ++ file ++ js " ====") ∈
            (OrbitCheck.main (DirResult.ok listing) readFileSync).stdout ∧
          (∀ content, readFileSync file = ReadResult.ok content →
            OrbitCheck.statusLine content ∈
              (OrbitCheck.main (DirResult.ok listing) readFileSync).stdout) ∧
          ∀ message, readFileSync file = ReadResult.error message →
            (js "Error reading script: " ++ message) ∈
                (OrbitCheck.main (DirResult.ok listing) readFileSync).stderr ∧
              (OrbitCheck.main (DirResult.ok listing) readFileSync).stdout.getLast? =
                some OrbitCheck.issuesLine) ∧
      (OrbitCheck.jsFiles listing = [] →
        (OrbitCheck.main (DirResult.ok listing) readFileSync).stdout.getLast? =
          some OrbitCheck.allPassedLine)) := by
  constructor
  · have hne : StylusCheck.allPassedLine ≠ StylusCheck.issuesLine := by decide
    have hlast : (StylusCheck.main (DirResult.ok listing) readFileSync).stdout.getLast? =
        some (if (StylusCheck.scan readFileSync (StylusCheck.rustFiles listing)).allPassed
          then StylusCheck.allPassedLine else StylusCheck.issuesLine) := by
      simp only [StylusCheck.main]
      exact getLast_append_pair _ _ _
    have hall : (StylusCheck.scan readFileSync (StylusCheck.rustFiles listing)).allPassed = true ↔
        ∀ file ∈ StylusCheck.rustFiles listing, ∃ content,
          readFileSync file = ReadResult.ok content ∧
            ∀ check ∈ StylusCheck.checks, includes content check.pattern = true := by
      unfold StylusCheck.scan
      rw [StylusCheck.stylus_allPassed_iff]
      simp only [true_and, StylusCheck.stylus_contractPassed_iff]
    have hpass : (StylusCheck.main (DirResult.ok listing) readFileSync).stdout.getLast? =
          some StylusCheck.allPassedLine ↔
        ∀ file ∈ StylusCheck.rustFiles listing, ∃ content,
          readFileSync file = ReadResult.ok content ∧
            ∀ check ∈ StylusCheck.checks, includes content check.pattern = true := by
      rw [hlast, ← hall]
      cases (StylusCheck.scan readFileSync (StylusCheck.rustFiles listing)).allPassed <;>
        simp [hne, Ne.symm hne]
    have hfail : (StylusCheck.main (DirResult.ok listing) readFileSync).stdout.getLast? =
          some StylusCheck.issuesLine ↔
        ¬ ∀ file ∈ StylusCheck.rustFiles listing, ∃ content,
          readFileSync file = ReadResult.ok content ∧
            ∀ check ∈ StylusCheck.checks, includes content check.pattern = true := by
      rw [hlast, ← hall]
      cases (StylusCheck.scan readFileSync (StylusCheck.rustFiles listing)).allPassed <;>
        simp [hne, Ne.symm hne]
    refine ⟨rfl, hpass, hfail, ?_, ?_⟩
    · intro file hmem
      obtain ⟨h1, h2, h3⟩ := StylusCheck.stylus_file_reported readFileSync
        (StylusCheck.rustFiles listing)
        ⟨true, [js "Found " ++ natToString (StylusCheck.rustFiles listing).length ++
          js " Rust contracts to check"], []⟩ file hmem
      refine ⟨?_, ?_, ?_⟩
      · simp only [StylusCheck.main, List.mem_append]
        exact Or.inl h1
      · intro content hread
        simp only [StylusCheck.main, List.mem_append]
        exact Or.inl (h2 content hread)
      · intro message hread
        refine ⟨h3 message hread, hfail.2 ?_⟩
        intro hallok
        obtain ⟨content, hok, _⟩ := hallok file hmem
        rw [hread] at hok
        cases hok
    · intro hnil
      apply hpass.2
      rw [hnil]
      intro file hmem
      simp at hmem
  · have hne : OrbitCheck.allPassedLine ≠ OrbitCheck.issuesLine := by decide
    have hlast : (OrbitCheck.main (DirResult.ok listing) readFileSync).stdout.getLast? =
        some (if (OrbitCheck.scan readFileSync (OrbitCheck.jsFiles listing)).allPassed
          then OrbitCheck.allPassedLine else OrbitCheck.issuesLine) := by
      simp only [OrbitCheck.main]
      exact getLast_append_pair _ _ _
    have hall : (OrbitCheck.scan readFileSync (OrbitCheck.jsFiles listing)).allPassed = true ↔
        ∀ file ∈ OrbitCheck.jsFiles listing, ∃ content,
          readFileSync file = ReadResult.ok content ∧
            ∀ check ∈ OrbitCheck.checks, includes content check.pattern = true := by
      unfold OrbitCheck.scan
      rw [OrbitCheck.orbit_allPassed_iff]
      simp only [true_and, OrbitCheck.orbit_scriptPassed_iff]
    have hpass : (OrbitCheck.main (DirResult.ok listing) readFileSync).stdout.getLast? =
          some OrbitCheck.allPassedLine ↔
        ∀ file ∈ OrbitCheck.jsFiles listing, ∃ content,
          readFileSync file = ReadResult.ok content ∧
            ∀ check ∈ OrbitCheck.checks, includes content check.pattern = true := by
      rw [hlast, ← hall]
      cases (OrbitCheck.scan readFileSync (OrbitCheck.jsFiles listing)).allPassed <;>
        simp [hne, Ne.symm hne]
    have hfail : (OrbitCheck.main (DirResult.ok listing) readFileSync).stdout.getLast? =
          some OrbitCheck.issuesLine ↔
        ¬ ∀ file ∈ OrbitCheck.jsFiles listing, ∃ content,
          readFileSync file = ReadResult.ok content ∧
            ∀ check ∈ OrbitCheck.checks, includes content check.pattern = true := by
      rw [hlast, ← hall]
      cases (OrbitCheck.scan readFileSync (OrbitCheck.jsFiles listing)).allPassed <;>
        simp [hne, Ne.symm hne]
    refine ⟨rfl, hpass, hfail, ?_, ?_⟩
    · intro file hmem
      obtain ⟨h1, h2, h3⟩ := OrbitCheck.orbit_file_reported readFileSync
        (OrbitCheck.jsFiles listing)
        ⟨true, [js "Found " ++ natToString (OrbitCheck.jsFiles listing).length ++
          js " Orbit chain scripts to check"], []⟩ file hmem
      refine ⟨?_, ?_, ?_⟩
      · simp only [OrbitCheck.main, List.mem_append]
        exact Or.inl h1
      · intro content hread
        simp only [OrbitCheck.main, List.mem_append]
        exact Or.inl (h2 content hread)
      · intro message hread
        refine ⟨h3 message hread, hfail.2 ?_⟩
        intro hallok
        obtain ⟨content, hok, _⟩ := hallok file hmem
        rw [hread] at hok
        cases hok
    · intro hnil
      apply hpass.2
      rw [hnil]
      intro file hmem
      simp at hmem

/-- Witness of C13: the first of two contracts cannot be read; the overall
result is the issues line and the second contract still gets its status line. -/
theorem overall_summary_iff_all_files_pass_witness :
    js "a.rs" ∈ StylusCheck.rustFiles [js "a.rs", js "b.rs"] ∧
      (StylusCheck.main (DirResult.ok [js "a.rs", js "b.rs"])
          (fun file =>
            if file = js "a.rs" then ReadResult.error (js "EACCES")
            else ReadResult.ok
              (js "use stylus_sdk; pub fn f struct S #[external] impl S "))).stdout.getLast? =
        some StylusCheck.issuesLine ∧
      StylusCheck.statusLine (js "use stylus_sdk; pub fn f struct S #[external] impl S ") ∈
        (StylusCheck.main (DirResult.ok [js "a.rs", js "b.rs"])
          (fun file =>
            if file = js "a.rs" then ReadResult.error (js "EACCES")
            else ReadResult.ok
              (js "use stylus_sdk; pub fn f struct S #[external] impl S "))).stdout := by
  have h := (overall_summary_iff_all_files_pass [js "a.rs", js "b.rs"]
    (fun file =>
      if file = js "a.rs" then ReadResult.error (js "EACCES")
      else ReadResult.ok (js "use stylus_sdk; pub fn f struct S #[external] impl S "))).1.2.2.2.1
  exact ⟨by decide, ((h (js "a.rs") (by decide)).2.2 (js "EACCES") (by decide)).2,
    (h (js "b.rs") (by decide)).2.1 _ (by decide)⟩

/-- C17: in `stylus/check.js` every check is required.  For every content,
`contractPassed` holds, and the status line is the `PASSED` line, if and only
if the content contains `pub fn`, `struct `, `use stylus_sdk`, `#[external]` and
`impl `; otherwise the status line is the `ISSUES FOUND` line, as for a content
that lacks `#[external]` alone.  The status line of every selected file that is
read is printed. -/
theorem stylus_check_requires_all_five (content : JSString) :
    (StylusCheck.contractPassed content = true ↔
        (includes content (js "pub fn") = true ∧ includes content (js "struct ") = true ∧
          includes content (js "use stylus_sdk") = true ∧
          includes content (js "#[external]") = true ∧ includes content (js "impl ") = true)) ∧
      (StylusCheck.statusLine content = js "\nContract status: ✅ PASSED" ↔
        (includes content (js "pub fn") = true ∧ includes content (js "struct ") = true ∧
          includes content (js "use stylus_sdk") = true ∧
          includes content (js "#[external]") = true ∧ includes content (js "impl ") = true)) ∧
      (StylusCheck.statusLine content = js "\nContract status: ⚠️ ISSUES FOUND" ↔
        ¬ (includes content (js "pub fn") = true ∧ includes content (js "struct ") = true ∧
          includes content (js "use stylus_sdk") = true ∧
          includes content (js "#[external]") = true ∧ includes content (js "impl ") = true)) ∧
      StylusCheck.checks.map
          (fun check => includes (js "use stylus_sdk; pub fn f struct S impl S ") check.pattern) =
        [true, true, true, false, true] ∧
      StylusCheck.statusLine (js "use stylus_sdk; pub fn f struct S impl S ") =
        js "\nContract status: ⚠️ ISSUES FOUND" ∧
      ∀ (listing : List JSString) (readFileSync : JSString → ReadResult) (file : JSString),
        file ∈ StylusCheck.rustFiles listing → readFileSync file = ReadResult.ok content →
          StylusCheck.statusLine content ∈
            (StylusCheck.main (DirResult.ok listing) readFileSync).stdout := by
  have hfive : StylusCheck.contractPassed content = true ↔
      (includes content (js "pub fn") = true ∧ includes content (js "struct ") = true ∧
        includes content (js "use stylus_sdk") = true ∧
        includes content (js "#[external]") = true ∧ includes content (js "impl ") = true) := by
    rw [StylusCheck.stylus_contractPassed_iff]
    simp [StylusCheck.checks]
  have hne : js "\nContract status: ✅ PASSED" ≠ js "\nContract status: ⚠️ ISSUES FOUND" := by
    decide
  have h1 : js "\nContract status: " ++ js "✅ PASSED" = js "\nContract status: ✅ PASSED" := by
    decide
  have h2 : js "\nContract status: " ++ js "⚠️ ISSUES FOUND" =
      js "\nContract status: ⚠️ ISSUES FOUND" := by
    decide
  refine ⟨hfive, ?_, ?_, by decide, by decide, ?_⟩
  · rw [← hfive]
    unfold StylusCheck.statusLine
    cases StylusCheck.contractPassed content <;> simp [h1, h2, hne, Ne.symm hne]
  · rw [← hfive]
    unfold StylusCheck.statusLine
    cases StylusCheck.contractPassed content <;> simp [h1, h2, hne, Ne.symm hne]
  · intro listing readFileSync file hmem hread
    have h := (StylusCheck.stylus_file_reported readFileSync (StylusCheck.rustFiles listing)
      ⟨true, [js "Found " ++ natToString (StylusCheck.rustFiles listing).length ++
        js " Rust contracts to check"], []⟩ file hmem).2.1 content hread
    simp only [StylusCheck.main, List.mem_append]
    exact Or.inl h

/-- Witness of C17: a run over one contract that lacks `#[external]` alone. -/
theorem stylus_check_requires_all_five_witness :
    js "a.rs" ∈ StylusCheck.rustFiles [js "a.rs"] ∧
      js "\nContract status: ⚠️ ISSUES FOUND" ∈
        (StylusCheck.main (DirResult.ok [js "a.rs"])
          (fun _ => ReadResult.ok (js "use stylus_sdk; pub fn f struct S impl S "))).stdout := by
  have h := (stylus_check_requires_all_five
    (js "use stylus_sdk; pub fn f struct S impl S ")).2.2.2.2.2 [js "a.rs"]
    (fun _ => ReadResult.ok (js "use stylus_sdk; pub fn f struct S impl S ")) (js "a.rs")
    (by decide) rfl
  rw [(stylus_check_requires_all_five
    (js "use stylus_sdk; pub fn f struct S impl S ")).2.2.2.2.1] at h
  exact ⟨by decide, h⟩

namespace CheckContract

/-! ## Matchers that throw -/

theorem checkLoopWith_registry (content : JSString) (cs : List Check) (st : LoopState) :
    checkLoopWith content
        (cs.map (fun check =>
          (⟨check.name, fun content => Completion.returned (check.regex.test content),
            check.severity⟩ : ThrowingCheck))) st =
      (checkLoop content cs st, none) := by
  induction cs generalizing st with
  | nil => rfl
  | cons check rest ih =>
      simp only [List.map_cons, checkLoopWith]
      rw [ih]
      rfl

theorem mainWith_registry (argv2 : Option JSString) (readFileSync : JSString → ReadResult) :
    mainWith registry argv2 readFileSync = main argv2 readFileSync := by
  unfold mainWith main
  cases argv2 with
  | none => rfl
  | some contractName =>
      simp only
      split_ifs with hname
      · rfl
      · cases hread : readFileSync contractName with
        | error message => rfl
        | ok content =>
            simp only [registry, checkLoopWith_registry]
            rfl

theorem checkLoopWith_throws (content message : JSString) (pre post : List ThrowingCheck)
    (bad : ThrowingCheck) (founds : List Bool) (st : LoopState)
    (hpre : pre.map (fun check => check.test content) = founds.map Completion.returned)
    (hbad : bad.test content = Completion.thrown message) :
    (checkLoopWith content (pre ++ bad :: post) st).2 = some message ∧
      (checkLoopWith content (pre ++ bad :: post) st).1.log =
        st.log ++
          List.zipWith (fun check found => resultLine found check.name check.severity) pre
            founds := by
  induction pre generalizing st founds with
  | nil =>
      simp [checkLoopWith, hbad]
  | cons check rest ih =>
      cases founds with
      | nil => simp at hpre
      | cons found founds =>
          simp only [List.map_cons, List.cons.injEq] at hpre
          simp only [List.cons_append, checkLoopWith, hpre.1]
          obtain ⟨h1, h2⟩ := ih founds
            { log := st.log ++ [resultLine found check.name check.severity],
              passedCritical :=
                if !found && check.severity == js "Critical" then false
                else st.passedCritical } hpre.2
          refine ⟨h1, ?_⟩
          exact h2.trans (by simp)

/-- The script over a registry whose matchers may throw.  With its own registry
it is `main`, and no matcher of that registry throws.  The loop has no error
handling of its own: over a registry in which the matcher of a check throws,
after the checks before it have returned, the `catch` around the read and the
loop takes the error.  The result lines of the earlier checks stay printed, the
failing check gets no line, no later check is evaluated, no summary is printed,
the error stream gets `Error reading contract: ` and the message, and the exit
status is 1. -/
theorem matcher_error_ends_the_run :
    (∀ argv2 readFileSync, mainWith registry argv2 readFileSync = main argv2 readFileSync) ∧
      (∀ check ∈ registry, ∀ content, ∃ found, check.test content = Completion.returned found) ∧
      ∀ (pre post : List ThrowingCheck) (bad : ThrowingCheck) (founds : List Bool)
        (contractName content message : JSString) (readFileSync : JSString → ReadResult),
        contractName ≠ [] → readFileSync contractName = ReadResult.ok content →
        pre.map (fun check => check.test content) = founds.map Completion.returned →
        bad.test content = Completion.thrown message →
        mainWith (pre ++ bad :: post) (some contractName) readFileSync =
          ⟨[ js "Successfully read contract: " ++ contractName,
              js "File size: " ++ sizeInKB content.length ++ js " KB",
              js "\nBasic contract checks:" ] ++
            List.zipWith (fun check found => resultLine found check.name check.severity) pre
              founds,
            [js "Error reading contract: " ++ message], 1⟩ := by
  refine ⟨mainWith_registry, ?_, ?_⟩
  · intro check hmem content
    simp only [registry, List.mem_map] at hmem
    obtain ⟨c, _, rfl⟩ := hmem
    exact ⟨c.regex.test content, rfl⟩
  · intro pre post bad founds contractName content message readFileSync hname hread hpre hbad
    obtain ⟨h1, h2⟩ := checkLoopWith_throws content message pre post bad founds ⟨true, []⟩
      hpre hbad
    unfold mainWith
    simp only [hname, if_false, hread]
    cases hloop : checkLoopWith content (pre ++ bad :: post) ⟨true, []⟩ with
    | mk st thrown =>
        rw [hloop] at h1 h2
        simp only at h1 h2
        subst h1
        simp only [h2, List.nil_append]

end CheckContract

/-! ## The backtracking matcher finds a match when there is one -/

namespace Re

theorem matches_star_split (a : Re) (x : List Nat) (h : Matches (Re.star a) x) :
    x = [] ∨ ∃ first more, x = first ++ more ∧ first ≠ [] ∧ Matches a first ∧
      Matches (Re.star a) more := by
  cases x with
  | nil => exact Or.inl rfl
  | cons c s =>
      obtain ⟨y, more, hs, ha, hmore⟩ := matches_star_cons a c s h
      exact Or.inr ⟨c :: y, more, by simp [hs], by simp, ha, hmore⟩

theorem backtrackStar_isSome_iff (a : Re)
    (iha : ∀ s k, (backtrack a s k).isSome = true ↔
      ∃ x rest, s = x ++ rest ∧ Matches a x ∧ (k rest).isSome = true)
    (fuel : Nat) (s : List Nat) (k : List Nat → Option (List Nat)) (hfuel : s.length ≤ fuel) :
    (backtrackStar (backtrack a) fuel s k).isSome = true ↔
      ∃ x rest, s = x ++ rest ∧ Matches (Re.star a) x ∧ (k rest).isSome = true := by
  induction fuel generalizing s k with
  | zero =>
      have hs : s = [] := List.length_eq_zero.1 (Nat.le_zero.1 hfuel)
      subst hs
      simp only [backtrackStar]
      constructor
      · intro h
        exact ⟨[], [], rfl, Matches.starNil a, h⟩
      · rintro ⟨x, rest, hx, _, hk⟩
        have hxr : x ++ rest = [] := hx.symm
        rw [List.append_eq_nil] at hxr
        rw [← hxr.2]
        exact hk
  | succ fuel ih =>
      have hiter : ∀ rest1,
          (if rest1.length < s.length then backtrackStar (backtrack a) fuel rest1 k
            else none).isSome = true ↔
          rest1.length < s.length ∧
            ∃ more rest, rest1 = more ++ rest ∧ Matches (Re.star a) more ∧
              (k rest).isSome = true := by
        intro rest1
        by_cases hlen : rest1.length < s.length
        · rw [if_pos hlen, ih rest1 k (by omega)]
          simp [hlen]
        · rw [if_neg hlen]
          simp [hlen]
      simp only [backtrackStar]
      constructor
      · intro h
        split at h
        · next out hX =>
            obtain ⟨first, rest1, hs, ha, hk⟩ := (iha s _).1 (by rw [hX]; rfl)
            obtain ⟨_, more, rest, hr, hmore, hk'⟩ := (hiter rest1).1 hk
            exact ⟨first ++ more, rest, by rw [hs, hr, List.append_assoc],
              Matches.starCons a first more ha hmore, hk'⟩
        · exact ⟨[], s, rfl, Matches.starNil a, h⟩
      · rintro ⟨x, rest, hs, hx, hk⟩
        split
        · rfl
        · next hX =>
            rcases matches_star_split a x hx with hnil | ⟨first, more, hxe, hne, ha, hmore⟩
            · subst hnil
              simp only [List.nil_append] at hs
              subst hs
              exact hk
            · have hpos : 0 < first.length := List.length_pos.2 hne
              have hlen : (more ++ rest).length < s.length := by
                rw [hs, hxe]
                simp only [List.length_append]
                omega
              have hsome := (iha s (fun rest1 =>
                  if rest1.length < s.length then backtrackStar (backtrack a) fuel rest1 k
                  else none)).2
                ⟨first, more ++ rest, by rw [hs, hxe, List.append_assoc], ha,
                  (hiter (more ++ rest)).2 ⟨hlen, more, rest, rfl, hmore, hk⟩⟩
              rw [hX] at hsome
              simp at hsome

theorem backtrack_isSome_iff (r : Re) (s : List Nat) (k : List Nat → Option (List Nat)) :
    (backtrack r s k).isSome = true ↔
      ∃ x rest, s = x ++ rest ∧ Matches r x ∧ (k rest).isSome = true := by
  induction r generalizing s k with
  | never => simp [backtrack, matches_never]
  | empty =>
      simp only [backtrack, matches_empty_iff]
      constructor
      · intro h
        exact ⟨[], s, rfl, rfl, h⟩
      · rintro ⟨x, rest, hs, rfl, hk⟩
        simp only [List.nil_append] at hs
        rw [hs]
        exact hk
  | cls p =>
      cases s with
      | nil =>
          simp only [backtrack, matches_cls_iff]
          constructor
          · intro h
            simp at h
          · rintro ⟨x, rest, hs, ⟨c, rfl, _⟩, _⟩
            simp at hs
      | cons c cs =>
          simp only [backtrack, matches_cls_iff]
          constructor
          · intro h
            by_cases hp : p c = true
            · rw [if_pos hp] at h
              exact ⟨[c], cs, rfl, ⟨c, rfl, hp⟩, h⟩
            · rw [if_neg hp] at h
              simp at h
          · rintro ⟨x, rest, hs, ⟨d, rfl, hd⟩, hk⟩
            simp only [List.singleton_append, List.cons.injEq] at hs
            obtain ⟨rfl, rfl⟩ := hs
            rw [if_pos hd]
            exact hk
  | seq a b iha ihb =>
      simp only [backtrack]
      rw [iha]
      constructor
      · rintro ⟨x, rest, hs, ha, hk⟩
        obtain ⟨y, rest', hr, hb, hk'⟩ := (ihb rest k).1 hk
        exact ⟨x ++ y, rest', by rw [hs, hr, List.append_assoc],
          Matches.seq a b x y ha hb, hk'⟩
      · rintro ⟨z, rest, hs, hz, hk⟩
        obtain ⟨x, y, rfl, ha, hb⟩ := (matches_seq_iff a b z).1 hz
        exact ⟨x, y ++ rest, by rw [hs, List.append_assoc], ha,
          (ihb (y ++ rest) k).2 ⟨y, rest, rfl, hb, hk⟩⟩
  | alt a b iha ihb =>
      simp only [backtrack]
      constructor
      · intro h
        split at h
        · next out hX =>
            obtain ⟨x, rest, hs, ha, hk⟩ := (iha s k).1 (by rw [hX]; rfl)
            exact ⟨x, rest, hs, Matches.altLeft a b x ha, hk⟩
        · obtain ⟨x, rest, hs, hb, hk⟩ := (ihb s k).1 h
          exact ⟨x, rest, hs, Matches.altRight a b x hb, hk⟩
      · rintro ⟨x, rest, hs, hx, hk⟩
        split
        · rfl
        · next hX =>
            rcases (matches_alt_iff a b x).1 hx with ha | hb
            · have hsome := (iha s k).2 ⟨x, rest, hs, ha, hk⟩
              rw [hX] at hsome
              simp at hsome
            · exact (ihb s k).2 ⟨x, rest, hs, hb, hk⟩
  | star a iha =>
      simp only [backtrack]
      exact backtrackStar_isSome_iff a iha s.length s k (Nat.le_refl _)

theorem matchAt_isSome (r : Re) (s : List Nat) :
    (matchAt r s).isSome = matchPrefix r s := by
  rw [Bool.eq_iff_iff, matchPrefix_iff]
  unfold matchAt
  rw [backtrack_isSome_iff]
  simp

end Re

namespace RegExp

theorem search_isSome (r : Re) (s : List Nat) (index : Nat) :
    (search r false s index).isSome = Re.test r s := by
  induction s generalizing index with
  | nil =>
      simp only [search, Re.test]
      rw [← Re.matchAt_isSome]
      cases Re.matchAt r [] <;> rfl
  | cons c cs ih =>
      simp only [search, Re.test]
      rw [← Re.matchAt_isSome, ← ih (index + 1)]
      cases Re.matchAt r (c :: cs) <;> simp

theorem test_of_no_flag (R : RegExp) (S : JSString) (hg : R.global = false)
    (hy : R.sticky = false) : test R S = (Re.test R.source S, R) := by
  have h := search_isSome R.source S 0
  unfold test exec
  simp only [hg, hy, Bool.or_self, Bool.false_eq_true, if_false]
  cases hs : search R.source false S 0 with
  | none =>
      rw [hs] at h
      simp [← h]
  | some e =>
      rw [hs] at h
      simp [← h]

end RegExp

namespace CheckContract

/-! ## The loop over the RegExp objects -/

theorem runnerStep_of_no_flag (content : JSString) (st : RunnerState) (check : CheckObject)
    (hg : check.regex.global = false) (hy : check.regex.sticky = false) :
    runnerStep content st check =
      ⟨st.registry ++ [check], st.found ++ [check.regex.source.test content],
        st.passedCritical &&
          (check.regex.source.test content || !(check.severity == js "Critical")),
        st.log ++ [resultLine (check.regex.source.test content) check.name check.severity]⟩ := by
  unfold runnerStep
  rw [RegExp.test_of_no_flag check.regex content hg hy]
  cases check.regex.source.test content <;> cases (check.severity == js "Critical") <;>
    cases st.passedCritical <;> rfl

theorem runner_foldl (content : JSString) (objects : List CheckObject) (st : RunnerState)
    (hflags : ∀ check ∈ objects, check.regex.global = false ∧ check.regex.sticky = false) :
    objects.foldl (runnerStep content) st =
      ⟨st.registry ++ objects,
        st.found ++ objects.map (fun check => check.regex.source.test content),
        st.passedCritical &&
          objects.all (fun check =>
            check.regex.source.test content || !(check.severity == js "Critical")),
        st.log ++ objects.map (fun check =>
          resultLine (check.regex.source.test content) check.name check.severity)⟩ := by
  induction objects generalizing st with
  | nil => simp
  | cons check rest ih =>
      have hc := hflags check (List.mem_cons_self _ _)
      rw [List.foldl_cons, runnerStep_of_no_flag content st check hc.1 hc.2,
        ih _ (fun c hmem => hflags c (List.mem_cons_of_mem _ hmem))]
      simp [Bool.and_assoc]

theorem runChecks_of_no_flag (content : JSString) (objects : List CheckObject)
    (hflags : ∀ check ∈ objects, check.regex.global = false ∧ check.regex.sticky = false) :
    runChecks content objects =
      ⟨objects, objects.map (fun check => check.regex.source.test content),
        objects.all (fun check =>
          check.regex.source.test content || !(check.severity == js "Critical")),
        objects.map (fun check =>
          resultLine (check.regex.source.test content) check.name check.severity)⟩ := by
  unfold runChecks
  rw [runner_foldl content objects _ hflags]
  simp

theorem checkObjects_no_flag :
    ∀ check ∈ checkObjects, check.regex.global = false ∧ check.regex.sticky = false := by
  intro check hmem
  simp only [checkObjects, List.mem_map] at hmem
  obtain ⟨c, _, rfl⟩ := hmem
  exact ⟨rfl, rfl⟩

/-- A regular expression with the flag `g` keeps state: on the same input the
first `test` answers `true` and the second one `false`. -/
theorem global_regexp_keeps_state :
    (RegExp.test ⟨rePubFn, true, false, 0⟩ (js "pub fn")).1 = true ∧
      (RegExp.test (RegExp.test ⟨rePubFn, true, false, 0⟩ (js "pub fn")).2 (js "pub fn")).1 =
        false := by
  decide

/-- C16: the check runner is deterministic.  For every registry of `RegExp`
objects without the flags `g` and `y`, whatever their `lastIndex`, and every
content, a run of the loop leaves the objects as they were, and a second run on
the same content gives the same sequence of found and not found, the same
verdict and the same lines.  The objects of `check_contract.js` have no flags,
and the results and the verdict of a run over them are those of the script. -/
theorem check_runner_is_deterministic (content : JSString) :
    (∀ objects : List CheckObject,
      (∀ check ∈ objects, check.regex.global = false ∧ check.regex.sticky = false) →
        (runChecks content objects).registry = objects ∧
        (runChecks content (runChecks content objects).registry).found =
          (runChecks content objects).found ∧
        (runChecks content (runChecks content objects).registry).passedCritical =
          (runChecks content objects).passedCritical ∧
        (runChecks content (runChecks content objects).registry).log =
          (runChecks content objects).log) ∧
      (∀ check ∈ checkObjects, check.regex.global = false ∧ check.regex.sticky = false) ∧
      (runChecks content checkObjects).found =
        checks.map (fun check => check.regex.test content) ∧
      (runChecks content checkObjects).passedCritical = passedCritical content ∧
      (runChecks content checkObjects).log = (checkLoop content checks ⟨true, []⟩).log := by
  refine ⟨?_, checkObjects_no_flag, ?_, ?_, ?_⟩
  · intro objects hflags
    have h := runChecks_of_no_flag content objects hflags
    have hreg : (runChecks content objects).registry = objects := by rw [h]
    rw [hreg]
    exact ⟨rfl, rfl, rfl, rfl⟩
  · rw [runChecks_of_no_flag content checkObjects checkObjects_no_flag]
    simp [checkObjects]
  · rw [runChecks_of_no_flag content checkObjects checkObjects_no_flag, passedCritical_eq_all]
    simp [checkObjects, List.all_map]
    rfl
  · rw [runChecks_of_no_flag content checkObjects checkObjects_no_flag, checkLoop_log]
    simp [checkObjects, resultLine]

/-- Witness of C16: the objects of the script with `lastIndex` set to 5. -/
theorem check_runner_is_deterministic_witness :
    (∀ check ∈ checks.map (fun check =>
        (⟨check.name, ⟨check.regex, false, false, 5⟩, check.severity⟩ : CheckObject)),
      check.regex.global = false ∧ check.regex.sticky = false) ∧
      (runChecks (js "pub fn f struct S")
        (runChecks (js "pub fn f struct S")
          (checks.map (fun check =>
            (⟨check.name, ⟨check.regex, false, false, 5⟩, check.severity⟩ :
              CheckObject)))).registry).found =
        [true, true, false, false, false, false, false] := by
  have hflags : ∀ check ∈ checks.map (fun check =>
        (⟨check.name, ⟨check.regex, false, false, 5⟩, check.severity⟩ : CheckObject)),
      check.regex.global = false ∧ check.regex.sticky = false := by
    intro check hmem
    simp only [List.mem_map] at hmem
    obtain ⟨c, _, rfl⟩ := hmem
    exact ⟨rfl, rfl⟩
  refine ⟨hflags, ?_⟩
  rw [((check_runner_is_deterministic (js "pub fn f struct S")).1 _ hflags).2.1]
  decide

end CheckContract

/-! ## The group of `/chainId:\s*(\d+)/` -/

theorem not_digit_of_whiteSpace (u : Nat) (h : isWhiteSpace u = true) : isDigit u = false := by
  simp only [isWhiteSpace, Bool.or_eq_true, beq_iff_eq, Bool.and_eq_true, decide_eq_true_eq] at h
  simp only [isDigit, Bool.and_eq_false_iff, decide_eq_false_iff_not]
  omega

namespace Re

theorem backtrack_seq (a b : Re) (s : List Nat) (k : List Nat → Option (List Nat)) :
    backtrack (Re.seq a b) s k = backtrack a s (fun rest => backtrack b rest k) := rfl

theorem backtrack_star (a : Re) (s : List Nat) (k : List Nat → Option (List Nat)) :
    backtrack (Re.star a) s k = backtrackStar (backtrack a) s.length s k := rfl

theorem backtrack_chr_nil (c : Char) (k : List Nat → Option (List Nat)) :
    backtrack (Re.chr c) [] k = none := rfl

theorem backtrack_chr_cons (c : Char) (d : Nat) (ds : List Nat)
    (k : List Nat → Option (List Nat)) :
    backtrack (Re.chr c) (d :: ds) k = if d = c.toNat then k ds else none := by
  simp [chr, backtrack]

theorem lit_eq_foldr (str : String) :
    Re.lit str = str.toList.foldr (fun c r => Re.seq (Re.chr c) r) Re.empty := rfl

theorem backtrack_lit (cs : List Char) (s : List Nat) (k : List Nat → Option (List Nat)) :
    backtrack (cs.foldr (fun c r => Re.seq (Re.chr c) r) Re.empty) s k =
      if startsWith s (cs.map Char.toNat) = true then k (s.drop cs.length) else none := by
  induction cs generalizing s with
  | nil => simp [backtrack, startsWith]
  | cons c cs ih =>
      cases s with
      | nil => simp [backtrack_seq, backtrack_chr_nil, startsWith]
      | cons d ds =>
          simp only [List.foldr_cons, backtrack_seq, backtrack_chr_cons, List.map_cons,
            startsWith, List.length_cons, List.drop_succ_cons, Bool.and_eq_true, beq_iff_eq]
          by_cases hd : d = c.toNat
          · simp [hd, ih]
          · simp [hd]

theorem backtrackStar_cls_some (p : Nat → Bool) (fuel : Nat) (s : List Nat)
    (hfuel : s.length ≤ fuel) :
    backtrackStar (backtrack (Re.cls p)) fuel s some = some (s.dropWhile p) := by
  induction s generalizing fuel with
  | nil =>
      cases fuel with
      | zero => rfl
      | succ fuel => simp [backtrackStar, backtrack]
  | cons c cs ih =>
      cases fuel with
      | zero => simp at hfuel
      | succ fuel =>
          have hlen : cs.length ≤ fuel := by simpa using hfuel
          by_cases hp : p c = true
          · simp [backtrackStar, backtrack, hp, ih fuel hlen, List.dropWhile_cons]
          · simp [backtrackStar, backtrack, hp, List.dropWhile_cons]

theorem backtrackStar_cls_skip (p : Nat → Bool) (k : List Nat → Option (List Nat))
    (hk : ∀ c t, p c = true → k (c :: t) = none) (fuel : Nat) (s : List Nat)
    (hfuel : s.length ≤ fuel) :
    backtrackStar (backtrack (Re.cls p)) fuel s k = k (s.dropWhile p) := by
  induction s generalizing fuel with
  | nil =>
      cases fuel with
      | zero => rfl
      | succ fuel => simp [backtrackStar, backtrack]
  | cons c cs ih =>
      cases fuel with
      | zero => simp at hfuel
      | succ fuel =>
          have hlen : cs.length ≤ fuel := by simpa using hfuel
          by_cases hp : p c = true
          · simp only [backtrackStar, backtrack, hp, if_true, List.length_cons,
              Nat.lt_succ_self, ih fuel hlen, List.dropWhile_cons]
            cases hrest : k (cs.dropWhile p) with
            | some out => rfl
            | none => simp [hk c cs hp]
          · simp [backtrackStar, backtrack, hp, List.dropWhile_cons]

theorem take_length_sub_dropWhile (p : Nat → Bool) (s : List Nat) :
    s.take (s.length - (s.dropWhile p).length) = s.takeWhile p := by
  induction s with
  | nil => rfl
  | cons c cs ih =>
      by_cases hp : p c = true
      · have hle : (cs.dropWhile p).length ≤ cs.length :=
          (List.dropWhile_sublist p).length_le
        simp only [List.dropWhile_cons, hp, if_true, List.takeWhile_cons, List.length_cons]
        rw [show cs.length + 1 - (cs.dropWhile p).length =
          (cs.length - (cs.dropWhile p).length) + 1 by omega, List.take_succ_cons, ih]
      · simp [List.dropWhile_cons, List.takeWhile_cons, hp]

end Re

theorem chainIdAt_eq_captureAt (s : JSString) :
    chainIdAt s =
      Re.captureAt (Re.seq (Re.lit "chainId:") (Re.star (Re.cls isWhiteSpace)))
        (Re.plus (Re.cls isDigit)) s := by
  have hgroup : ∀ start : List Nat,
      (Re.backtrack (Re.plus (Re.cls isDigit)) start some).map
          (fun rest => start.take (start.length - rest.length)) =
        if start.takeWhile isDigit = [] then none else some (start.takeWhile isDigit) := by
    intro start
    cases start with
    | nil => simp [Re.plus, Re.backtrack]
    | cons c cs =>
        by_cases hp : isDigit c = true
        · have h := Re.take_length_sub_dropWhile isDigit (c :: cs)
          simp only [List.dropWhile_cons, hp, if_true] at h
          simp only [Re.plus, Re.backtrack, hp, if_true,
            Re.backtrackStar_cls_some isDigit cs.length cs (Nat.le_refl _), Option.map_some', h]
          simp [List.takeWhile_cons, hp]
        · simp [Re.plus, Re.backtrack, hp, List.takeWhile_cons]
  have hskip : ∀ c t, isWhiteSpace c = true →
      (Re.backtrack (Re.plus (Re.cls isDigit)) (c :: t) some).map
          (fun rest => (c :: t).take ((c :: t).length - rest.length)) = none := by
    intro c t hc
    rw [hgroup]
    simp [List.takeWhile_cons, not_digit_of_whiteSpace c hc]
  unfold Re.captureAt chainIdAt
  rw [Re.backtrack_seq, Re.lit_eq_foldr, Re.backtrack_lit]
  have hchars : ("chainId:".toList.map Char.toNat) = js "chainId:" := by decide
  have hlen : "chainId:".toList.length = (js "chainId:").length := by decide
  rw [hchars, hlen]
  by_cases hstart : startsWith s (js "chainId:") = true
  · simp only [hstart, if_true]
    rw [Re.backtrack_star, Re.backtrackStar_cls_skip isWhiteSpace _ hskip _ _ (Nat.le_refl _),
      hgroup]
  · simp only [hstart]
    rfl

/-! ## Where `/chainId:\s*(\d+)/` matches -/

theorem not_whiteSpace_of_digit (u : Nat) (h : isDigit u = true) : isWhiteSpace u = false := by
  cases hw : isWhiteSpace u with
  | false => rfl
  | true =>
      rw [not_digit_of_whiteSpace u hw] at h
      cases h

theorem dropWhile_append_stop (p : Nat → Bool) (ws : List Nat) (d : Nat) (rest : List Nat)
    (hws : ∀ u ∈ ws, p u = true) (hd : p d = false) :
    (ws ++ d :: rest).dropWhile p = d :: rest := by
  induction ws with
  | nil => simp [List.dropWhile_cons, hd]
  | cons w ws ih =>
      have hw : p w = true := hws w (List.mem_cons_self _ _)
      simp only [List.cons_append, List.dropWhile_cons, hw, if_true]
      exact ih (fun u hu => hws u (List.mem_cons_of_mem _ hu))

theorem takeWhile_append_stop (p : Nat → Bool) (ds rest : List Nat)
    (hds : ∀ u ∈ ds, p u = true) (hrest : ∀ u rest', rest = u :: rest' → p u = false) :
    (ds ++ rest).takeWhile p = ds := by
  induction ds with
  | nil =>
      cases rest with
      | nil => rfl
      | cons u rest' => simp [List.takeWhile_cons, hrest u rest' rfl]
  | cons d ds ih =>
      have hd : p d = true := hds d (List.mem_cons_self _ _)
      simp only [List.cons_append, List.takeWhile_cons, hd, if_true]
      rw [ih (fun u hu => hds u (List.mem_cons_of_mem _ hu))]

theorem dropWhile_head_stops (p : Nat → Bool) (s : List Nat) (u : Nat) (rest : List Nat)
    (h : s.dropWhile p = u :: rest) : p u = false := by
  induction s with
  | nil => simp at h
  | cons c cs ih =>
      by_cases hp : p c = true
      · simp only [List.dropWhile_cons, hp, if_true] at h
        exact ih h
      · simp only [List.dropWhile_cons, hp] at h
        simp only [Bool.false_eq_true, if_false, List.cons.injEq] at h
        rw [← h.1]
        simpa using hp

theorem chainIdAt_eq_some_iff (s digits : JSString) :
    chainIdAt s = some digits ↔
      ∃ ws rest, s = js "chainId:" ++ ws ++ digits ++ rest ∧
        (∀ u ∈ ws, isWhiteSpace u = true) ∧ digits ≠ [] ∧ (∀ u ∈ digits, isDigit u = true) ∧
        ∀ u rest', rest = u :: rest' → isDigit u = false := by
  constructor
  · intro h
    unfold chainIdAt at h
    by_cases hstart : startsWith s (js "chainId:") = true
    · obtain ⟨t, rfl⟩ := (startsWith_iff s (js "chainId:")).1 hstart
      simp only [hstart, if_true, List.drop_left'] at h
      by_cases hd : (t.dropWhile isWhiteSpace).takeWhile isDigit = []
      · simp [hd] at h
      · simp only [hd, if_false, Option.some.injEq] at h
        refine ⟨t.takeWhile isWhiteSpace, (t.dropWhile isWhiteSpace).dropWhile isDigit, ?_,
          ?_, ?_, ?_, ?_⟩
        · rw [← h, List.append_assoc, List.append_assoc, List.takeWhile_append_dropWhile,
            List.takeWhile_append_dropWhile]
        · intro u hu
          exact (List.mem_takeWhile_imp hu)
        · rw [← h]
          exact hd
        · intro u hu
          rw [← h] at hu
          exact (List.mem_takeWhile_imp hu)
        · intro u rest' hrest
          exact dropWhile_head_stops isDigit _ u rest' hrest
    · simp [hstart] at h
  · rintro ⟨ws, rest, rfl, hws, hne, hds, hrest⟩
    have hstart : startsWith (js "chainId:" ++ ws ++ digits ++ rest) (js "chainId:") = true :=
      (startsWith_iff _ _).2 ⟨ws ++ digits ++ rest, by simp [List.append_assoc]⟩
    obtain ⟨d, ds, rfl⟩ := List.exists_cons_of_ne_nil hne
    have hd : isDigit d = true := hds d (List.mem_cons_self _ _)
    unfold chainIdAt
    simp only [hstart, if_true]
    rw [show js "chainId:" ++ ws ++ (d :: ds) ++ rest =
      js "chainId:" ++ (ws ++ d :: (ds ++ rest)) by simp [List.append_assoc],
      List.drop_left' (rfl : (js "chainId:").length = (js "chainId:").length),
      dropWhile_append_stop isWhiteSpace ws d (ds ++ rest) hws (not_whiteSpace_of_digit d hd),
      show d :: (ds ++ rest) = (d :: ds) ++ rest by rfl,
      takeWhile_append_stop isDigit (d :: ds) rest hds hrest]
    simp

theorem chainIdAt_isSome_iff (s : JSString) :
    (chainIdAt s).isSome = true ↔
      ∃ ws d rest, s = js "chainId:" ++ ws ++ d :: rest ∧
        (∀ u ∈ ws, isWhiteSpace u = true) ∧ isDigit d = true := by
  constructor
  · intro h
    obtain ⟨digits, hdigits⟩ := Option.isSome_iff_exists.1 h
    obtain ⟨ws, rest, hs, hws, hne, hds, _⟩ := (chainIdAt_eq_some_iff s digits).1 hdigits
    obtain ⟨d, ds, rfl⟩ := List.exists_cons_of_ne_nil hne
    exact ⟨ws, d, ds ++ rest, by simp [hs, List.append_assoc], hws,
      hds d (List.mem_cons_self _ _)⟩
  · rintro ⟨ws, d, rest, rfl, hws, hd⟩
    have hstart : startsWith (js "chainId:" ++ ws ++ d :: rest) (js "chainId:") = true :=
      (startsWith_iff _ _).2 ⟨ws ++ d :: rest, by simp [List.append_assoc]⟩
    unfold chainIdAt
    simp only [hstart, if_true]
    rw [List.append_assoc,
      List.drop_left' (rfl : (js "chainId:").length = (js "chainId:").length),
      dropWhile_append_stop isWhiteSpace ws d rest hws (not_whiteSpace_of_digit d hd)]
    simp [List.takeWhile_cons, hd]

theorem chainIdMatch_eq_some_iff (content digits : JSString) :
    chainIdMatch content = some digits ↔
      ∃ front tail, content = front ++ tail ∧ chainIdAt tail = some digits ∧
        ∀ front' tail', content = front' ++ tail' → front'.length < front.length →
          chainIdAt tail' = none := by
  induction content with
  | nil =>
      simp only [chainIdMatch]
      constructor
      · intro h
        exact ⟨[], [], rfl, h, fun front' tail' _ hlt => by simp at hlt⟩
      · rintro ⟨front, tail, h, hat, _⟩
        have hft : front ++ tail = [] := h.symm
        rw [List.append_eq_nil] at hft
        rw [← hft.2]
        exact hat
  | cons c cs ih =>
      simp only [chainIdMatch]
      cases hat : chainIdAt (c :: cs) with
      | some d =>
          simp only
          constructor
          · intro h
            exact ⟨[], c :: cs, rfl, hat.trans h, fun front' tail' _ hlt => by simp at hlt⟩
          · rintro ⟨front, tail, h, hsome, hleft⟩
            cases front with
            | nil =>
                simp only [List.nil_append] at h
                rw [← h, hat] at hsome
                exact hsome
            | cons f fs =>
                have hnone := hleft [] (c :: cs) rfl (by simp)
                rw [hat] at hnone
                cases hnone
      | none =>
          simp only
          rw [ih]
          constructor
          · rintro ⟨front, tail, h, hsome, hleft⟩
            refine ⟨c :: front, tail, by simp [h], hsome, ?_⟩
            intro front' tail' h' hlt
            cases front' with
            | nil =>
                simp only [List.nil_append] at h'
                rw [← h']
                exact hat
            | cons f' fs' =>
                simp only [List.cons_append, List.cons.injEq] at h'
                exact hleft fs' tail' h'.2 (by simpa using hlt)
          · rintro ⟨front, tail, h, hsome, hleft⟩
            cases front with
            | nil =>
                simp only [List.nil_append] at h
                rw [← h, hat] at hsome
                cases hsome
            | cons f fs =>
                simp only [List.cons_append, List.cons.injEq] at h
                refine ⟨fs, tail, h.2, hsome, ?_⟩
                intro front' tail' h' hlt
                exact hleft (c :: front') tail' (by simp [h']) (by simpa using hlt)

theorem chainIdMatch_eq_none_iff (content : JSString) :
    chainIdMatch content = none ↔
      ∀ front tail, content = front ++ tail → chainIdAt tail = none := by
  induction content with
  | nil =>
      simp only [chainIdMatch]
      constructor
      · intro h front tail hft
        have hft' : front ++ tail = [] := hft.symm
        rw [List.append_eq_nil] at hft'
        rw [hft'.2]
        exact h
      · intro h
        exact h [] [] rfl
  | cons c cs ih =>
      simp only [chainIdMatch]
      cases hat : chainIdAt (c :: cs) with
      | some d =>
          simp only
          constructor
          · intro h
            cases h
          · intro h
            have := h [] (c :: cs) rfl
            rw [hat] at this
            cases this
      | none =>
          simp only
          rw [ih]
          constructor
          · intro h front tail hft
            cases front with
            | nil =>
                simp only [List.nil_append] at hft
                rw [← hft]
                exact hat
            | cons f fs =>
                simp only [List.cons_append, List.cons.injEq] at hft
                exact h fs tail hft.2
          · intro h front tail hft
            exact h (c :: front) tail (by simp [hft])

/-! ## The languages of literals and of repeated classes -/

namespace Re

theorem matches_chr_iff (c : Char) (x : List Nat) :
    Matches (Re.chr c) x ↔ x = [c.toNat] := by
  simp only [chr, matches_cls_iff, beq_iff_eq]
  constructor
  · rintro ⟨u, rfl, rfl⟩
    rfl
  · rintro rfl
    exact ⟨c.toNat, rfl, rfl⟩

theorem matches_lit (cs : List Char) (m : List Nat) :
    Matches (cs.foldr (fun c r => Re.seq (Re.chr c) r) Re.empty) m ↔
      m = cs.map Char.toNat := by
  induction cs generalizing m with
  | nil => simp [matches_empty_iff]
  | cons c cs ih =>
      simp only [List.foldr_cons, matches_seq_iff, matches_chr_iff, ih, List.map_cons]
      constructor
      · rintro ⟨x, y, rfl, rfl, rfl⟩
        rfl
      · rintro rfl
        exact ⟨[c.toNat], cs.map Char.toNat, rfl, rfl, rfl⟩

theorem matches_star_cls (p : Nat → Bool) (m : List Nat) :
    Matches (Re.star (Re.cls p)) m ↔ ∀ u ∈ m, p u = true := by
  induction m with
  | nil => simp [Matches.starNil]
  | cons c s ih =>
      constructor
      · intro h
        obtain ⟨x, y, hs, hx, hy⟩ := matches_star_cons (Re.cls p) c s h
        obtain ⟨u, hu, hp⟩ := (matches_cls_iff p (c :: x)).1 hx
        simp only [List.cons.injEq] at hu
        obtain ⟨rfl, rfl⟩ := hu
        simp only [List.nil_append] at hs
        subst hs
        intro v hv
        rcases List.mem_cons.1 hv with rfl | hv
        · exact hp
        · exact ih.1 hy v hv
      · intro h
        exact Matches.starCons (Re.cls p) [c] s
          (Matches.cls p c (h c (List.mem_cons_self _ _)))
          (ih.2 (fun v hv => h v (List.mem_cons_of_mem _ hv)))

theorem matches_plus_cls (p : Nat → Bool) (m : List Nat) :
    Matches (Re.plus (Re.cls p)) m ↔ m ≠ [] ∧ ∀ u ∈ m, p u = true := by
  simp only [plus, matches_seq_iff, matches_cls_iff, matches_star_cls]
  constructor
  · rintro ⟨x, y, rfl, ⟨c, rfl, hc⟩, hy⟩
    refine ⟨by simp, ?_⟩
    intro u hu
    rcases List.mem_cons.1 hu with rfl | hu
    · exact hc
    · exact hy u hu
  · rintro ⟨hne, h⟩
    obtain ⟨c, cs, rfl⟩ := List.exists_cons_of_ne_nil hne
    exact ⟨[c], cs, rfl, ⟨c, rfl, h c (List.mem_cons_self _ _)⟩,
      fun u hu => h u (List.mem_cons_of_mem _ hu)⟩

theorem matches_lit_string (str : String) (m : List Nat) :
    Matches (Re.lit str) m ↔ m = str.toList.map Char.toNat :=
  matches_lit str.toList m

end Re

theorem test_reChainId_iff (content : JSString) :
    Re.test reChainId content = true ↔
      ∃ front ws d rest, content = front ++ js "chainId:" ++ ws ++ d :: rest ∧
        (∀ u ∈ ws, isWhiteSpace u = true) ∧ isDigit d = true := by
  have hchars : ("chainId:".toList.map Char.toNat) = js "chainId:" := by decide
  rw [Re.test_iff]
  simp only [reChainId, Re.matches_seq_iff, Re.matches_lit_string, hchars, Re.matches_star_cls,
    Re.matches_plus_cls]
  constructor
  · rintro ⟨front, m, rest, hc, x, y, rfl, rfl, ws, ds, rfl, hws, hne, hds⟩
    obtain ⟨d, ds', rfl⟩ := List.exists_cons_of_ne_nil hne
    exact ⟨front, ws, d, ds' ++ rest, by simp [hc, List.append_assoc], hws,
      hds d (List.mem_cons_self _ _)⟩
  · rintro ⟨front, ws, d, rest, hc, hws, hd⟩
    refine ⟨front, js "chainId:" ++ (ws ++ [d]), rest, by simp [hc, List.append_assoc],
      js "chainId:", ws ++ [d], rfl, rfl, ws, [d], rfl, hws, by simp, ?_⟩
    intro u hu
    simp only [List.mem_singleton] at hu
    rw [hu]
    exact hd

theorem chainIdMatch_isSome_iff (content : JSString) :
    (chainIdMatch content).isSome = true ↔
      ∃ front ws d rest, content = front ++ js "chainId:" ++ ws ++ d :: rest ∧
        (∀ u ∈ ws, isWhiteSpace u = true) ∧ isDigit d = true := by
  constructor
  · intro h
    obtain ⟨digits, hdigits⟩ := Option.isSome_iff_exists.1 h
    obtain ⟨front, tail, hc, hat, _⟩ := (chainIdMatch_eq_some_iff content digits).1 hdigits
    obtain ⟨ws, d, rest, ht, hws, hd⟩ := (chainIdAt_isSome_iff tail).1 (by rw [hat]; rfl)
    exact ⟨front, ws, d, rest, by simp [hc, ht, List.append_assoc], hws, hd⟩
  · rintro ⟨front, ws, d, rest, hc, hws, hd⟩
    cases hm : chainIdMatch content with
    | some digits => rfl
    | none =>
        have hnone := (chainIdMatch_eq_none_iff content).1 hm front
          (js "chainId:" ++ ws ++ d :: rest) (by simp [hc, List.append_assoc])
        have hsome := (chainIdAt_isSome_iff (js "chainId:" ++ ws ++ d :: rest)).2
          ⟨ws, d, rest, rfl, hws, hd⟩
        rw [hnone] at hsome
        cases hsome

namespace OrbitCheck

theorem orbit_chain_line_reported (readFileSync : JSString → ReadResult)
    (files : List JSString) (st : ScriptState) (file content line : JSString)
    (hmem : file ∈ files) (hread : readFileSync file = ReadResult.ok content)
    (hline : line ∈ chainIdLines content) :
    line ∈ (files.foldl (fileStep readFileSync) st).stdout := by
  induction files generalizing st with
  | nil => simp at hmem
  | cons f rest ih =>
      rw [List.foldl_cons]
      by_cases hf : file = f
      · subst hf
        apply orbit_stdout_mono
        simp [fileStep, hread, hline]
      · have hrest : file ∈ rest := by
          rcases List.mem_cons.1 hmem with h | h
          · exact absurd h hf
          · exact h
        exact ih _ hrest

end OrbitCheck

/-- C21: chain ID extraction by `/chainId:\s*(\d+)/` in `quickCheck` and in
`orbit/check.js`.  The value `chainIdMatch` is group 1 of the backtracking
matcher at the least index that has a match, and it exists exactly when the
pattern tests true.  A chain ID is found if and only if the content contains
`chainId:`, then white space or none, then a digit.  The value found is not
empty and all digits; it is the run of digits after `chainId:` and the white
space at the leftmost such place, and no digit follows it.  `quickCheck` prints
it after `[OK] Chain ID found: ` and `orbit/check.js` after `Chain ID: `.  When
the first such place reads `chainId: 42090, // Example chain ID`, as in
`microfinance_hub.js`, the value is `42090`. -/
theorem chain_id_is_leftmost_digit_run (content : JSString) :
    (∀ s, chainIdAt s =
        Re.captureAt (Re.seq (Re.lit "chainId:") (Re.star (Re.cls isWhiteSpace)))
          (Re.plus (Re.cls isDigit)) s) ∧
      (chainIdMatch content).isSome = Re.test reChainId content ∧
      ((∃ digits, chainIdMatch content = some digits) ↔
        ∃ front ws d rest, content = front ++ js "chainId:" ++ ws ++ d :: rest ∧
          (∀ u ∈ ws, isWhiteSpace u = true) ∧ isDigit d = true) ∧
      (∀ digits, chainIdMatch content = some digits →
        digits ≠ [] ∧ (∀ u ∈ digits, isDigit u = true) ∧
        ∃ front ws rest, content = front ++ js "chainId:" ++ ws ++ digits ++ rest ∧
          (∀ u ∈ ws, isWhiteSpace u = true) ∧
          (∀ u rest', rest = u :: rest' → isDigit u = false) ∧
          ∀ front' ws' d' rest', content = front' ++ js "chainId:" ++ ws' ++ d' :: rest' →
            (∀ u ∈ ws', isWhiteSpace u = true) → isDigit d' = true →
            front.length ≤ front'.length) ∧
      (∀ digits filename (readFileSync : JSString → ReadResult),
        chainIdMatch content = some digits → readFileSync filename = ReadResult.ok content →
        (OrbitTestUtils.quickCheck filename readFileSync).stdout.take 2 =
          [js "Quick checking: " ++ filename, js "[OK] Chain ID found: " ++ digits]) ∧
      (∀ filename (readFileSync : JSString → ReadResult),
        chainIdMatch content = none → readFileSync filename = ReadResult.ok content →
        (OrbitTestUtils.quickCheck filename readFileSync).stdout.take 2 =
          [js "Quick checking: " ++ filename,
            js "[WARNING] Chain ID not found or in unexpected format"]) ∧
      (∀ digits, chainIdMatch content = some digits →
        OrbitCheck.chainIdLines content = [js "Chain ID: " ++ digits]) ∧
      (chainIdMatch content = none → OrbitCheck.chainIdLines content = []) ∧
      (∀ digits listing (readFileSync : JSString → ReadResult) file,
        chainIdMatch content = some digits → file ∈ OrbitCheck.jsFiles listing →
        readFileSync file = ReadResult.ok content →
        (js "Chain ID: " ++ digits) ∈
          (OrbitCheck.main (DirResult.ok listing) readFileSync).stdout) ∧
      (∀ front rest, content = front ++ js "chainId: 42090, // Example chain ID" ++ rest →
        (∀ front' ws' d' rest', content = front' ++ js "chainId:" ++ ws' ++ d' :: rest' →
          (∀ u ∈ ws', isWhiteSpace u = true) → isDigit d' = true →
          front.length ≤ front'.length) →
        chainIdMatch content = some (js "42090")) ∧
      chainIdMatch MicrofinanceHub.configSource = some (js "42090") := by
  have hsome : (chainIdMatch content).isSome = Re.test reChainId content := by
    rw [Bool.eq_iff_iff, chainIdMatch_isSome_iff, test_reChainId_iff]
  refine ⟨chainIdAt_eq_captureAt, hsome, ?_, ?_, ?_, ?_, ?_, ?_, ?_, ?_, by decide⟩
  · rw [← chainIdMatch_isSome_iff, Option.isSome_iff_exists]
  · intro digits hdigits
    obtain ⟨front, tail, hc, hat, hleft⟩ := (chainIdMatch_eq_some_iff content digits).1 hdigits
    obtain ⟨ws, rest, ht, hws, hne, hds, hrest⟩ := (chainIdAt_eq_some_iff tail digits).1 hat
    refine ⟨hne, hds, front, ws, rest, by simp [hc, ht, List.append_assoc], hws, hrest, ?_⟩
    intro front' ws' d' rest' hc' hws' hd'
    by_contra hlt
    have hnone := hleft front' (js "chainId:" ++ ws' ++ d' :: rest')
      (by simp [hc', List.append_assoc]) (by omega)
    have hsome' := (chainIdAt_isSome_iff (js "chainId:" ++ ws' ++ d' :: rest')).2
      ⟨ws', d', rest', rfl, hws', hd'⟩
    rw [hnone] at hsome'
    cases hsome'
  · intro digits filename readFileSync hdigits hread
    simp [OrbitTestUtils.quickCheck, hread, hdigits]
  · intro filename readFileSync hnone hread
    simp [OrbitTestUtils.quickCheck, hread, hnone]
  · intro digits hdigits
    simp [OrbitCheck.chainIdLines, hdigits]
  · intro hnone
    simp [OrbitCheck.chainIdLines, hnone]
  · intro digits listing readFileSync file hdigits hmem hread
    have hline : (js "Chain ID: " ++ digits) ∈ OrbitCheck.chainIdLines content := by
      simp [OrbitCheck.chainIdLines, hdigits]
    have h := OrbitCheck.orbit_chain_line_reported readFileSync (OrbitCheck.jsFiles listing)
      ⟨true, [js "Found " ++ natToString (OrbitCheck.jsFiles listing).length ++
        js " Orbit chain scripts to check"], []⟩ file content _ hmem hread hline
    simp only [OrbitCheck.main, List.mem_append]
    exact Or.inl h
  · intro front rest hc hfirst
    have hX : js "chainId: 42090, // Example chain ID" =
        js "chainId:" ++ [32] ++ js "42090" ++ (44 :: js " // Example chain ID") := by decide
    rw [chainIdMatch_eq_some_iff]
    refine ⟨front, js "chainId: 42090, // Example chain ID" ++ rest,
      by simp [hc, List.append_assoc], ?_, ?_⟩
    · rw [chainIdAt_eq_some_iff]
      refine ⟨[32], 44 :: js " // Example chain ID" ++ rest, by rw [hX]; simp [List.append_assoc],
        by decide, by decide, by decide, ?_⟩
      intro u rest' hu
      simp only [List.cons_append, List.cons.injEq] at hu
      rw [← hu.1]
      decide
    · intro front' tail' hc' hlt
      cases hat : chainIdAt tail' with
      | none => rfl
      | some digits =>
          obtain ⟨ws', d', rest', ht, hws', hd'⟩ :=
            (chainIdAt_isSome_iff tail').1 (by rw [hat]; rfl)
          have := hfirst front' ws' d' rest' (by simp [hc', ht, List.append_assoc]) hws' hd'
          omega

/-- Witness of C21: the configuration lines of `microfinance_hub.js`. -/
theorem chain_id_is_leftmost_digit_run_witness :
    chainIdMatch MicrofinanceHub.configSource = some (js "42090") ∧
      (OrbitTestUtils.quickCheck (js "microfinance_hub.js")
          (fun _ => ReadResult.ok MicrofinanceHub.configSource)).stdout.take 2 =
        [js "Quick checking: microfinance_hub.js", js "[OK] Chain ID found: 42090"] ∧
      js "Chain ID: 42090" ∈
        (OrbitCheck.main (DirResult.ok [js "check.js", js "microfinance_hub.js"])
          (fun _ => ReadResult.ok MicrofinanceHub.configSource)).stdout := by
  have h := chain_id_is_leftmost_digit_run MicrofinanceHub.configSource
  have hid : chainIdMatch MicrofinanceHub.configSource = some (js "42090") := h.2.2.2.2.2.2.2.2.2.2
  refine ⟨hid, ?_, ?_⟩
  · exact (h.2.2.2.2.1 (js "42090") (js "microfinance_hub.js")
      (fun _ => ReadResult.ok MicrofinanceHub.configSource) hid rfl).trans (by decide)
  · have hrun := h.2.2.2.2.2.2.2.2.1 (js "42090") [js "check.js", js "microfinance_hub.js"]
      (fun _ => ReadResult.ok MicrofinanceHub.configSource) (js "microfinance_hub.js") hid
      (by decide) rfl
    have heq : js "Chain ID: " ++ js "42090" = js "Chain ID: 42090" := by decide
    rw [heq] at hrun
    exact hrun

/-! ## Relations between the scripts -/

theorem filter_sublist_filter (p q : JSString → Bool) (files : List JSString)
    (h : ∀ file ∈ files, p file = true → q file = true) :
    (files.filter p).Sublist (files.filter q) := by
  induction files with
  | nil => exact List.Sublist.slnil
  | cons f rest ih =>
      have ih' := ih (fun file hmem => h file (List.mem_cons_of_mem _ hmem))
      by_cases hp : p f = true
      · have hq := h f (List.mem_cons_self _ _) hp
        simp only [List.filter_cons, hp, hq, if_true]
        exact ih'.cons₂ f
      · by_cases hq : q f = true
        · simp only [List.filter_cons, hp, hq, if_true]
          simp only [Bool.false_eq_true, if_false]
          exact ih'.cons f
        · simp only [List.filter_cons, hp, hq]
          simpa using ih'

theorem test_embedding (r : Re) (front content rest : List Nat)
    (h : Re.test r content = true) : Re.test r (front ++ content ++ rest) = true := by
  rw [Re.test_iff] at h ⊢
  obtain ⟨a, m, b, hc, hm⟩ := h
  exact ⟨front ++ a, m, b ++ rest, by simp [hc, List.append_assoc], hm⟩

/-- C22: the chain IDs of the five Orbit demo scripts are 42069
(`e_governance_marketplace.js`), 42070 (`fintech_bridge.js`), 42071
(`trade_platform.js`), 42080 (`logistics_network.js`) and 42090
(`microfinance_hub.js`); they are pairwise distinct, every script has the
`parentChainId` 421614, and no chain ID is that number. -/
theorem demo_chain_ids_are_distinct :
    EGovernanceMarketplace.orbitChainConfig.chainId = 42069 ∧
      FintechBridge.orbitChainConfig.chainId = 42070 ∧
      TradePlatform.orbitChainConfig.chainId = 42071 ∧
      LogisticsNetwork.orbitChainConfig.chainId = 42080 ∧
      MicrofinanceHub.orbitChainConfig.chainId = 42090 ∧
      (orbitChainConfigs.map (fun config => config.chainId)).Pairwise (fun a b => a ≠ b) ∧
      (∀ config ∈ orbitChainConfigs, config.parentChainId = 421614) ∧
      ∀ config ∈ orbitChainConfigs, ∀ other ∈ orbitChainConfigs,
        config.chainId ≠ other.parentChainId := by
  decide

/-- C23: the verdict of `check_contract.js` is monotone under embedding the
content in a larger text.  A check that is found in a content is found in the
content with any text before it and any text after it; so a content that
passes all critical checks still passes them there, and the run on the larger
text ends with the same "passes" line. -/
theorem verdict_monotone_under_embedding (content before after : JSString) :
    (∀ check ∈ CheckContract.checks, check.regex.test content = true →
        check.regex.test (before ++ content ++ after) = true) ∧
      (CheckContract.passedCritical content = true →
        CheckContract.passedCritical (before ++ content ++ after) = true) ∧
      ∀ (contractName : JSString) (readSmall readLarge : JSString → ReadResult),
        contractName ≠ [] → readSmall contractName = ReadResult.ok content →
        readLarge contractName = ReadResult.ok (before ++ content ++ after) →
        (CheckContract.main (some contractName) readSmall).stdout.getLast? =
          some CheckContract.passLine →
        (CheckContract.main (some contractName) readLarge).stdout.getLast? =
          some CheckContract.passLine := by
  have hpassed : CheckContract.passedCritical content = true →
      CheckContract.passedCritical (before ++ content ++ after) = true := by
    rw [CheckContract.passedCritical_eq, CheckContract.passedCritical_eq]
    simp only [Bool.and_eq_true]
    rintro ⟨⟨⟨h1, h2⟩, h3⟩, h4⟩
    exact ⟨⟨⟨test_embedding _ _ _ _ h1, test_embedding _ _ _ _ h2⟩,
      test_embedding _ _ _ _ h3⟩, test_embedding _ _ _ _ h4⟩
  refine ⟨fun check _ h => test_embedding _ _ _ _ h, hpassed, ?_⟩
  intro contractName readSmall readLarge hname hsmall hlarge hlast
  rw [CheckContract.main_of_read_ok contractName _ readSmall hname hsmall,
    CheckContract.report_getLast] at hlast
  rw [CheckContract.main_of_read_ok contractName _ readLarge hname hlarge,
    CheckContract.report_getLast]
  cases hp : CheckContract.passedCritical content with
  | true => rw [hpassed hp]; rfl
  | false =>
      rw [hp] at hlast
      simp only [Bool.false_eq_true, if_false, Option.some.injEq] at hlast
      exact absurd hlast.symm CheckContract.passLine_ne_failLine

/-- Witness of C23: a passing contract between a comment and a test module. -/
theorem verdict_monotone_under_embedding_witness :
    CheckContract.passedCritical (js "pub fn f struct S use stylus_sdk impl S") = true ∧
      CheckContract.passedCritical
        (js "// contract\n" ++ js "pub fn f struct S use stylus_sdk impl S" ++
          js "\nmod tests;") = true := by
  have h : CheckContract.passedCritical (js "pub fn f struct S use stylus_sdk impl S") = true := by
    decide
  exact ⟨h, (verdict_monotone_under_embedding (js "pub fn f struct S use stylus_sdk impl S")
    (js "// contract\n") (js "\nmod tests;")).2.1 h⟩

/-- C24: the two versions of `validateStylusFiles` select the same files, and
every file that `code-snippets/stylus/test_utils.js` puts in `valid` is put in
`valid` by `test_utils.js`: the first list is a sublist of the second.  The
inclusion can be strict: a readable file without the Stylus elements is valid
for `test_utils.js` alone. -/
theorem content_checking_validator_is_stricter (listing : List JSString)
    (readFileSync : JSString → ReadResult) :
    TestUtils.rustFiles listing = StylusTestUtils.rustFiles listing ∧
      (∃ strict readable,
        (StylusTestUtils.validateStylusFiles (DirResult.ok listing) readFileSync).completion =
          Completion.returned strict ∧
        (TestUtils.validateStylusFiles (DirResult.ok listing) readFileSync).completion =
          Completion.returned readable ∧
        strict.valid.Sublist readable.valid ∧
        ∀ file, file ∈ strict.valid → file ∈ readable.valid) ∧
      (StylusTestUtils.validateStylusFiles (DirResult.ok [js "a.rs"])
          (fun _ => ReadResult.ok (js "fn main()"))).completion =
        Completion.returned ⟨[], [⟨js "a.rs", js "Missing stylus_sdk import"⟩]⟩ ∧
      (TestUtils.validateStylusFiles (DirResult.ok [js "a.rs"])
          (fun _ => ReadResult.ok (js "fn main()"))).completion =
        Completion.returned ⟨[js "a.rs"], []⟩ := by
  refine ⟨rfl, ?_, by decide, by decide⟩
  have hsub : ((StylusTestUtils.scan readFileSync
      (StylusTestUtils.rustFiles listing)).results.valid).Sublist
      ((TestUtils.scan readFileSync (TestUtils.rustFiles listing)).results.valid) := by
    rw [StylusTestUtils.stylus_scan_results, TestUtils.root_scan_results]
    apply filter_sublist_filter
    intro file _ h
    cases hread : readFileSync file with
    | ok content => rfl
    | error message =>
        rw [hread] at h
        simp [StylusTestUtils.issueFor] at h
  exact ⟨_, _, rfl, rfl, hsub, fun file hmem => hsub.subset hmem⟩

/-- Witness of C24: a contract with the Stylus elements is valid for both
versions. -/
theorem content_checking_validator_is_stricter_witness :
    ∃ strict readable,
      (StylusTestUtils.validateStylusFiles (DirResult.ok [js "a.rs", js "b.rs"])
        (fun file =>
          if file = js "a.rs" then ReadResult.ok (js "use stylus_sdk; pub struct S; impl S")
          else ReadResult.ok (js "fn main()"))).completion = Completion.returned strict ∧
      (TestUtils.validateStylusFiles (DirResult.ok [js "a.rs", js "b.rs"])
        (fun file =>
          if file = js "a.rs" then ReadResult.ok (js "use stylus_sdk; pub struct S; impl S")
          else ReadResult.ok (js "fn main()"))).completion = Completion.returned readable ∧
      strict.valid = [js "a.rs"] ∧ js "a.rs" ∈ readable.valid := by
  obtain ⟨strict, readable, hs, hr, _, hmem⟩ :=
    (content_checking_validator_is_stricter [js "a.rs", js "b.rs"]
      (fun file =>
        if file = js "a.rs" then ReadResult.ok (js "use stylus_sdk; pub struct S; impl S")
        else ReadResult.ok (js "fn main()"))).2.1
  have hstrict : strict = ⟨[js "a.rs"], [⟨js "b.rs", js "Missing stylus_sdk import"⟩]⟩ :=
    Completion.returned.inj (hs.symm.trans (by decide))
  refine ⟨strict, readable, hs, hr, by rw [hstrict], hmem _ ?_⟩
  rw [hstrict]
  simp

theorem includes_of_includes (content inner outer : JSString)
    (hinner : includes outer inner = true) (h : includes content outer = true) :
    includes content inner = true := by
  rw [includes_iff] at hinner h ⊢
  obtain ⟨a, b, rfl⟩ := hinner
  obtain ⟨front, rest, rfl⟩ := h
  exact ⟨front ++ a, b ++ rest, by simp [List.append_assoc]⟩

/-- C25: `orbit/check.js` marks a content `PASSED` if and only if it contains
the six patterns.  A content that it marks `PASSED` contains
`createRollupChain` and `ethers`, so `validateOrbitFiles` records neither
`Missing createRollupChain import` nor `Missing ethers import` for a file with
that content. -/
theorem passed_script_has_both_imports (content : JSString) :
    (OrbitCheck.scriptPassed content = true ↔
        (includes content (js "createRollupChain") = true ∧
          includes content (js "require('ethers')") = true ∧
          includes content (js "dotenv.config()") = true ∧
          includes content (js "chainId:") = true ∧ includes content (js "deploy") = true ∧
          includes content (js "catch (error)") = true)) ∧
      (OrbitCheck.scriptPassed content = true ↔
        OrbitCheck.statusLine content = js "\nScript status: ✅ PASSED") ∧
      (OrbitCheck.scriptPassed content = true →
        includes content (js "createRollupChain") = true ∧
          includes content (js "ethers") = true ∧
          ∀ (listing : List JSString) (readFileSync : JSString → ReadResult)
            (newFunction : JSString → Option JSString) (file : JSString),
            readFileSync file = ReadResult.ok content →
            ∃ results,
              (OrbitTestUtils.validateOrbitFiles (DirResult.ok listing) readFileSync
                newFunction).completion = Completion.returned results ∧
              ∀ i ∈ results.issues, i.file = file →
                i.issue ≠ js "Missing createRollupChain import" ∧
                  i.issue ≠ js "Missing ethers import") := by
  have hsix : OrbitCheck.scriptPassed content = true ↔
      (includes content (js "createRollupChain") = true ∧
        includes content (js "require('ethers')") = true ∧
        includes content (js "dotenv.config()") = true ∧
        includes content (js "chainId:") = true ∧ includes content (js "deploy") = true ∧
        includes content (js "catch (error)") = true) := by
    rw [OrbitCheck.orbit_scriptPassed_iff]
    simp [OrbitCheck.checks]
  refine ⟨hsix, ?_, ?_⟩
  · have hne : js "\nScript status: ⚠️ ISSUES FOUND" ≠ js "\nScript status: ✅ PASSED" := by
      decide
    have h1 : js "\nScript status: " ++ js "✅ PASSED" = js "\nScript status: ✅ PASSED" := by
      decide
    have h2 : js "\nScript status: " ++ js "⚠️ ISSUES FOUND" =
        js "\nScript status: ⚠️ ISSUES FOUND" := by
      decide
    unfold OrbitCheck.statusLine
    cases OrbitCheck.scriptPassed content <;> simp [h1, h2, hne]
  · intro hpassed
    obtain ⟨hcreate, hrequire, _⟩ := hsix.1 hpassed
    have hethers : includes content (js "ethers") = true :=
      includes_of_includes content (js "ethers") (js "require('ethers')") (by decide) hrequire
    refine ⟨hcreate, hethers, ?_⟩
    intro listing readFileSync newFunction file hread
    refine ⟨_, rfl, ?_⟩
    intro i hi hfile
    rw [OrbitTestUtils.orbit_scan_results] at hi
    have hissue := ((mem_issues_iff
      (fun f => OrbitTestUtils.issueFor newFunction (readFileSync f)) _ i).1 hi).2
    simp only [hfile, hread] at hissue
    cases hnf : newFunction content with
    | some message =>
        rw [OrbitTestUtils.orbit_issueFor_throws _ _ _ hnf] at hissue
        have hs : js "Syntax error: " = 83 :: js "yntax error: " := by decide
        have hm1 : js "Missing createRollupChain import" =
            77 :: js "issing createRollupChain import" := by decide
        have hm2 : js "Missing ethers import" = 77 :: js "issing ethers import" := by decide
        simp only [Option.some.injEq] at hissue
        rw [← hissue, hs, hm1, hm2]
        constructor <;> simp
    | none =>
        rw [OrbitTestUtils.orbit_issueFor_parses _ _ hnf] at hissue
        simp [hcreate, hethers] at hissue

/-- Witness of C25: a script with the six patterns, validated as `a.js`. -/
theorem passed_script_has_both_imports_witness :
    OrbitCheck.scriptPassed
        (js "createRollupChain require('ethers') dotenv.config() chainId: 1 deploy catch (error)") =
        true ∧
      ∃ results,
        (OrbitTestUtils.validateOrbitFiles (DirResult.ok [js "a.js"])
          (fun _ => ReadResult.ok
            (js "createRollupChain require('ethers') dotenv.config() chainId: 1 deploy catch (error)"))
          (fun _ => none)).completion = Completion.returned results ∧
        ∀ i ∈ results.issues, i.file = js "a.js" →
          i.issue ≠ js "Missing createRollupChain import" ∧
            i.issue ≠ js "Missing ethers import" := by
  have hpassed : OrbitCheck.scriptPassed
      (js "createRollupChain require('ethers') dotenv.config() chainId: 1 deploy catch (error)") =
      true := by decide
  exact ⟨hpassed, ((passed_script_has_both_imports _).2.2 hpassed).2.2 [js "a.js"]
    (fun _ => ReadResult.ok _) (fun _ => none) (js "a.js") rfl⟩

theorem test_reImpl_iff (content : JSString) :
    Re.test CheckContract.reImpl content = true ↔
      ∃ front ws w rest, content = front ++ js "impl" ++ ws ++ w :: rest ∧ ws ≠ [] ∧
        (∀ u ∈ ws, isWhiteSpace u = true) ∧ isWordChar w = true := by
  have hchars : ("impl".toList.map Char.toNat) = js "impl" := by decide
  rw [Re.test_iff]
  simp only [CheckContract.reImpl, Re.matches_seq_iff, Re.matches_lit_string, hchars,
    Re.matches_plus_cls]
  constructor
  · rintro ⟨front, m, rest, hc, x, y, rfl, rfl, ws, ds, rfl, ⟨hne, hws⟩, hne', hds⟩
    obtain ⟨w, ds', rfl⟩ := List.exists_cons_of_ne_nil hne'
    exact ⟨front, ws, w, ds' ++ rest, by simp [hc, List.append_assoc], hne, hws,
      hds w (List.mem_cons_self _ _)⟩
  · rintro ⟨front, ws, w, rest, hc, hne, hws, hw⟩
    refine ⟨front, js "impl" ++ (ws ++ [w]), rest, by simp [hc, List.append_assoc],
      js "impl", ws ++ [w], rfl, rfl, ws, [w], rfl, ⟨hne, hws⟩, by simp, ?_⟩
    intro u hu
    simp only [List.mem_singleton] at hu
    rw [hu]
    exact hw

/-- C26: the substring registry of `stylus/check.js` does not refine the regex
registry of `check_contract.js`.  The content
`use stylus_sdk; pub fn f() struct S; #[external] impl ` contains the five
substrings, so `stylus/check.js` marks it `PASSED`, and its only `impl` is
followed by a space and the end of the text, so `check_contract.js` does not
find an implementation block and reports missing critical elements.  So does
it for every content in which no `impl` is followed by white space and then an
identifier character. -/
theorem substring_registry_does_not_refine_regex_registry :
    StylusCheck.checks.map
        (fun check =>
          includes (js "use stylus_sdk; pub fn f() struct S; #[external] impl ") check.pattern) =
        [true, true, true, true, true] ∧
      StylusCheck.contractPassed (js "use stylus_sdk; pub fn f() struct S; #[external] impl ") =
        true ∧
      StylusCheck.statusLine (js "use stylus_sdk; pub fn f() struct S; #[external] impl ") =
        js "\nContract status: ✅ PASSED" ∧
      CheckContract.checks.map
        (fun check =>
          check.regex.test (js "use stylus_sdk; pub fn f() struct S; #[external] impl ")) =
        [true, true, true, true, false, false, false] ∧
      CheckContract.passedCritical
        (js "use stylus_sdk; pub fn f() struct S; #[external] impl ") = false ∧
      (CheckContract.main (some (js "a.rs"))
          (fun _ => ReadResult.ok
            (js "use stylus_sdk; pub fn f() struct S; #[external] impl "))).stdout.getLast? =
        some CheckContract.failLine ∧
      ∀ content : JSString,
        (¬ ∃ front ws w rest, content = front ++ js "impl" ++ ws ++ w :: rest ∧ ws ≠ [] ∧
          (∀ u ∈ ws, isWhiteSpace u = true) ∧ isWordChar w = true) →
        CheckContract.passedCritical content = false := by
  refine ⟨by decide, by decide, by decide, by decide, by decide, by decide, ?_⟩
  intro content hno
  rw [← test_reImpl_iff] at hno
  rw [CheckContract.passedCritical_eq]
  simp only [Bool.not_eq_true] at hno
  rw [hno]
  simp

/-- Witness of C26: the only `impl` is at the end of the text. -/
theorem substring_registry_does_not_refine_regex_registry_witness :
    Re.test CheckContract.reImpl (js "pub fn f() impl ") = false ∧
      CheckContract.passedCritical (js "pub fn f() impl ") = false := by
  have hno : Re.test CheckContract.reImpl (js "pub fn f() impl ") = false := by decide
  refine ⟨hno, substring_registry_does_not_refine_regex_registry.2.2.2.2.2.2 _ ?_⟩
  rw [← test_reImpl_iff, hno]
  simp

/-- C27: every file that `orbit/check.js` selects is selected by
`validateOrbitFiles`: the first selection is a sublist of the second.  The
converse fails: in the directory of the scripts `validateOrbitFiles` also
selects `check.js` and `validate.js`, which `orbit/check.js` leaves out. -/
theorem check_selection_within_validate_selection (listing : List JSString) :
    (OrbitCheck.jsFiles listing).Sublist (OrbitTestUtils.jsFiles listing) ∧
      (∀ file, file ∈ OrbitCheck.jsFiles listing → file ∈ OrbitTestUtils.jsFiles listing) ∧
      OrbitTestUtils.jsFiles
          [js "check.js", js "e_governance_marketplace.js", js "fintech_bridge.js",
            js "logistics_network.js", js "microfinance_hub.js", js "test_utils.js",
            js "trade_platform.js", js "validate.js"] =
        [js "check.js", js "e_governance_marketplace.js", js "fintech_bridge.js",
          js "logistics_network.js", js "microfinance_hub.js", js "trade_platform.js",
          js "validate.js"] ∧
      OrbitCheck.jsFiles
          [js "check.js", js "e_governance_marketplace.js", js "fintech_bridge.js",
            js "logistics_network.js", js "microfinance_hub.js", js "test_utils.js",
            js "trade_platform.js", js "validate.js"] =
        [js "e_governance_marketplace.js", js "fintech_bridge.js", js "logistics_network.js",
          js "microfinance_hub.js", js "trade_platform.js"] := by
  have hsub : (OrbitCheck.jsFiles listing).Sublist (OrbitTestUtils.jsFiles listing) := by
    unfold OrbitCheck.jsFiles OrbitTestUtils.jsFiles
    apply filter_sublist_filter
    intro file _ h
    simp only [Bool.and_eq_true, Bool.not_eq_true', beq_eq_false_iff_ne, ne_eq] at h ⊢
    refine ⟨h.1.1.1, ?_⟩
    rintro rfl
    have hstart : startsWith (js "test_utils.js") (js "test_") = true := by decide
    rw [hstart] at h
    exact absurd h.1.2 (by simp)
  exact ⟨hsub, fun file hmem => hsub.subset hmem, by decide, by decide⟩

/-- Witness of C27: a demo script selected by both. -/
theorem check_selection_within_validate_selection_witness :
    js "a.js" ∈ OrbitCheck.jsFiles [js "check.js", js "a.js"] ∧
      js "a.js" ∈ OrbitTestUtils.jsFiles [js "check.js", js "a.js"] := by
  have h : js "a.js" ∈ OrbitCheck.jsFiles [js "check.js", js "a.js"] := by decide
  exact ⟨h, (check_selection_within_validate_selection [js "check.js", js "a.js"]).2.1 _ h⟩

end ArbitrumPulse
